import Mathlib

/-!
# Timeslice index of the data-processing layer

A shallow embedding of `Framework/Core/src/TimesliceIndex.cxx`.

* `uint64_t` / `size_t` values are natural numbers.  The only arithmetic the
  embedded functions perform on them is `timestamp % mMaxLanes` and the stride
  `i += mMaxLanes` over indices bounded by the size of `mVariables`; a
  `std::vector` never holds `2^63` elements, so the stride cannot wrap.
* `std::vector` is `List`; an access outside the vector, and the division by
  zero of `% mMaxLanes`, are reported as a `Fault`.
* Loops are structural recursions; the strided scan of `findOldestSlot` takes
  fuel and reports `Fault.outOfFuel` when it runs dry.
* Signposts and log lines are not part of the state.
-/

namespace O2

/-! ## Data model -/

/-- Ways in which a call leaves the defined behaviour of the program. -/
inductive Fault
  | outOfBounds
  | divisionByZero
  | outOfFuel
  deriving DecidableEq

/-- Modelled from the spec: the variant stored in a context element (the header
`VariableContext.h` is not part of the sources).  The index only ever asks
whether the alternative is a `uint64_t`; every other non-empty alternative is
`other`. -/
inductive ContextElementValue
  | none
  | uint64 (v : Nat)
  | other (tag : Nat)
  deriving DecidableEq

/-- Modelled from the spec: a staged write `{position, value}` as passed to
`VariableContext::put`. -/
structure ContextUpdate where
  position : Nat
  newValue : ContextElementValue
  deriving DecidableEq

/-- Modelled from the spec: the Variable Context, "a small per-slot key/value
store ... with two-phase write semantics (stage a value, then commit it so
readers see either the old or the fully-written new value)".  Both stores keep
the most recent write first. -/
structure VariableContext where
  committed : List ContextUpdate
  staged : List ContextUpdate
  deriving DecidableEq

namespace VariableContext

/-- Modelled from the spec: a default-constructed context holds nothing. -/
def empty : VariableContext := ⟨[], []⟩

/-- Modelled from the spec: `get(pos)`, the committed value at `pos`. -/
def get (c : VariableContext) (pos : Nat) : ContextElementValue :=
  match c.committed.find? (fun u => u.position == pos) with
  | some u => u.newValue
  | none => ContextElementValue.none

/-- Modelled from the spec: `put(update)` stages a value. -/
def put (c : VariableContext) (u : ContextUpdate) : VariableContext :=
  { c with staged := u :: c.staged }

/-- Modelled from the spec: `commit()` makes the staged values readable. -/
def commit (c : VariableContext) : VariableContext :=
  { committed := c.staged ++ c.committed, staged := [] }

/-- Modelled from the spec: `reset()` forgets every value, after which the
context "no longer holds a readable timestamp". -/
def reset (_c : VariableContext) : VariableContext := empty

/-- The result of `std::get_if<uint64_t>(&ctx.get(0))`: the timestamp when
variable 0 is a `uint64_t`, `none` for the null pointer. -/
def timestamp? (c : VariableContext) : Option Nat :=
  match c.get 0 with
  | ContextElementValue.uint64 v => some v
  | _ => Option.none

end VariableContext

/-- Modelled from the spec: the channel-kind flag "distinguishing real data
channels from auxiliary/control channels"; the code compares with `DPL`. -/
inductive ChannelAccountingType
  | DPL
  | Auxiliary
  deriving DecidableEq

/-- Modelled from the spec: the per-source record; only the two fields read by
the index are kept. -/
structure InputChannelInfo where
  channelType : ChannelAccountingType
  oldestForChannel : Nat
  deriving DecidableEq

/-- The enumeration `BackpressureOp` switched on by `replaceLRUWith`. -/
inductive BackpressureOp
  | DropAncient
  | DropRecent
  | Wait
  deriving DecidableEq

/-- The enumeration `ActionTaken` returned by `replaceLRUWith`. -/
inductive ActionTaken
  | ReplaceUnused
  | ReplaceObsolete
  | DropInvalid
  | DropObsolete
  | Wait
  deriving DecidableEq

/-- Modelled from the spec: `TimesliceSlot::INVALID`, the `size_t` value `-1`
(the value `reset` writes as `(size_t)-1`). -/
def TimesliceSlot.INVALID : Nat := 2 ^ 64 - 1

/-- Modelled from the spec: `ChannelIndex::INVALID`, the `int` value `-1`. -/
def ChannelIndex.INVALID : Int := -1

/-- The pair `OldestInputInfo {timeslice, channel}`. -/
structure OldestInputInfo where
  timeslice : Nat
  channel : Int
  deriving DecidableEq

/-- The triple `OldestOutputInfo {timeslice, channel, slot}`. -/
structure OldestOutputInfo where
  timeslice : Nat
  channel : Int
  slot : Nat
  deriving DecidableEq

/-- The members of `TimesliceIndex`. -/
structure TimesliceIndex where
  mMaxLanes : Nat
  mBackpressurePolicy : BackpressureOp
  mChannels : List InputChannelInfo
  mVariables : List VariableContext
  mPublishedVariables : List VariableContext
  mDirty : List Bool
  mOldestPossibleInput : OldestInputInfo
  mOldestPossibleOutput : OldestOutputInfo
  deriving DecidableEq

/-! ## Operations -/

/-- An element access `v[i]` of a vector. -/
def readAt {α : Type} (v : List α) (i : Nat) : Except Fault α :=
  match v[i]? with
  | some a => Except.ok a
  | none => Except.error Fault.outOfBounds

/-- An element assignment `v[i] = a` of a vector. -/
def writeAt {α : Type} (v : List α) (i : Nat) (a : α) : Except Fault (List α) :=
  if i < v.length then Except.ok (v.set i a) else Except.error Fault.outOfBounds

/-- The vector resize `v.resize(s, fill)`. -/
def resizeList {α : Type} (v : List α) (s : Nat) (fill : α) : List α :=
  v.take s ++ List.replicate (s - v.length) fill

/-- The method `TimesliceIndex::resize`. -/
def resize (idx : TimesliceIndex) (s : Nat) : TimesliceIndex :=
  { idx with
    mVariables := resizeList idx.mVariables s VariableContext.empty
    mPublishedVariables := resizeList idx.mPublishedVariables s VariableContext.empty
    mDirty := resizeList idx.mDirty s false }

/-- The method `TimesliceIndex::associate`. -/
def associate (idx : TimesliceIndex) (timestamp : Nat) (slot : Nat) :
    Except Fault TimesliceIndex := do
  let ctx ← readAt idx.mVariables slot
  let vars ← writeAt idx.mVariables slot
    ((ctx.put ⟨0, ContextElementValue.uint64 timestamp⟩).commit)
  let dirty ← writeAt idx.mDirty slot true
  pure { idx with mVariables := vars, mDirty := dirty }

/-- Modelled from the spec: `isValid(slot)`, a slot is occupied "if its
Variable Context holds a committed TimesliceId" (the inline definition is not
part of the sources). -/
def isValid (idx : TimesliceIndex) (slot : Nat) : Except Fault Bool := do
  let ctx ← readAt idx.mVariables slot
  pure (ctx.timestamp?).isSome

/-- Modelled from the spec: `markAsInvalid(slot)`, after which the slot holds no
readable timestamp (the inline definition is not part of the sources). -/
def markAsInvalid (idx : TimesliceIndex) (slot : Nat) : Except Fault TimesliceIndex := do
  let ctx ← readAt idx.mVariables slot
  let vars ← writeAt idx.mVariables slot ctx.reset
  pure { idx with mVariables := vars }

/-- Modelled from the spec: `getOldestPossibleInput()`, the stored input fence. -/
def getOldestPossibleInput (idx : TimesliceIndex) : OldestInputInfo :=
  idx.mOldestPossibleInput

/-- The `for` loop of `findOldestSlot` (lines 53 to 64), entered with loop
variable `i` and the locals `oldest`, `oldTimestamp`. -/
def findOldestSlotLoop (vars : List VariableContext) (maxLanes : Nat) :
    Nat → Nat → Nat → Nat → Except Fault Nat
  | 0, _, _, _ => Except.error Fault.outOfFuel
  | fuel + 1, i, oldest, oldTimestamp =>
    if i < vars.length then
      match readAt vars i with
      | Except.error e => Except.error e
      | Except.ok ctx =>
        match ctx.timestamp? with
        | none => Except.ok i
        | some newTimestamp =>
          if oldTimestamp > newTimestamp then
            findOldestSlotLoop vars maxLanes fuel (i + maxLanes) i newTimestamp
          else
            findOldestSlotLoop vars maxLanes fuel (i + maxLanes) oldest oldTimestamp
    else
      Except.ok oldest

/-- The method `TimesliceIndex::findOldestSlot`. -/
def findOldestSlot (idx : TimesliceIndex) (timestamp : Nat) : Except Fault Nat :=
  if idx.mMaxLanes = 0 then Except.error Fault.divisionByZero
  else
    let lane := timestamp % idx.mMaxLanes
    match readAt idx.mVariables lane with
    | Except.error e => Except.error e
    | Except.ok ctx =>
      match ctx.timestamp? with
      | none => Except.ok lane
      | some oldTimestamp =>
        findOldestSlotLoop idx.mVariables idx.mMaxLanes (idx.mVariables.length + 1)
          (lane + idx.mMaxLanes) lane oldTimestamp

/-- The assignment `mVariables[slot] = newContext` of `replaceLRUWith`. -/
def storeContext (idx : TimesliceIndex) (slot : Nat) (newContext : VariableContext) :
    Except Fault TimesliceIndex := do
  let vars ← writeAt idx.mVariables slot newContext
  pure { idx with mVariables := vars }

/-- The method `TimesliceIndex::replaceLRUWith`; the result is the returned
tuple together with the index after the call. -/
def replaceLRUWith (idx : TimesliceIndex) (newContext : VariableContext) (timestamp : Nat) :
    Except Fault ((ActionTaken × Nat) × TimesliceIndex) := do
  let oldestSlot ← findOldestSlot idx timestamp
  let valid ← isValid idx oldestSlot
  if valid = false then
    let idx1 ← storeContext idx oldestSlot newContext
    pure ((ActionTaken.ReplaceUnused, oldestSlot), idx1)
  else
    let oldCtx ← readAt idx.mVariables oldestSlot
    match oldCtx.timestamp? with
    | none =>
      let idx1 ← storeContext idx oldestSlot newContext
      pure ((ActionTaken.ReplaceUnused, oldestSlot), idx1)
    | some oldTimestamp =>
      match newContext.timestamp? with
      | none => pure ((ActionTaken.DropInvalid, TimesliceSlot.INVALID), idx)
      | some newTimestamp =>
        if newTimestamp > oldTimestamp then
          match idx.mBackpressurePolicy with
          | BackpressureOp.DropAncient =>
            let idx1 ← storeContext idx oldestSlot newContext
            pure ((ActionTaken.ReplaceObsolete, oldestSlot), idx1)
          | BackpressureOp.DropRecent =>
            pure ((ActionTaken.DropObsolete, TimesliceSlot.INVALID), idx)
          | BackpressureOp.Wait =>
            pure ((ActionTaken.Wait, TimesliceSlot.INVALID), idx)
        else
          match idx.mBackpressurePolicy with
          | BackpressureOp.DropRecent =>
            let idx1 ← storeContext idx oldestSlot newContext
            pure ((ActionTaken.ReplaceObsolete, oldestSlot), idx1)
          | BackpressureOp.DropAncient =>
            pure ((ActionTaken.DropObsolete, TimesliceSlot.INVALID), idx)
          | BackpressureOp.Wait =>
            pure ((ActionTaken.Wait, TimesliceSlot.INVALID), idx)

/-- The loop of `didReceiveData` (lines 124 to 137) with the local
`expectsData`; the result is the value the method returns. -/
def didReceiveDataLoop : List InputChannelInfo → Bool → Bool
  | [], expectsData => expectsData == false
  | channel :: rest, expectsData =>
    if channel.channelType ≠ ChannelAccountingType.DPL then
      didReceiveDataLoop rest expectsData
    else if channel.oldestForChannel ≠ 0 then true
    else didReceiveDataLoop rest true

/-- The method `TimesliceIndex::didReceiveData`. -/
def didReceiveData (idx : TimesliceIndex) : Bool :=
  didReceiveDataLoop idx.mChannels false

/-- The loop of `setOldestPossibleInput` (lines 153 to 164) over the channels
from index `ci` on, with the local `result`. -/
def oldestInputLoop : List InputChannelInfo → Nat → OldestInputInfo → OldestInputInfo
  | [], _, result => result
  | channelRef :: rest, ci, result =>
    if channelRef.channelType ≠ ChannelAccountingType.DPL then
      oldestInputLoop rest (ci + 1) result
    else if channelRef.oldestForChannel < result.timeslice then
      oldestInputLoop rest (ci + 1) ⟨channelRef.oldestForChannel, (ci : Int)⟩
    else
      oldestInputLoop rest (ci + 1) result

/-- The method `TimesliceIndex::setOldestPossibleInput`; the result is the
returned info together with the index after the call.  A negative `channel`
converts to an index beyond every vector. -/
def setOldestPossibleInput (idx : TimesliceIndex) (timestamp : Nat) (channel : Int) :
    Except Fault (OldestInputInfo × TimesliceIndex) :=
  if channel < 0 then Except.error Fault.outOfBounds
  else
    match readAt idx.mChannels channel.toNat with
    | Except.error e => Except.error e
    | Except.ok info =>
      let channels := idx.mChannels.set channel.toNat { info with oldestForChannel := timestamp }
      let result := oldestInputLoop channels 0 ⟨timestamp, channel⟩
      Except.ok (result, { idx with mChannels := channels, mOldestPossibleInput := result })

/-- The method `TimesliceIndex::validateSlot`; the second argument is not read. -/
def validateSlot (idx : TimesliceIndex) (slot : Nat) (_currentOldest : Nat) :
    Except Fault (Bool × TimesliceIndex) := do
  let dirty ← readAt idx.mDirty slot
  if dirty = true then
    pure (true, idx)
  else
    let ctx ← readAt idx.mVariables slot
    match ctx.timestamp? with
    | some timestamp =>
      if timestamp < idx.mOldestPossibleInput.timeslice then
        let idx1 ← markAsInvalid idx slot
        pure (false, idx1)
      else
        pure (true, idx)
    | none => pure (true, idx)

/-- The loop of `updateOldestPossibleOutput` (lines 201 to 213) over the slots
from index `i` on, with the local `result`. -/
def oldestOutputLoop : List VariableContext → Nat → OldestOutputInfo → OldestOutputInfo
  | [], _, result => result
  | ctx :: rest, i, result =>
    if (ctx.timestamp?).isSome = false then
      oldestOutputLoop rest (i + 1) result
    else
      match ctx.timestamp? with
      | some timestamp =>
        if timestamp < result.timeslice then
          oldestOutputLoop rest (i + 1) ⟨timestamp, -1, i⟩
        else
          oldestOutputLoop rest (i + 1) result
      | none => oldestOutputLoop rest (i + 1) result

/-- The method `TimesliceIndex::updateOldestPossibleOutput`; the result is the
returned info together with the index after the call.  The aggregate
`OldestOutputInfo result{timeslice, channel}` value-initialises `slot`. -/
def updateOldestPossibleOutput (idx : TimesliceIndex) : OldestOutputInfo × TimesliceIndex :=
  let oldestInput := getOldestPossibleInput idx
  let result := oldestOutputLoop idx.mVariables 0 ⟨oldestInput.timeslice, oldestInput.channel, 0⟩
  (result, { idx with mOldestPossibleOutput := result })

/-- The method `TimesliceIndex::reset`. -/
def reset (idx : TimesliceIndex) : TimesliceIndex :=
  { idx with
    mOldestPossibleInput := ⟨0, ChannelIndex.INVALID⟩
    mOldestPossibleOutput := ⟨0, ChannelIndex.INVALID, TimesliceSlot.INVALID⟩
    mChannels := idx.mChannels.map (fun channel => { channel with oldestForChannel := 0 }) }

/-- The constructor `TimesliceIndex(maxLanes, channels)` followed by `resize(s)`
and `reset()`; the policy member is set by the caller. -/
def freshIndex (maxLanes : Nat) (policy : BackpressureOp) (channels : List InputChannelInfo)
    (s : Nat) : TimesliceIndex :=
  reset (resize
    { mMaxLanes := maxLanes
      mBackpressurePolicy := policy
      mChannels := channels
      mVariables := []
      mPublishedVariables := []
      mDirty := []
      mOldestPossibleInput := ⟨0, ChannelIndex.INVALID⟩
      mOldestPossibleOutput := ⟨0, ChannelIndex.INVALID, TimesliceSlot.INVALID⟩ } s)

/-- The timestamp held by slot `i`, `none` when the slot is unoccupied or `i` is
not a slot. -/
def slotTimestamp (vars : List VariableContext) (i : Nat) : Option Nat :=
  match vars[i]? with
  | some ctx => ctx.timestamp?
  | none => none

/-- A context whose variable 0 is the committed timestamp `t`. -/
def contextOf (t : Nat) : VariableContext :=
  (VariableContext.empty.put ⟨0, ContextElementValue.uint64 t⟩).commit

/-! ## Sample indices and call sequences -/

/-- The index after `associate(timestamp, slot)`, for a slot of the index. -/
def afterAssociate (idx : TimesliceIndex) (timestamp : Nat) (slot : Nat) : TimesliceIndex :=
  match associate idx timestamp slot with
  | Except.ok idx1 => idx1
  | Except.error _ => idx

/-- One slot per lane, `MaxLanes = 4`, no channel, slot 2 holds timestamp 10. -/
def laneTwoHoldsTen (policy : BackpressureOp) : TimesliceIndex :=
  afterAssociate (freshIndex 4 policy [] 4) 10 2

/-- Two slots per lane, `MaxLanes = 2`: the slots hold 4, 7, 2, 3 and the policy
is `Wait`. -/
def twoLanesFull : TimesliceIndex :=
  afterAssociate (afterAssociate (afterAssociate (afterAssociate
    (freshIndex 2 BackpressureOp.Wait [] 4) 4 0) 7 1) 2 2) 3 3

/-- Three slots per lane, `MaxLanes = 2`: slot 0 holds 8, slot 1 holds 7, the
others are unoccupied. -/
def twoLanesSparse : TimesliceIndex :=
  afterAssociate (afterAssociate (freshIndex 2 BackpressureOp.Wait [] 6) 8 0) 7 1

/-- A sequence of `replaceLRUWith(context, timestamp)` calls, applied in order. -/
def admitAll : TimesliceIndex → List (VariableContext × Nat) → Except Fault TimesliceIndex
  | idx, [] => Except.ok idx
  | idx, (c, t) :: rest =>
    match replaceLRUWith idx c t with
    | Except.ok (_, idx1) => admitAll idx1 rest
    | Except.error e => Except.error e

/-- The context `c` carries no timestamp that a slot of the index already holds. -/
def carriesNewTimeslice (idx : TimesliceIndex) (c : VariableContext) : Bool :=
  decide (c.timestamp? = none ∨ ∀ ctx ∈ idx.mVariables, ctx.timestamp? ≠ c.timestamp?)

/-- Every admission of the sequence carries, at the time of its call, no
timestamp that a slot already holds. -/
def admitsNewTimeslices : TimesliceIndex → List (VariableContext × Nat) → Bool
  | _, [] => true
  | idx, (c, t) :: rest =>
    carriesNewTimeslice idx c &&
      match replaceLRUWith idx c t with
      | Except.ok (_, idx1) => admitsNewTimeslices idx1 rest
      | Except.error _ => true

/-- No two distinct slots hold the same committed TimesliceId. -/
def NoSharedTimeslice (vars : List VariableContext) : Prop :=
  ∀ i j v, slotTimestamp vars i = some v → slotTimestamp vars j = some v → i = j

/-- The watermarks `oldestForChannel` of the real data (DPL) channels. -/
def dataWatermarks (channels : List InputChannelInfo) : List Nat :=
  (channels.filter (fun ch => ch.channelType = ChannelAccountingType.DPL)).map
    (fun ch => ch.oldestForChannel)

/-- The minimum of `oldestForChannel` over the real data (DPL) channels, as the
spec words it; `none` when the roster has no such channel. -/
def minDataWatermark (channels : List InputChannelInfo) : Option Nat :=
  (dataWatermarks channels).min?

/-- The watermark stored for channel `c`. -/
def channelWatermark (idx : TimesliceIndex) (c : Nat) : Option Nat :=
  match idx.mChannels[c]? with
  | some info => some info.oldestForChannel
  | none => none

/-- A roster with the real data channel 0 and the auxiliary channel 1, one slot
per lane, freshly reset. -/
def dataAndAuxiliary : TimesliceIndex :=
  freshIndex 1 BackpressureOp.Wait
    [⟨ChannelAccountingType.DPL, 0⟩, ⟨ChannelAccountingType.Auxiliary, 0⟩] 1

/-- A roster with the single real data channel 0, one slot, freshly reset. -/
def singleDataChannel : TimesliceIndex :=
  freshIndex 1 BackpressureOp.Wait [⟨ChannelAccountingType.DPL, 0⟩] 1

/-- The index after `setOldestPossibleInput(timestamp, channel)`, for a channel
of the roster. -/
def afterReport (idx : TimesliceIndex) (timestamp : Nat) (channel : Int) : TimesliceIndex :=
  match setOldestPossibleInput idx timestamp channel with
  | Except.ok (_, idx1) => idx1
  | Except.error _ => idx

/-- The calls a driver makes on the index. -/
inductive Call
  | setOldestPossibleInput (timestamp : Nat) (channel : Int)
  | associate (timestamp slot : Nat)
  | replaceLRUWith (newContext : VariableContext) (timestamp : Nat)
  | validateSlot (slot currentOldest : Nat)
  | updateOldestPossibleOutput

/-- The index after one call. -/
def Call.apply (idx : TimesliceIndex) : Call → Except Fault TimesliceIndex
  | Call.setOldestPossibleInput timestamp channel =>
    match O2.setOldestPossibleInput idx timestamp channel with
    | Except.ok (_, idx1) => Except.ok idx1
    | Except.error e => Except.error e
  | Call.associate timestamp slot => O2.associate idx timestamp slot
  | Call.replaceLRUWith newContext timestamp =>
    match O2.replaceLRUWith idx newContext timestamp with
    | Except.ok (_, idx1) => Except.ok idx1
    | Except.error e => Except.error e
  | Call.validateSlot slot currentOldest =>
    match O2.validateSlot idx slot currentOldest with
    | Except.ok (_, idx1) => Except.ok idx1
    | Except.error e => Except.error e
  | Call.updateOldestPossibleOutput => Except.ok (O2.updateOldestPossibleOutput idx).2

/-- The index after a sequence of calls. -/
def applyAll : TimesliceIndex → List Call → Except Fault TimesliceIndex
  | idx, [] => Except.ok idx
  | idx, call :: rest =>
    match call.apply idx with
    | Except.ok idx1 => applyAll idx1 rest
    | Except.error e => Except.error e

/-- A call that respects the contracts of the callers: a watermark report comes
from a real data channel and is not below the watermark stored for it, and an
admitted timestamp (the one of `associate`, or the one carried by the context of
`replaceLRUWith`) is not below the stored OldestPossibleOutput. -/
def Call.respectsContract (idx : TimesliceIndex) : Call → Bool
  | Call.setOldestPossibleInput timestamp channel =>
    decide (0 ≤ channel) &&
      match idx.mChannels[channel.toNat]? with
      | some info =>
        decide (info.channelType = ChannelAccountingType.DPL ∧ info.oldestForChannel ≤ timestamp)
      | none => false
  | Call.associate timestamp _ => decide (idx.mOldestPossibleOutput.timeslice ≤ timestamp)
  | Call.replaceLRUWith newContext _ =>
    match newContext.timestamp? with
    | some v => decide (idx.mOldestPossibleOutput.timeslice ≤ v)
    | none => true
  | Call.validateSlot _ _ => true
  | Call.updateOldestPossibleOutput => true

/-- The index after a sequence of calls each of which respects the contracts and
returns; `none` otherwise. -/
def applyContractual : TimesliceIndex → List Call → Option TimesliceIndex
  | idx, [] => some idx
  | idx, call :: rest =>
    if call.respectsContract idx = true then
      match call.apply idx with
      | Except.ok idx1 => applyContractual idx1 rest
      | Except.error _ => none
    else none

/-- The facts the fences rely on: the input fence is at most every data-channel
watermark, the output fence is at most the input fence and at most every
committed timestamp. -/
def FenceInvariant (idx : TimesliceIndex) : Prop :=
  (∀ ch ∈ idx.mChannels, ch.channelType = ChannelAccountingType.DPL →
    idx.mOldestPossibleInput.timeslice ≤ ch.oldestForChannel) ∧
  idx.mOldestPossibleOutput.timeslice ≤ idx.mOldestPossibleInput.timeslice ∧
  (∀ ctx ∈ idx.mVariables, ∀ v, ctx.timestamp? = some v →
    idx.mOldestPossibleOutput.timeslice ≤ v)

/-- The postcondition of the scan of `findOldestSlot` entered at index `cur`
with the locals `o` (oldest slot so far) and `ot` (its timestamp), returning `r`. -/
def LoopPost (vars : List VariableContext) (L cur o ot r : Nat) : Prop :=
  (r = o ∨ (cur ≤ r ∧ r < vars.length ∧ r % L = cur % L)) ∧
  ((∃ j, cur ≤ j ∧ j < vars.length ∧ j % L = cur % L ∧ slotTimestamp vars j = none) →
    (cur ≤ r ∧ r < vars.length ∧ r % L = cur % L ∧ slotTimestamp vars r = none ∧
      ∀ j, cur ≤ j → j < r → j % L = cur % L → slotTimestamp vars j ≠ none)) ∧
  ((∀ j, cur ≤ j → j < vars.length → j % L = cur % L → slotTimestamp vars j ≠ none) →
    ∃ rv, ((r = o ∧ rv = ot) ∨
        (cur ≤ r ∧ r < vars.length ∧ r % L = cur % L ∧ slotTimestamp vars r = some rv ∧ rv < ot)) ∧
      (∀ j v, cur ≤ j → j < vars.length → j % L = cur % L → slotTimestamp vars j = some v → rv ≤ v) ∧
      (∀ j v, cur ≤ j → j < r → j % L = cur % L → slotTimestamp vars j = some v → rv < v))

/-- A call whose watermark report, if it is one, comes from a real data channel
and is not below the watermark stored for that channel; every other call
qualifies. -/
def Call.reportsInOrder (idx : TimesliceIndex) : Call → Bool
  | Call.setOldestPossibleInput timestamp channel =>
    decide (0 ≤ channel) &&
      match idx.mChannels[channel.toNat]? with
      | some info =>
        decide (info.channelType = ChannelAccountingType.DPL ∧ info.oldestForChannel ≤ timestamp)
      | none => false
  | _ => true

/-- The index after a sequence of calls whose watermark reports are in order and
which all return; `none` otherwise. -/
def applyInOrder : TimesliceIndex → List Call → Option TimesliceIndex
  | idx, [] => some idx
  | idx, call :: rest =>
    if call.reportsInOrder idx = true then
      match call.apply idx with
      | Except.ok idx1 => applyInOrder idx1 rest
      | Except.error _ => none
    else none

/-- The input fence is at most every data-channel watermark and the output fence
is at most the input fence. -/
def WatermarkInvariant (idx : TimesliceIndex) : Prop :=
  (∀ ch ∈ idx.mChannels, ch.channelType = ChannelAccountingType.DPL →
    idx.mOldestPossibleInput.timeslice ≤ ch.oldestForChannel) ∧
  idx.mOldestPossibleOutput.timeslice ≤ idx.mOldestPossibleInput.timeslice

/-- The index after `replaceLRUWith(newContext, timestamp)`, when the call
returns. -/
def afterAdmit (idx : TimesliceIndex) (newContext : VariableContext) (timestamp : Nat) :
    TimesliceIndex :=
  match replaceLRUWith idx newContext timestamp with
  | Except.ok (_, idx1) => idx1
  | Except.error _ => idx

/-- One data channel and one slot: timestamp 10 is admitted into slot 0 (which
stays non-dirty), then the channel reports the watermark 12. -/
def staleSlotIndex : TimesliceIndex :=
  afterReport (afterAdmit singleDataChannel (contextOf 10) 10) 12 0

/-- An admission that stays in the lane of its timestamp: `associate(t, slot)`
with `slot mod MaxLanes = t mod MaxLanes`, or `replaceLRUWith(c, t)` with a context
whose timestamp, if it carries one, is congruent to `t` modulo `MaxLanes` (as when
it is `t` itself).  Calls other than these two do not qualify. -/
def Call.keepsLane (idx : TimesliceIndex) : Call → Bool
  | Call.associate timestamp slot =>
    decide (slot % idx.mMaxLanes = timestamp % idx.mMaxLanes)
  | Call.replaceLRUWith newContext timestamp =>
    match newContext.timestamp? with
    | some v => decide (v % idx.mMaxLanes = timestamp % idx.mMaxLanes)
    | none => true
  | _ => false

/-- The index after a sequence of admissions that stay in their lanes and all
return; `none` otherwise. -/
def applyInLane : TimesliceIndex → List Call → Option TimesliceIndex
  | idx, [] => some idx
  | idx, call :: rest =>
    if call.keepsLane idx = true then
      match call.apply idx with
      | Except.ok idx1 => applyInLane idx1 rest
      | Except.error _ => none
    else none

/-- Every slot that holds a committed TimesliceId lies in the lane of that id. -/
def LaneCorrect (idx : TimesliceIndex) : Prop :=
  ∀ i v, slotTimestamp idx.mVariables i = some v → i % idx.mMaxLanes = v % idx.mMaxLanes

/-- A roster of two data channels and one auxiliary channel whose auxiliary
channel alone holds a non-zero watermark. -/
def onlyAuxiliaryReported : TimesliceIndex :=
  { freshIndex 1 BackpressureOp.Wait [] 1 with
    mChannels := [⟨ChannelAccountingType.DPL, 0⟩, ⟨ChannelAccountingType.Auxiliary, 9⟩,
      ⟨ChannelAccountingType.DPL, 0⟩] }

/-- The outcome of `replaceLRUWith` as a function of the backpressure policy, the
timestamp held by the candidate slot (`none` when unoccupied) and the timestamp
carried by the new context (`none` when it carries none). -/
def actionFor (policy : BackpressureOp) (old new : Option Nat) : ActionTaken :=
  match old with
  | none => ActionTaken.ReplaceUnused
  | some oldTimestamp =>
    match new with
    | none => ActionTaken.DropInvalid
    | some newTimestamp =>
      if newTimestamp > oldTimestamp then
        match policy with
        | BackpressureOp.DropAncient => ActionTaken.ReplaceObsolete
        | BackpressureOp.DropRecent => ActionTaken.DropObsolete
        | BackpressureOp.Wait => ActionTaken.Wait
      else
        match policy with
        | BackpressureOp.DropRecent => ActionTaken.ReplaceObsolete
        | BackpressureOp.DropAncient => ActionTaken.DropObsolete
        | BackpressureOp.Wait => ActionTaken.Wait

/-- Every slot whose dirty flag is set holds a committed timestamp. -/
def DirtyInvariant (idx : TimesliceIndex) : Prop :=
  ∀ i, idx.mDirty[i]? = some true → ∃ v, slotTimestamp idx.mVariables i = some v

/-! ## ITS chip mapping

A shallow embedding of the inline methods of `ChipMappingITS.h` that compose and
expand front-end ids and chip ids.  Values of type `int` are integers (the methods
embedded here only add and multiply table entries and small indices, far from the
range where `int` arithmetic is undefined); a conversion to `uint16_t` reduces
modulo `2^16`; an array access outside a table is a `Fault`. -/

namespace ChipMappingITS

/-- The constants `IB`, `MB`, `OB` (sub-barrel types). -/
def IB : Int := 0

/-- The constant `MB`. -/
def MB : Int := 1

/-- The constant `OB`. -/
def OB : Int := 2

/-- The constant `NLayers`. -/
def NLayers : Nat := 7

/-- The table `NChipsPerModuleSB`. -/
def NChipsPerModuleSB : List Int := [9, 14, 14]

/-- The table `NModulesPerStaveSB`. -/
def NModulesPerStaveSB : List Int := [1, 8, 14]

/-- The table `NStavesOnLr`. -/
def NStavesOnLr : List Int := [12, 16, 20, 24, 30, 42, 48]

/-- The table `FirstStaveOnLr`. -/
def FirstStaveOnLr : List Int := [0, 12, 28, 48, 72, 102, 144]

/-- The table `NChipsOnLr`. -/
def NChipsOnLr : List Int := [108, 144, 180, 2688, 3360, 8232, 9408]

/-- The table `FirstChipsOnLr`. -/
def FirstChipsOnLr : List Int := [0, 108, 252, 432, 3120, 6480, 14712]

/-- The table `RUTypeLr`. -/
def RUTypeLr : List Int := [IB, IB, IB, MB, MB, OB, OB]

/-- The table `NChipsPerStaveSB`, entry `b` being
`NModulesPerStaveSB[b] * NChipsPerModuleSB[b]`. -/
def NChipsPerStaveSB : List Int := [1 * 9, 8 * 14, 14 * 14]

/-- An access `table[i]` with an `int` index. -/
def tableAt {α : Type} (table : List α) (i : Int) : Except Fault α :=
  if i < 0 then Except.error Fault.outOfBounds else readAt table i.toNat

/-- The conversion of an `int` value to `uint16_t`. -/
def toUInt16 (x : Int) : Nat := (x % 65536).toNat

/-- The method `getNStavesOnLr`. -/
def getNStavesOnLr (l : Int) : Except Fault Int := tableAt NStavesOnLr l

/-- The method `getFirstStavesOnLr`. -/
def getFirstStavesOnLr (l : Int) : Except Fault Int := tableAt FirstStaveOnLr l

/-- The method `getNModulesPerStave`. -/
def getNModulesPerStave (ruType : Int) : Except Fault Int := tableAt NModulesPerStaveSB ruType

/-- The method `getNChipsOnLayer`. -/
def getNChipsOnLayer (lr : Int) : Except Fault Int := tableAt NChipsOnLr lr

/-- The method `getFirstChipsOnLayer`. -/
def getFirstChipsOnLayer (lr : Int) : Except Fault Int := tableAt FirstChipsOnLr lr

/-- The method `composeFEEId`: the `uint16_t` arguments are promoted to `int`,
shifted and added, and the sum is converted to `uint16_t`. -/
def composeFEEId (lr ruOnLr link : Nat) : Nat :=
  toUInt16 (((lr <<< 12) + (link <<< 8) + ruOnLr : Nat) : Int)

/-- The method `expandFEEId` with `_OVERRIDE_RUID_HACK_` defined; the result is
`(lr, ruOnLr, link)`. -/
def expandFEEId (feeID : Nat) : Except Fault (Nat × Nat × Nat) := do
  let lr := feeID >>> 12
  let ruOnLr := feeID &&& 0x3f
  let link := (feeID >>> 8) &&& 0x3
  let nStaves ← readAt NStavesOnLr lr
  pure (lr, toUInt16 (Int.tmod (ruOnLr : Int) nStaves), link)

/-- The method `getGlobalChipIDSW`. -/
def getGlobalChipIDSW (lay staSW modSW chipInModSW : Int) : Except Fault Nat := do
  let firstChip ← getFirstChipsOnLayer lay
  let firstStave ← getFirstStavesOnLr lay
  let ruType ← tableAt RUTypeLr lay
  let chipsPerStave ← tableAt NChipsPerStaveSB ruType
  let id := toUInt16 (firstChip + (staSW - firstStave) * chipsPerStave + chipInModSW)
  if ruType ≠ 0 then
    let chipsPerModule ← tableAt NChipsPerModuleSB ruType
    pure (toUInt16 ((id : Int) + modSW * chipsPerModule))
  else
    pure id

/-- The `do ... while (++i < NLayers)` loop of `getLayer`, entered with the
local `i`. -/
def getLayerLoop (chipSW : Int) : Nat → Nat → Except Fault Int
  | 0, _ => Except.error Fault.outOfFuel
  | fuel + 1, i =>
    match readAt FirstChipsOnLr i, readAt NChipsOnLr i with
    | Except.ok firstChip, Except.ok nChips =>
      if chipSW < firstChip + nChips then Except.ok (i : Int)
      else if i + 1 < NLayers then getLayerLoop chipSW fuel (i + 1)
      else Except.ok ((i + 1 : Nat) : Int)
    | _, _ => Except.error Fault.outOfBounds

/-- The method `getLayer`; the loop body runs at most `NLayers` times. -/
def getLayer (chipSW : Int) : Except Fault Int :=
  getLayerLoop chipSW NLayers 0

end ChipMappingITS

/-! ## Theorems -/

theorem lane_next {L cur j : Nat} (hj : cur ≤ j) (hmod : j % L = cur % L) :
    j = cur ∨ cur + L ≤ j := by
  by_contra h
  push_neg at h
  obtain ⟨h1, h2⟩ := h
  have h3 : (j - cur) % L = 0 := Nat.sub_mod_eq_zero_of_mod_eq hmod
  have hlt : j - cur < L := by omega
  have h4 := Nat.mod_eq_of_lt hlt
  omega

theorem readAt_of_lt {α : Type} (v : List α) (i : Nat) (h : i < v.length) :
    readAt v i = Except.ok v[i] := by
  simp [readAt, List.getElem?_eq_getElem h]

theorem slotTimestamp_of_lt (vars : List VariableContext) (i : Nat) (h : i < vars.length) :
    slotTimestamp vars i = vars[i].timestamp? := by
  simp [slotTimestamp, List.getElem?_eq_getElem h]

theorem loop_exit (vars : List VariableContext) (L fuel cur o ot : Nat)
    (h : ¬ cur < vars.length) :
    findOldestSlotLoop vars L (fuel + 1) cur o ot = Except.ok o := by
  simp [findOldestSlotLoop, h]

theorem loop_none (vars : List VariableContext) (L fuel cur o ot : Nat)
    (h : cur < vars.length) (hs : slotTimestamp vars cur = none) :
    findOldestSlotLoop vars L (fuel + 1) cur o ot = Except.ok cur := by
  rw [slotTimestamp_of_lt vars cur h] at hs
  simp [findOldestSlotLoop, h, readAt_of_lt vars cur h, hs]

theorem loop_some (vars : List VariableContext) (L fuel cur o ot nt : Nat)
    (h : cur < vars.length) (hs : slotTimestamp vars cur = some nt) :
    findOldestSlotLoop vars L (fuel + 1) cur o ot =
      if ot > nt then findOldestSlotLoop vars L fuel (cur + L) cur nt
      else findOldestSlotLoop vars L fuel (cur + L) o ot := by
  rw [slotTimestamp_of_lt vars cur h] at hs
  simp [findOldestSlotLoop, h, readAt_of_lt vars cur h, hs]

theorem loop_spec (vars : List VariableContext) (L : Nat) (hL : 0 < L) :
    ∀ fuel cur o ot, vars.length - cur < fuel → o < cur →
      ∃ r, findOldestSlotLoop vars L fuel cur o ot = Except.ok r ∧ LoopPost vars L cur o ot r := by
  intro fuel
  induction fuel with
  | zero => intro cur o ot h; omega
  | succ fuel ih =>
    intro cur o ot hfuel ho
    by_cases hcur : cur < vars.length
    · cases hs : slotTimestamp vars cur with
      | none =>
        refine ⟨cur, loop_none vars L fuel cur o ot hcur hs, Or.inr ⟨le_refl _, hcur, rfl⟩, ?_, ?_⟩
        · intro _
          exact ⟨le_refl _, hcur, rfl, hs, fun j h1 h2 _ => by omega⟩
        · intro hall
          exact absurd hs (hall cur (le_refl _) hcur rfl)
      | some nt =>
        have hmodL : (cur + L) % L = cur % L := Nat.add_mod_right cur L
        by_cases hlt : ot > nt
        · obtain ⟨r, hr, hp1, hp2, hp3⟩ := ih (cur + L) cur nt (by omega) (by omega)
          refine ⟨r, ?_, ?_, ?_, ?_⟩
          · rw [loop_some vars L fuel cur o ot nt hcur hs, if_pos hlt]; exact hr
          · rcases hp1 with h | ⟨h1, h2, h3⟩
            · exact Or.inr ⟨by omega, by omega, by rw [h]⟩
            · exact Or.inr ⟨by omega, h2, by rw [h3, hmodL]⟩
          · rintro ⟨j, hj1, hj2, hj3, hj4⟩
            have hjne : j ≠ cur := by
              intro h; rw [h, hs] at hj4; exact Option.noConfusion hj4
            have hj5 : cur + L ≤ j := by
              rcases lane_next hj1 hj3 with h | h
              · exact absurd h hjne
              · exact h
            obtain ⟨q1, q2, q3, q4, q5⟩ := hp2 ⟨j, hj5, hj2, by rw [hj3, hmodL], hj4⟩
            refine ⟨by omega, q2, by rw [q3, hmodL], q4, ?_⟩
            intro k hk1 hk2 hk3
            rcases lane_next hk1 hk3 with h | h
            · rw [h, hs]; exact Option.noConfusion
            · exact q5 k h hk2 (by rw [hk3, hmodL])
          · intro hall
            obtain ⟨rv, q1, q2, q3⟩ := hp3 (fun j h1 h2 h3 =>
              hall j (by omega) h2 (by rw [h3, hmodL]))
            refine ⟨rv, Or.inr ?_, ?_, ?_⟩
            · rcases q1 with ⟨h1, h2⟩ | ⟨h1, h2, h3, h4, h5⟩
              · exact ⟨by omega, by omega, by rw [h1], by rw [h1, h2]; exact hs, by omega⟩
              · exact ⟨by omega, h2, by rw [h3, hmodL], h4, by omega⟩
            · intro j v hj1 hj2 hj3 hj4
              rcases lane_next hj1 hj3 with h | h
              · rw [h, hs] at hj4
                have hv : nt = v := Option.some.inj hj4
                rcases q1 with ⟨_, h2⟩ | ⟨_, _, _, _, h5⟩ <;> omega
              · exact q2 j v h hj2 (by rw [hj3, hmodL]) hj4
            · intro j v hj1 hj2 hj3 hj4
              rcases lane_next hj1 hj3 with h | h
              · rw [h, hs] at hj4
                have hv : nt = v := Option.some.inj hj4
                rcases q1 with ⟨h1, _⟩ | ⟨_, _, _, _, h5⟩ <;> omega
              · exact q3 j v h hj2 (by rw [hj3, hmodL]) hj4
        · obtain ⟨r, hr, hp1, hp2, hp3⟩ := ih (cur + L) o ot (by omega) (by omega)
          refine ⟨r, ?_, ?_, ?_, ?_⟩
          · rw [loop_some vars L fuel cur o ot nt hcur hs, if_neg hlt]; exact hr
          · rcases hp1 with h | ⟨h1, h2, h3⟩
            · exact Or.inl h
            · exact Or.inr ⟨by omega, h2, by rw [h3, hmodL]⟩
          · rintro ⟨j, hj1, hj2, hj3, hj4⟩
            have hjne : j ≠ cur := by
              intro h; rw [h, hs] at hj4; exact Option.noConfusion hj4
            have hj5 : cur + L ≤ j := by
              rcases lane_next hj1 hj3 with h | h
              · exact absurd h hjne
              · exact h
            obtain ⟨q1, q2, q3, q4, q5⟩ := hp2 ⟨j, hj5, hj2, by rw [hj3, hmodL], hj4⟩
            refine ⟨by omega, q2, by rw [q3, hmodL], q4, ?_⟩
            intro k hk1 hk2 hk3
            rcases lane_next hk1 hk3 with h | h
            · rw [h, hs]; exact Option.noConfusion
            · exact q5 k h hk2 (by rw [hk3, hmodL])
          · intro hall
            obtain ⟨rv, q1, q2, q3⟩ := hp3 (fun j h1 h2 h3 =>
              hall j (by omega) h2 (by rw [h3, hmodL]))
            refine ⟨rv, ?_, ?_, ?_⟩
            · rcases q1 with ⟨h1, h2⟩ | ⟨h1, h2, h3, h4, h5⟩
              · exact Or.inl ⟨h1, h2⟩
              · exact Or.inr ⟨by omega, h2, by rw [h3, hmodL], h4, h5⟩
            · intro j v hj1 hj2 hj3 hj4
              rcases lane_next hj1 hj3 with h | h
              · rw [h, hs] at hj4
                have hv : nt = v := Option.some.inj hj4
                rcases q1 with ⟨_, h2⟩ | ⟨_, _, _, _, h5⟩ <;> omega
              · exact q2 j v h hj2 (by rw [hj3, hmodL]) hj4
            · intro j v hj1 hj2 hj3 hj4
              rcases lane_next hj1 hj3 with h | h
              · rw [h, hs] at hj4
                have hv : nt = v := Option.some.inj hj4
                rcases q1 with ⟨h1, _⟩ | ⟨_, _, _, _, h5⟩ <;> omega
              · exact q3 j v h hj2 (by rw [hj3, hmodL]) hj4
    · refine ⟨o, loop_exit vars L fuel cur o ot hcur, Or.inl rfl, ?_, ?_⟩
      · rintro ⟨j, hj1, hj2, _, _⟩
        omega
      · intro _
        exact ⟨ot, Or.inl ⟨rfl, rfl⟩, fun j v h1 h2 _ _ => by omega, fun j v h1 h2 _ _ => by omega⟩

theorem findOldestSlot_spec (idx : TimesliceIndex) (t : Nat)
    (hL : 0 < idx.mMaxLanes) (hN : idx.mMaxLanes ≤ idx.mVariables.length) :
    ∃ r, findOldestSlot idx t = Except.ok r ∧ r < idx.mVariables.length ∧
      r % idx.mMaxLanes = t % idx.mMaxLanes ∧
      ((∃ j, j < idx.mVariables.length ∧ j % idx.mMaxLanes = t % idx.mMaxLanes ∧
          slotTimestamp idx.mVariables j = none) →
        slotTimestamp idx.mVariables r = none ∧
          ∀ j, j < r → j % idx.mMaxLanes = t % idx.mMaxLanes →
            slotTimestamp idx.mVariables j ≠ none) ∧
      ((∀ j, j < idx.mVariables.length → j % idx.mMaxLanes = t % idx.mMaxLanes →
          slotTimestamp idx.mVariables j ≠ none) →
        ∃ rv, slotTimestamp idx.mVariables r = some rv ∧
          (∀ j v, j < idx.mVariables.length → j % idx.mMaxLanes = t % idx.mMaxLanes →
            slotTimestamp idx.mVariables j = some v → rv ≤ v) ∧
          (∀ j v, j < r → j % idx.mMaxLanes = t % idx.mMaxLanes →
            slotTimestamp idx.mVariables j = some v → rv < v)) := by
  have hlaneL : t % idx.mMaxLanes < idx.mMaxLanes := Nat.mod_lt _ hL
  have hlane : t % idx.mMaxLanes < idx.mVariables.length := by omega
  have hmm : (t % idx.mMaxLanes) % idx.mMaxLanes = t % idx.mMaxLanes := Nat.mod_mod _ _
  have hmodL : (t % idx.mMaxLanes + idx.mMaxLanes) % idx.mMaxLanes = t % idx.mMaxLanes := by
    rw [Nat.add_mod_right, hmm]
  have hge : ∀ j, j % idx.mMaxLanes = t % idx.mMaxLanes → t % idx.mMaxLanes ≤ j := by
    intro j hj; rw [← hj]; exact Nat.mod_le _ _
  have hsplit : ∀ j, j % idx.mMaxLanes = t % idx.mMaxLanes →
      j = t % idx.mMaxLanes ∨ t % idx.mMaxLanes + idx.mMaxLanes ≤ j := by
    intro j hj
    exact lane_next (hge j hj) (by rw [hj, hmm])
  cases hs : slotTimestamp idx.mVariables (t % idx.mMaxLanes) with
  | none =>
    refine ⟨t % idx.mMaxLanes, ?_, hlane, hmm, ?_, ?_⟩
    · rw [slotTimestamp_of_lt _ _ hlane] at hs
      simp [findOldestSlot, Nat.pos_iff_ne_zero.mp hL, readAt_of_lt _ _ hlane, hs]
    · intro _
      refine ⟨hs, ?_⟩
      intro j hj1 hj2
      have := hge j hj2
      omega
    · intro hall
      exact absurd hs (hall _ hlane hmm)
  | some ot =>
    obtain ⟨r, hr, hp1, hp2, hp3⟩ := loop_spec idx.mVariables idx.mMaxLanes hL
      (idx.mVariables.length + 1) (t % idx.mMaxLanes + idx.mMaxLanes) (t % idx.mMaxLanes) ot
      (by omega) (by omega)
    have hfind : findOldestSlot idx t = Except.ok r := by
      rw [← hr]
      rw [slotTimestamp_of_lt _ _ hlane] at hs
      simp [findOldestSlot, Nat.pos_iff_ne_zero.mp hL, readAt_of_lt _ _ hlane, hs]
    refine ⟨r, hfind, ?_, ?_, ?_, ?_⟩
    · rcases hp1 with h | ⟨_, h2, _⟩
      · omega
      · exact h2
    · rcases hp1 with h | ⟨_, _, h3⟩
      · rw [h, hmm]
      · rw [h3, hmodL]
    · rintro ⟨j, hj1, hj2, hj3⟩
      have hjne : j ≠ t % idx.mMaxLanes := by
        intro h; rw [h, hs] at hj3; exact Option.noConfusion hj3
      have hj4 : t % idx.mMaxLanes + idx.mMaxLanes ≤ j := by
        rcases hsplit j hj2 with h | h
        · exact absurd h hjne
        · exact h
      obtain ⟨q1, q2, q3, q4, q5⟩ := hp2 ⟨j, hj4, hj1, by rw [hj2, hmodL], hj3⟩
      refine ⟨q4, ?_⟩
      intro k hk1 hk2
      rcases hsplit k hk2 with h | h
      · rw [h, hs]; exact Option.noConfusion
      · exact q5 k h hk1 (by rw [hk2, hmodL])
    · intro hall
      obtain ⟨rv, q1, q2, q3⟩ := hp3 (fun j _ h2 h3 => hall j h2 (by rw [h3, hmodL]))
      refine ⟨rv, ?_, ?_, ?_⟩
      · rcases q1 with ⟨h1, h2⟩ | ⟨_, _, _, h4, _⟩
        · rw [h1, h2]; exact hs
        · exact h4
      · intro j v hj1 hj2 hj3
        rcases hsplit j hj2 with h | h
        · rw [h, hs] at hj3
          have hv : ot = v := Option.some.inj hj3
          rcases q1 with ⟨_, h2⟩ | ⟨_, _, _, _, h5⟩ <;> omega
        · exact q2 j v h hj1 (by rw [hj2, hmodL]) hj3
      · intro j v hj1 hj2 hj3
        rcases hsplit j hj2 with h | h
        · rw [h, hs] at hj3
          have hv : ot = v := Option.some.inj hj3
          rcases q1 with ⟨h1, _⟩ | ⟨_, _, _, _, h5⟩ <;> omega
        · exact q3 j v h hj1 (by rw [hj2, hmodL]) hj3

theorem slotTimestamp_lt {vars : List VariableContext} {s v : Nat}
    (h : slotTimestamp vars s = some v) : s < vars.length := by
  by_contra hn
  have : vars[s]? = none := List.getElem?_eq_none (by omega)
  simp [slotTimestamp, this] at h

theorem replaceLRUWith_unused (idx : TimesliceIndex) (c : VariableContext) (t s : Nat)
    (hf : findOldestSlot idx t = Except.ok s) (hs : s < idx.mVariables.length)
    (hts : slotTimestamp idx.mVariables s = none) :
    replaceLRUWith idx c t =
      Except.ok ((ActionTaken.ReplaceUnused, s),
        { idx with mVariables := idx.mVariables.set s c }) := by
  rw [slotTimestamp_of_lt _ _ hs] at hts
  simp [replaceLRUWith, hf, isValid, readAt_of_lt _ _ hs, hts, storeContext, writeAt, hs,
    bind, Except.bind, pure, Except.pure]

theorem replaceLRUWith_occupied (idx : TimesliceIndex) (c : VariableContext) (t s old new : Nat)
    (hf : findOldestSlot idx t = Except.ok s)
    (hts : slotTimestamp idx.mVariables s = some old) (hc : c.timestamp? = some new) :
    replaceLRUWith idx c t =
      if new > old then
        match idx.mBackpressurePolicy with
        | BackpressureOp.DropAncient =>
          Except.ok ((ActionTaken.ReplaceObsolete, s),
            { idx with mVariables := idx.mVariables.set s c })
        | BackpressureOp.DropRecent =>
          Except.ok ((ActionTaken.DropObsolete, TimesliceSlot.INVALID), idx)
        | BackpressureOp.Wait => Except.ok ((ActionTaken.Wait, TimesliceSlot.INVALID), idx)
      else
        match idx.mBackpressurePolicy with
        | BackpressureOp.DropRecent =>
          Except.ok ((ActionTaken.ReplaceObsolete, s),
            { idx with mVariables := idx.mVariables.set s c })
        | BackpressureOp.DropAncient =>
          Except.ok ((ActionTaken.DropObsolete, TimesliceSlot.INVALID), idx)
        | BackpressureOp.Wait => Except.ok ((ActionTaken.Wait, TimesliceSlot.INVALID), idx) := by
  have hs := slotTimestamp_lt hts
  rw [slotTimestamp_of_lt _ _ hs] at hts
  cases hp : idx.mBackpressurePolicy <;>
    by_cases hlt : new > old <;>
    simp [replaceLRUWith, hf, isValid, readAt_of_lt _ _ hs, hts, hc, storeContext, writeAt, hs,
      bind, Except.bind, pure, Except.pure, hp, hlt]

theorem replaceLRUWith_invalid (idx : TimesliceIndex) (c : VariableContext) (t s old : Nat)
    (hf : findOldestSlot idx t = Except.ok s)
    (hts : slotTimestamp idx.mVariables s = some old) (hc : c.timestamp? = none) :
    replaceLRUWith idx c t =
      Except.ok ((ActionTaken.DropInvalid, TimesliceSlot.INVALID), idx) := by
  have hs := slotTimestamp_lt hts
  rw [slotTimestamp_of_lt _ _ hs] at hts
  simp [replaceLRUWith, hf, isValid, readAt_of_lt _ _ hs, hts, hc,
    bind, Except.bind, pure, Except.pure]

theorem replaceLRUWith_returns (idx : TimesliceIndex) (c : VariableContext) (t r : Nat)
    (hr : findOldestSlot idx t = Except.ok r) (hlt : r < idx.mVariables.length) :
    ∃ action slot idx1, replaceLRUWith idx c t = Except.ok ((action, slot), idx1) ∧
      (slot = TimesliceSlot.INVALID ∨ slot = r) := by
  cases hts : slotTimestamp idx.mVariables r with
  | none => exact ⟨_, _, _, replaceLRUWith_unused idx c t r hr hlt hts, Or.inr rfl⟩
  | some old =>
    cases hc : c.timestamp? with
    | none => exact ⟨_, _, _, replaceLRUWith_invalid idx c t r old hr hts hc, Or.inl rfl⟩
    | some new =>
      have h := replaceLRUWith_occupied idx c t r old new hr hts hc
      by_cases hlt2 : new > old
      · rw [if_pos hlt2] at h
        cases hp : idx.mBackpressurePolicy <;> rw [hp] at h
        · exact ⟨_, _, _, h, Or.inr rfl⟩
        · exact ⟨_, _, _, h, Or.inl rfl⟩
        · exact ⟨_, _, _, h, Or.inl rfl⟩
      · rw [if_neg hlt2] at h
        cases hp : idx.mBackpressurePolicy <;> rw [hp] at h
        · exact ⟨_, _, _, h, Or.inl rfl⟩
        · exact ⟨_, _, _, h, Or.inr rfl⟩
        · exact ⟨_, _, _, h, Or.inl rfl⟩

theorem lane_iff {L t j : Nat} :
    j % L = t % L ↔ ∃ k, j = t % L + k * L := by
  constructor
  · intro h
    refine ⟨j / L, ?_⟩
    have := Nat.div_add_mod j L
    rw [h] at this
    rw [Nat.mul_comm] at this
    omega
  · rintro ⟨k, rfl⟩
    rw [Nat.add_mul_mod_self_right, Nat.mod_mod]

theorem findOldestSlot_lt (idx : TimesliceIndex) (t s : Nat)
    (hL : 0 < idx.mMaxLanes) (hN : idx.mMaxLanes ≤ idx.mVariables.length)
    (hf : findOldestSlot idx t = Except.ok s) : s < idx.mVariables.length := by
  obtain ⟨r, hr, hlt, _⟩ := findOldestSlot_spec idx t hL hN
  rw [hr] at hf
  cases hf
  exact hlt

theorem slotTimestamp_none_of_all {vars : List VariableContext}
    (h : ∀ v ∈ vars, v.timestamp? = none) (i : Nat) : slotTimestamp vars i = none := by
  unfold slotTimestamp
  cases hi : vars[i]? with
  | none => rfl
  | some ctx => exact h ctx (List.getElem?_mem hi)

/-- C1: with `MaxLanes > 0` and at least `MaxLanes` slots, when the candidate slot
`findOldestSlot(t)` holds no readable timestamp, `replaceLRUWith(c, t)` returns
`(ReplaceUnused, candidate)` and the candidate then holds exactly `c`; on an index
whose slots are all unoccupied the returned slot is `t mod MaxLanes`. -/
theorem replaceLRUWith_unreadable_candidate (idx : TimesliceIndex) (c : VariableContext)
    (t : Nat) (hL : 0 < idx.mMaxLanes) (hN : idx.mMaxLanes ≤ idx.mVariables.length) :
    (∀ s, findOldestSlot idx t = Except.ok s → slotTimestamp idx.mVariables s = none →
      ∃ idx1, replaceLRUWith idx c t = Except.ok ((ActionTaken.ReplaceUnused, s), idx1) ∧
        idx1.mVariables[s]? = some c) ∧
    ((∀ v ∈ idx.mVariables, v.timestamp? = none) →
      ∃ idx1, replaceLRUWith idx c t =
          Except.ok ((ActionTaken.ReplaceUnused, t % idx.mMaxLanes), idx1) ∧
        idx1.mVariables[t % idx.mMaxLanes]? = some c) := by
  have key : ∀ s, findOldestSlot idx t = Except.ok s → slotTimestamp idx.mVariables s = none →
      ∃ idx1, replaceLRUWith idx c t = Except.ok ((ActionTaken.ReplaceUnused, s), idx1) ∧
        idx1.mVariables[s]? = some c := by
    intro s hf hts
    have hs := findOldestSlot_lt idx t s hL hN hf
    refine ⟨_, replaceLRUWith_unused idx c t s hf hs hts, ?_⟩
    simp [hs]
  refine ⟨key, ?_⟩
  intro hall
  obtain ⟨r, hr, hlt, hmod, hfirst, _⟩ := findOldestSlot_spec idx t hL hN
  have hlane : t % idx.mMaxLanes < idx.mVariables.length :=
    lt_of_lt_of_le (Nat.mod_lt _ hL) hN
  have hr0 : r = t % idx.mMaxLanes := by
    have h1 := (hfirst ⟨t % idx.mMaxLanes, hlane, Nat.mod_mod _ _,
      slotTimestamp_none_of_all hall _⟩).2
    by_contra hne
    have hle : t % idx.mMaxLanes ≤ r := by rw [← hmod]; exact Nat.mod_le _ _
    exact h1 (t % idx.mMaxLanes) (by omega) (Nat.mod_mod _ _) (slotTimestamp_none_of_all hall _)
  rw [hr0] at hr
  exact key _ hr (slotTimestamp_none_of_all hall _)

/-- Witness for C1: `MaxLanes = 4`, four unoccupied slots, admitting timestamp 10
gives `ReplaceUnused` and slot 2. -/
theorem replaceLRUWith_unreadable_candidate_witness :
    ∃ idx1, replaceLRUWith (freshIndex 4 BackpressureOp.Wait [] 4) (contextOf 10) 10 =
        Except.ok ((ActionTaken.ReplaceUnused, 2), idx1) ∧
      idx1.mVariables[2]? = some (contextOf 10) :=
  (replaceLRUWith_unreadable_candidate (freshIndex 4 BackpressureOp.Wait [] 4) (contextOf 10) 10
    (by decide) (by decide)).2 (by decide)

/-- C2: when the candidate slot `s` holds `old` and the new context carries
`new > old`, policy `DropAncient` returns `(ReplaceObsolete, s)` and `s` then holds
the new context and timestamp; `DropRecent` returns `DropObsolete` and `Wait`
returns `Wait`, both leaving `old` in `s`. -/
theorem replaceLRUWith_newer (idx : TimesliceIndex) (c : VariableContext) (t s old new : Nat)
    (hf : findOldestSlot idx t = Except.ok s)
    (hts : slotTimestamp idx.mVariables s = some old)
    (hc : c.timestamp? = some new) (hlt : new > old) :
    (idx.mBackpressurePolicy = BackpressureOp.DropAncient →
      ∃ idx1, replaceLRUWith idx c t = Except.ok ((ActionTaken.ReplaceObsolete, s), idx1) ∧
        idx1.mVariables[s]? = some c ∧ slotTimestamp idx1.mVariables s = some new) ∧
    (idx.mBackpressurePolicy = BackpressureOp.DropRecent →
      ∃ slot idx1, replaceLRUWith idx c t = Except.ok ((ActionTaken.DropObsolete, slot), idx1) ∧
        slotTimestamp idx1.mVariables s = some old) ∧
    (idx.mBackpressurePolicy = BackpressureOp.Wait →
      ∃ slot idx1, replaceLRUWith idx c t = Except.ok ((ActionTaken.Wait, slot), idx1) ∧
        slotTimestamp idx1.mVariables s = some old) := by
  have hs := slotTimestamp_lt hts
  have h := replaceLRUWith_occupied idx c t s old new hf hts hc
  rw [if_pos hlt] at h
  refine ⟨?_, ?_, ?_⟩
  · intro hp
    rw [hp] at h
    refine ⟨_, h, by simp [hs], ?_⟩
    simp [slotTimestamp, hs, hc]
  · intro hp
    rw [hp] at h
    exact ⟨_, _, h, hts⟩
  · intro hp
    rw [hp] at h
    exact ⟨_, _, h, hts⟩

/-- Witness for C2: one slot per lane, `MaxLanes = 4`, slot 2 holds 10, admit 14
under each of the three policies. -/
theorem replaceLRUWith_newer_witness :
    (∃ idx1, replaceLRUWith (laneTwoHoldsTen BackpressureOp.DropAncient) (contextOf 14) 14 =
        Except.ok ((ActionTaken.ReplaceObsolete, 2), idx1) ∧
      idx1.mVariables[2]? = some (contextOf 14) ∧ slotTimestamp idx1.mVariables 2 = some 14) ∧
    (∃ slot idx1, replaceLRUWith (laneTwoHoldsTen BackpressureOp.DropRecent) (contextOf 14) 14 =
        Except.ok ((ActionTaken.DropObsolete, slot), idx1) ∧
      slotTimestamp idx1.mVariables 2 = some 10) ∧
    (∃ slot idx1, replaceLRUWith (laneTwoHoldsTen BackpressureOp.Wait) (contextOf 14) 14 =
        Except.ok ((ActionTaken.Wait, slot), idx1) ∧
      slotTimestamp idx1.mVariables 2 = some 10) :=
  ⟨(replaceLRUWith_newer (laneTwoHoldsTen BackpressureOp.DropAncient) (contextOf 14) 14 2 10 14
      rfl rfl rfl (by decide)).1 rfl,
   (replaceLRUWith_newer (laneTwoHoldsTen BackpressureOp.DropRecent) (contextOf 14) 14 2 10 14
      rfl rfl rfl (by decide)).2.1 rfl,
   (replaceLRUWith_newer (laneTwoHoldsTen BackpressureOp.Wait) (contextOf 14) 14 2 10 14
      rfl rfl rfl (by decide)).2.2 rfl⟩

/-- C3: when the candidate slot `s` holds `old` and the new context carries
`new <= old`, policy `DropRecent` returns `(ReplaceObsolete, s)` and `s` then holds
the new context; `DropAncient` returns `DropObsolete` and `Wait` returns `Wait`,
both leaving every slot as it was. -/
theorem replaceLRUWith_not_newer (idx : TimesliceIndex) (c : VariableContext)
    (t s old new : Nat)
    (hf : findOldestSlot idx t = Except.ok s)
    (hts : slotTimestamp idx.mVariables s = some old)
    (hc : c.timestamp? = some new) (hle : new ≤ old) :
    (idx.mBackpressurePolicy = BackpressureOp.DropRecent →
      ∃ idx1, replaceLRUWith idx c t = Except.ok ((ActionTaken.ReplaceObsolete, s), idx1) ∧
        idx1.mVariables[s]? = some c) ∧
    (idx.mBackpressurePolicy = BackpressureOp.DropAncient →
      ∃ slot idx1, replaceLRUWith idx c t = Except.ok ((ActionTaken.DropObsolete, slot), idx1) ∧
        idx1.mVariables = idx.mVariables) ∧
    (idx.mBackpressurePolicy = BackpressureOp.Wait →
      ∃ slot idx1, replaceLRUWith idx c t = Except.ok ((ActionTaken.Wait, slot), idx1) ∧
        idx1.mVariables = idx.mVariables) := by
  have hs := slotTimestamp_lt hts
  have h := replaceLRUWith_occupied idx c t s old new hf hts hc
  rw [if_neg (by omega)] at h
  refine ⟨?_, ?_, ?_⟩
  · intro hp
    rw [hp] at h
    exact ⟨_, h, by simp [hs]⟩
  · intro hp
    rw [hp] at h
    exact ⟨_, _, h, rfl⟩
  · intro hp
    rw [hp] at h
    exact ⟨_, _, h, rfl⟩

/-- Witness for C3: slot 2 holds 10; a second arrival of timestamp 10 replaces it
under `DropRecent`, and the older timestamp 6 is refused under `DropAncient` and
waits under `Wait`. -/
theorem replaceLRUWith_not_newer_witness :
    (∃ idx1, replaceLRUWith (laneTwoHoldsTen BackpressureOp.DropRecent) (contextOf 10) 10 =
        Except.ok ((ActionTaken.ReplaceObsolete, 2), idx1) ∧
      idx1.mVariables[2]? = some (contextOf 10)) ∧
    (∃ slot idx1, replaceLRUWith (laneTwoHoldsTen BackpressureOp.DropAncient) (contextOf 6) 6 =
        Except.ok ((ActionTaken.DropObsolete, slot), idx1) ∧
      idx1.mVariables = (laneTwoHoldsTen BackpressureOp.DropAncient).mVariables) ∧
    (∃ slot idx1, replaceLRUWith (laneTwoHoldsTen BackpressureOp.Wait) (contextOf 6) 6 =
        Except.ok ((ActionTaken.Wait, slot), idx1) ∧
      idx1.mVariables = (laneTwoHoldsTen BackpressureOp.Wait).mVariables) :=
  ⟨(replaceLRUWith_not_newer (laneTwoHoldsTen BackpressureOp.DropRecent) (contextOf 10) 10 2 10 10
      rfl rfl rfl (by decide)).1 rfl,
   (replaceLRUWith_not_newer (laneTwoHoldsTen BackpressureOp.DropAncient) (contextOf 6) 6 2 10 6
      rfl rfl rfl (by decide)).2.1 rfl,
   (replaceLRUWith_not_newer (laneTwoHoldsTen BackpressureOp.Wait) (contextOf 6) 6 2 10 6
      rfl rfl rfl (by decide)).2.2 rfl⟩

/-- C4: with `MaxLanes > 0` and at least `MaxLanes` slots, when every slot of the
lane of `t` (the slots `j` with `j mod MaxLanes = t mod MaxLanes`) holds a
timestamp, `findOldestSlot(t)` returns a slot of that lane whose timestamp is at
most that of every slot of the lane, and every lane slot of lower index holds a
strictly larger timestamp. -/
theorem findOldestSlot_full_lane (idx : TimesliceIndex) (t : Nat)
    (hL : 0 < idx.mMaxLanes) (hN : idx.mMaxLanes ≤ idx.mVariables.length)
    (hall : ∀ j, j < idx.mVariables.length → j % idx.mMaxLanes = t % idx.mMaxLanes →
      slotTimestamp idx.mVariables j ≠ none) :
    ∃ r rv, findOldestSlot idx t = Except.ok r ∧ r < idx.mVariables.length ∧
      r % idx.mMaxLanes = t % idx.mMaxLanes ∧ slotTimestamp idx.mVariables r = some rv ∧
      (∀ j v, j < idx.mVariables.length → j % idx.mMaxLanes = t % idx.mMaxLanes →
        slotTimestamp idx.mVariables j = some v → rv ≤ v) ∧
      (∀ j v, j < r → j % idx.mMaxLanes = t % idx.mMaxLanes →
        slotTimestamp idx.mVariables j = some v → rv < v) := by
  obtain ⟨r, hr, hlt, hmod, _, hfull⟩ := findOldestSlot_spec idx t hL hN
  obtain ⟨rv, h1, h2, h3⟩ := hfull hall
  exact ⟨r, rv, hr, hlt, hmod, h1, h2, h3⟩

/-- Witness for C4: slots hold 4, 7, 2, 3 with `MaxLanes = 2`; for `t = 6` the
lane is slots 0 and 2 and the scan returns slot 2, which holds 2. -/
theorem findOldestSlot_full_lane_witness :
    ∃ r rv, findOldestSlot twoLanesFull 6 = Except.ok r ∧ r < twoLanesFull.mVariables.length ∧
      r % twoLanesFull.mMaxLanes = 6 % twoLanesFull.mMaxLanes ∧
      slotTimestamp twoLanesFull.mVariables r = some rv ∧
      (∀ j v, j < twoLanesFull.mVariables.length →
        j % twoLanesFull.mMaxLanes = 6 % twoLanesFull.mMaxLanes →
        slotTimestamp twoLanesFull.mVariables j = some v → rv ≤ v) ∧
      (∀ j v, j < r → j % twoLanesFull.mMaxLanes = 6 % twoLanesFull.mMaxLanes →
        slotTimestamp twoLanesFull.mVariables j = some v → rv < v) :=
  findOldestSlot_full_lane twoLanesFull 6 (by decide) (by decide) (by decide)

/-- C5: with `MaxLanes > 0` and at least `MaxLanes` slots, when some slot of the
lane of `t` holds no readable timestamp, `findOldestSlot(t)` returns the
lowest-index unoccupied slot of that lane, whatever the occupied slots hold. -/
theorem findOldestSlot_first_unoccupied (idx : TimesliceIndex) (t : Nat)
    (hL : 0 < idx.mMaxLanes) (hN : idx.mMaxLanes ≤ idx.mVariables.length)
    (hex : ∃ j, j < idx.mVariables.length ∧ j % idx.mMaxLanes = t % idx.mMaxLanes ∧
      slotTimestamp idx.mVariables j = none) :
    ∃ r, findOldestSlot idx t = Except.ok r ∧ r < idx.mVariables.length ∧
      r % idx.mMaxLanes = t % idx.mMaxLanes ∧ slotTimestamp idx.mVariables r = none ∧
      (∀ j, j < r → j % idx.mMaxLanes = t % idx.mMaxLanes →
        slotTimestamp idx.mVariables j ≠ none) ∧
      (slotTimestamp idx.mVariables (t % idx.mMaxLanes) = none → r = t % idx.mMaxLanes) := by
  obtain ⟨r, hr, hlt, hmod, hfirst, _⟩ := findOldestSlot_spec idx t hL hN
  obtain ⟨h1, h2⟩ := hfirst hex
  refine ⟨r, hr, hlt, hmod, h1, h2, ?_⟩
  intro h0
  by_contra hne
  have hle : t % idx.mMaxLanes ≤ r := by rw [← hmod]; exact Nat.mod_le _ _
  exact h2 (t % idx.mMaxLanes) (by omega) (Nat.mod_mod _ _) h0

/-- Witness for C5: six slots, `MaxLanes = 2`, slot 0 holds 8 and slots 2 and 4 are
unoccupied; for `t = 4` the scan returns slot 2. -/
theorem findOldestSlot_first_unoccupied_witness :
    ∃ r, findOldestSlot twoLanesSparse 4 = Except.ok r ∧
      r < twoLanesSparse.mVariables.length ∧
      r % twoLanesSparse.mMaxLanes = 4 % twoLanesSparse.mMaxLanes ∧
      slotTimestamp twoLanesSparse.mVariables r = none ∧
      (∀ j, j < r → j % twoLanesSparse.mMaxLanes = 4 % twoLanesSparse.mMaxLanes →
        slotTimestamp twoLanesSparse.mVariables j ≠ none) ∧
      (slotTimestamp twoLanesSparse.mVariables (4 % twoLanesSparse.mMaxLanes) = none →
        r = 4 % twoLanesSparse.mMaxLanes) :=
  findOldestSlot_first_unoccupied twoLanesSparse 4 (by decide) (by decide)
    ⟨2, by decide, by decide, by decide⟩

/-- C6: with `MaxLanes > 0` and `N >= MaxLanes` slots, `findOldestSlot(t)` returns
(no fault: the scan ends within its fuel and reads no index outside the vector) a
slot `i < N` with `i mod MaxLanes = t mod MaxLanes`, and `replaceLRUWith(c, t)`
returns with a slot that is `TimesliceSlot::INVALID` or that `i`. -/
theorem findOldestSlot_in_lane (idx : TimesliceIndex) (t : Nat)
    (hL : 0 < idx.mMaxLanes) (hN : idx.mMaxLanes ≤ idx.mVariables.length) :
    ∃ i, findOldestSlot idx t = Except.ok i ∧ i < idx.mVariables.length ∧
      i % idx.mMaxLanes = t % idx.mMaxLanes ∧
      ∀ c : VariableContext, ∃ action slot idx1,
        replaceLRUWith idx c t = Except.ok ((action, slot), idx1) ∧
        (slot = TimesliceSlot.INVALID ∨ slot = i) := by
  obtain ⟨r, hr, hlt, hmod, _, _⟩ := findOldestSlot_spec idx t hL hN
  exact ⟨r, hr, hlt, hmod, fun c => replaceLRUWith_returns idx c t r hr hlt⟩

/-- Witness for C6: the index with slots 4, 7, 2, 3 and `MaxLanes = 2`, `t = 7`. -/
theorem findOldestSlot_in_lane_witness :
    ∃ i, findOldestSlot twoLanesFull 7 = Except.ok i ∧ i < twoLanesFull.mVariables.length ∧
      i % twoLanesFull.mMaxLanes = 7 % twoLanesFull.mMaxLanes ∧
      ∀ c : VariableContext, ∃ action slot idx1,
        replaceLRUWith twoLanesFull c 7 = Except.ok ((action, slot), idx1) ∧
        (slot = TimesliceSlot.INVALID ∨ slot = i) :=
  findOldestSlot_in_lane twoLanesFull 7 (by decide) (by decide)

theorem replaceLRUWith_result (idx idx1 : TimesliceIndex) (c : VariableContext) (t : Nat)
    (r : ActionTaken × Nat) (h : replaceLRUWith idx c t = Except.ok (r, idx1)) :
    idx1 = idx ∨ ∃ s, s < idx.mVariables.length ∧
      idx1 = { idx with mVariables := idx.mVariables.set s c } := by
  cases hf : findOldestSlot idx t with
  | error e => simp [replaceLRUWith, hf, bind, Except.bind] at h
  | ok s =>
    by_cases hs : s < idx.mVariables.length
    · cases hts : slotTimestamp idx.mVariables s with
      | none =>
        rw [replaceLRUWith_unused idx c t s hf hs hts] at h
        cases h
        exact Or.inr ⟨s, hs, rfl⟩
      | some old =>
        cases hc : c.timestamp? with
        | none =>
          rw [replaceLRUWith_invalid idx c t s old hf hts hc] at h
          cases h
          exact Or.inl rfl
        | some new =>
          rw [replaceLRUWith_occupied idx c t s old new hf hts hc] at h
          by_cases hlt : new > old
          · rw [if_pos hlt] at h
            cases hp : idx.mBackpressurePolicy <;> rw [hp] at h <;> cases h
            · exact Or.inr ⟨s, hs, rfl⟩
            · exact Or.inl rfl
            · exact Or.inl rfl
          · rw [if_neg hlt] at h
            cases hp : idx.mBackpressurePolicy <;> rw [hp] at h <;> cases h
            · exact Or.inl rfl
            · exact Or.inr ⟨s, hs, rfl⟩
            · exact Or.inl rfl
    · have hnone : idx.mVariables[s]? = none := List.getElem?_eq_none (by omega)
      simp [replaceLRUWith, hf, isValid, readAt, hnone, bind, Except.bind] at h

theorem slotTimestamp_set (vars : List VariableContext) (s i : Nat) (c : VariableContext) :
    slotTimestamp (vars.set s c) i =
      if s = i ∧ s < vars.length then c.timestamp? else slotTimestamp vars i := by
  unfold slotTimestamp
  by_cases h : s = i
  · subst h
    by_cases hs : s < vars.length
    · simp [hs]
    · have h1 : vars[s]? = none := List.getElem?_eq_none (by omega)
      have h2 : (vars.set s c)[s]? = none :=
        List.getElem?_eq_none (by rw [List.length_set]; omega)
      simp [hs, h1, h2]
  · simp [h, List.getElem?_set_ne h]

theorem slotTimestamp_mem {vars : List VariableContext} {i v : Nat}
    (h : slotTimestamp vars i = some v) : ∃ ctx ∈ vars, ctx.timestamp? = some v := by
  unfold slotTimestamp at h
  cases hi : vars[i]? with
  | none => rw [hi] at h; exact Option.noConfusion h
  | some ctx => rw [hi] at h; exact ⟨ctx, List.getElem?_mem hi, h⟩

theorem noShared_set (vars : List VariableContext) (s : Nat) (c : VariableContext)
    (hns : NoSharedTimeslice vars)
    (hnew : c.timestamp? = none ∨ ∀ ctx ∈ vars, ctx.timestamp? ≠ c.timestamp?) :
    NoSharedTimeslice (vars.set s c) := by
  intro i j v hi hj
  rw [slotTimestamp_set] at hi hj
  by_cases h1 : s = i ∧ s < vars.length
  · by_cases h2 : s = j ∧ s < vars.length
    · rw [← h1.1, ← h2.1]
    · rw [if_pos h1] at hi
      rw [if_neg h2] at hj
      obtain ⟨ctx, hmem, hctx⟩ := slotTimestamp_mem hj
      rcases hnew with hn | hn
      · rw [hn] at hi; exact Option.noConfusion hi
      · exact absurd (hctx.trans hi.symm) (hn ctx hmem)
  · rw [if_neg h1] at hi
    by_cases h2 : s = j ∧ s < vars.length
    · rw [if_pos h2] at hj
      obtain ⟨ctx, hmem, hctx⟩ := slotTimestamp_mem hi
      rcases hnew with hn | hn
      · rw [hn] at hj; exact Option.noConfusion hj
      · exact absurd (hctx.trans hj.symm) (hn ctx hmem)
    · rw [if_neg h2] at hj
      exact hns i j v hi hj

theorem admitAll_noShared (seq : List (VariableContext × Nat)) :
    ∀ idx : TimesliceIndex, 0 < idx.mMaxLanes → idx.mMaxLanes ≤ idx.mVariables.length →
      NoSharedTimeslice idx.mVariables → admitsNewTimeslices idx seq = true →
      ∃ idx1, admitAll idx seq = Except.ok idx1 ∧ NoSharedTimeslice idx1.mVariables := by
  induction seq with
  | nil => intro idx _ _ hns _; exact ⟨idx, rfl, hns⟩
  | cons a rest ih =>
    obtain ⟨c, t⟩ := a
    intro idx hL hN hns hadm
    obtain ⟨i, hi, hlt, _⟩ := findOldestSlot_spec idx t hL hN
    obtain ⟨action, slot, idx1, hr, _⟩ := replaceLRUWith_returns idx c t i hi hlt
    simp only [admitsNewTimeslices, hr, Bool.and_eq_true, carriesNewTimeslice,
      decide_eq_true_eq] at hadm
    obtain ⟨hnew, hrest⟩ := hadm
    have hstep : admitAll idx ((c, t) :: rest) = admitAll idx1 rest := by
      simp [admitAll, hr]
    rw [hstep]
    rcases replaceLRUWith_result idx idx1 c t _ hr with h | ⟨s, hs, h⟩
    · subst h
      exact ih idx1 hL hN hns hrest
    · subst h
      exact ih _ hL (by simpa using hN) (noShared_set idx.mVariables s c hns hnew) hrest

/-- C7 (counterexample): two slots in the single lane (`N = 2 * MaxLanes`); the
timestamp 5 admitted twice ends up committed in slot 0 and in slot 1. -/
theorem replaceLRUWith_duplicate_admission :
    ∃ idx1, admitAll (freshIndex 1 BackpressureOp.Wait [] 2)
        [(contextOf 5, 5), (contextOf 5, 5)] = Except.ok idx1 ∧
      ¬ NoSharedTimeslice idx1.mVariables :=
  ⟨_, rfl, fun h => absurd (h 0 1 5 rfl rfl) (by decide)⟩

/-- C7 (amended): for `N = k * MaxLanes` slots (`k >= 1`, `MaxLanes >= 1`), every
policy and every sequence of `replaceLRUWith` admissions applied to an index whose
slots all start unoccupied, in which no admitted context carries a timestamp that
a slot already holds when it is admitted, every admission returns and no two
distinct slots hold the same TimesliceId. -/
theorem admissions_of_new_timeslices_unique (idx : TimesliceIndex) (k : Nat)
    (seq : List (VariableContext × Nat)) (hk : 1 ≤ k) (hL : 0 < idx.mMaxLanes)
    (hN : idx.mVariables.length = k * idx.mMaxLanes)
    (hempty : ∀ ctx ∈ idx.mVariables, ctx.timestamp? = none)
    (hnew : admitsNewTimeslices idx seq = true) :
    ∃ idx1, admitAll idx seq = Except.ok idx1 ∧ NoSharedTimeslice idx1.mVariables := by
  have hle : idx.mMaxLanes ≤ idx.mVariables.length := by
    rw [hN]; exact Nat.le_mul_of_pos_left _ hk
  refine admitAll_noShared seq idx hL hle ?_ hnew
  intro i j v hi _
  rw [slotTimestamp_none_of_all hempty i] at hi
  exact Option.noConfusion hi

/-- Witness for C7 (amended): two slots in the single lane, timestamps 5 and 6
admitted in turn. -/
theorem admissions_of_new_timeslices_unique_witness :
    ∃ idx1, admitAll (freshIndex 1 BackpressureOp.Wait [] 2)
        [(contextOf 5, 5), (contextOf 6, 6)] = Except.ok idx1 ∧
      NoSharedTimeslice idx1.mVariables :=
  admissions_of_new_timeslices_unique (freshIndex 1 BackpressureOp.Wait [] 2) 2
    [(contextOf 5, 5), (contextOf 6, 6)] (by decide) (by decide) (by decide) (by decide)
    (by decide)

/-- C8 (code at the failing input): roster with data channel 0 at watermark 10
and auxiliary channel 1; `setOldestPossibleInput(5, 1)` returns and stores the
fence `(5, channel 1)` although the minimum over the data channels is 10. -/
theorem setOldestPossibleInput_auxiliary_report :
    ∃ idx1, setOldestPossibleInput (afterReport dataAndAuxiliary 10 0) 5 1 =
        Except.ok (⟨5, 1⟩, idx1) ∧
      idx1.mOldestPossibleInput = ⟨5, 1⟩ ∧
      minDataWatermark idx1.mChannels = some 10 :=
  ⟨_, rfl, rfl, by decide⟩

theorem oldestInputLoop_spec (channels : List InputChannelInfo) :
    ∀ (ci : Nat) (seed : OldestInputInfo),
      (oldestInputLoop channels ci seed).timeslice ≤ seed.timeslice ∧
      (∀ ch ∈ channels, ch.channelType = ChannelAccountingType.DPL →
        (oldestInputLoop channels ci seed).timeslice ≤ ch.oldestForChannel) ∧
      ((oldestInputLoop channels ci seed).timeslice = seed.timeslice ∨
        ∃ ch ∈ channels, ch.channelType = ChannelAccountingType.DPL ∧
          ch.oldestForChannel = (oldestInputLoop channels ci seed).timeslice) := by
  induction channels with
  | nil => intro ci seed; simp [oldestInputLoop]
  | cons a rest ih =>
    intro ci seed
    by_cases hd : a.channelType = ChannelAccountingType.DPL
    · by_cases hlt : a.oldestForChannel < seed.timeslice
      · have hstep : oldestInputLoop (a :: rest) ci seed =
            oldestInputLoop rest (ci + 1) ⟨a.oldestForChannel, (ci : Int)⟩ := by
          simp [oldestInputLoop, hd, hlt]
        rw [hstep]
        obtain ⟨h1, h2, h3⟩ := ih (ci + 1) ⟨a.oldestForChannel, (ci : Int)⟩
        refine ⟨by simp at h1; omega, ?_, ?_⟩
        · intro ch hmem hch
          rcases List.mem_cons.mp hmem with h | h
          · subst h; simpa using h1
          · exact h2 ch h hch
        · rcases h3 with h | ⟨ch, hmem, hch, hv⟩
          · exact Or.inr ⟨a, List.mem_cons_self _ _, hd, by simpa using h.symm⟩
          · exact Or.inr ⟨ch, List.mem_cons_of_mem _ hmem, hch, hv⟩
      · have hstep : oldestInputLoop (a :: rest) ci seed =
            oldestInputLoop rest (ci + 1) seed := by
          simp [oldestInputLoop, hd, hlt]
        rw [hstep]
        obtain ⟨h1, h2, h3⟩ := ih (ci + 1) seed
        refine ⟨h1, ?_, ?_⟩
        · intro ch hmem hch
          rcases List.mem_cons.mp hmem with h | h
          · subst h; omega
          · exact h2 ch h hch
        · rcases h3 with h | ⟨ch, hmem, hch, hv⟩
          · exact Or.inl h
          · exact Or.inr ⟨ch, List.mem_cons_of_mem _ hmem, hch, hv⟩
    · have hstep : oldestInputLoop (a :: rest) ci seed =
          oldestInputLoop rest (ci + 1) seed := by
        simp [oldestInputLoop, hd]
      rw [hstep]
      obtain ⟨h1, h2, h3⟩ := ih (ci + 1) seed
      refine ⟨h1, ?_, ?_⟩
      · intro ch hmem hch
        rcases List.mem_cons.mp hmem with h | h
        · subst h; exact absurd hch hd
        · exact h2 ch h hch
      · rcases h3 with h | ⟨ch, hmem, hch, hv⟩
        · exact Or.inl h
        · exact Or.inr ⟨ch, List.mem_cons_of_mem _ hmem, hch, hv⟩

theorem oldestOutputLoop_spec (vars : List VariableContext) :
    ∀ (i : Nat) (seed : OldestOutputInfo),
      (oldestOutputLoop vars i seed).timeslice ≤ seed.timeslice ∧
      (∀ ctx ∈ vars, ∀ v, ctx.timestamp? = some v →
        (oldestOutputLoop vars i seed).timeslice ≤ v) ∧
      ((oldestOutputLoop vars i seed).timeslice = seed.timeslice ∨
        ∃ ctx ∈ vars, ctx.timestamp? = some (oldestOutputLoop vars i seed).timeslice) := by
  induction vars with
  | nil => intro i seed; simp [oldestOutputLoop]
  | cons a rest ih =>
    intro i seed
    cases hts : a.timestamp? with
    | none =>
      have hstep : oldestOutputLoop (a :: rest) i seed = oldestOutputLoop rest (i + 1) seed := by
        simp [oldestOutputLoop, hts]
      rw [hstep]
      obtain ⟨h1, h2, h3⟩ := ih (i + 1) seed
      refine ⟨h1, ?_, ?_⟩
      · intro ctx hmem v hv
        rcases List.mem_cons.mp hmem with h | h
        · subst h; rw [hts] at hv; exact Option.noConfusion hv
        · exact h2 ctx h v hv
      · rcases h3 with h | ⟨ctx, hmem, hv⟩
        · exact Or.inl h
        · exact Or.inr ⟨ctx, List.mem_cons_of_mem _ hmem, hv⟩
    | some ts =>
      by_cases hlt : ts < seed.timeslice
      · have hstep : oldestOutputLoop (a :: rest) i seed =
            oldestOutputLoop rest (i + 1) ⟨ts, -1, i⟩ := by
          simp [oldestOutputLoop, hts, hlt]
        rw [hstep]
        obtain ⟨h1, h2, h3⟩ := ih (i + 1) ⟨ts, -1, i⟩
        refine ⟨by simp at h1; omega, ?_, ?_⟩
        · intro ctx hmem v hv
          rcases List.mem_cons.mp hmem with h | h
          · subst h; rw [hts] at hv; cases hv; simpa using h1
          · exact h2 ctx h v hv
        · rcases h3 with h | ⟨ctx, hmem, hv⟩
          · exact Or.inr ⟨a, List.mem_cons_self _ _, by rw [hts, h]⟩
          · exact Or.inr ⟨ctx, List.mem_cons_of_mem _ hmem, hv⟩
      · have hstep : oldestOutputLoop (a :: rest) i seed =
            oldestOutputLoop rest (i + 1) seed := by
          simp [oldestOutputLoop, hts, hlt]
        rw [hstep]
        obtain ⟨h1, h2, h3⟩ := ih (i + 1) seed
        refine ⟨h1, ?_, ?_⟩
        · intro ctx hmem v hv
          rcases List.mem_cons.mp hmem with h | h
          · subst h; rw [hts] at hv; cases hv; omega
          · exact h2 ctx h v hv
        · rcases h3 with h | ⟨ctx, hmem, hv⟩
          · exact Or.inl h
          · exact Or.inr ⟨ctx, List.mem_cons_of_mem _ hmem, hv⟩

theorem setOldestPossibleInput_ok (idx : TimesliceIndex) (t : Nat) (c : Int)
    (info : InputChannelInfo) (hc : 0 ≤ c) (hinfo : idx.mChannels[c.toNat]? = some info) :
    setOldestPossibleInput idx t c =
      Except.ok
        (oldestInputLoop (idx.mChannels.set c.toNat { info with oldestForChannel := t }) 0 ⟨t, c⟩,
          { idx with
            mChannels := idx.mChannels.set c.toNat { info with oldestForChannel := t }
            mOldestPossibleInput :=
              oldestInputLoop (idx.mChannels.set c.toNat { info with oldestForChannel := t }) 0
                ⟨t, c⟩ }) := by
  have hneg : ¬ c < 0 := by omega
  simp [setOldestPossibleInput, hneg, readAt, hinfo]

theorem associate_ok (idx idx1 : TimesliceIndex) (t slot : Nat)
    (h : associate idx t slot = Except.ok idx1) :
    ∃ ctx dirty, ctx.timestamp? = some t ∧
      idx1 = { idx with mVariables := idx.mVariables.set slot ctx, mDirty := dirty } := by
  cases hv : idx.mVariables[slot]? with
  | none => simp [associate, readAt, hv, bind, Except.bind] at h
  | some ctx0 =>
    by_cases hs : slot < idx.mVariables.length
    · by_cases hd : slot < idx.mDirty.length
      · simp [associate, readAt, hv, writeAt, hs, hd, bind, Except.bind, pure, Except.pure] at h
        refine ⟨_, _, ?_, h.symm⟩
        simp [VariableContext.timestamp?, VariableContext.get, VariableContext.put,
          VariableContext.commit]
      · simp [associate, readAt, hv, writeAt, hs, hd, bind, Except.bind, pure, Except.pure] at h
    · simp [associate, readAt, hv, writeAt, hs, bind, Except.bind] at h

theorem validateSlot_ok (idx idx1 : TimesliceIndex) (slot cur : Nat) (b : Bool)
    (h : validateSlot idx slot cur = Except.ok (b, idx1)) :
    idx1 = idx ∨ ∃ ctx, ctx.timestamp? = none ∧
      idx1 = { idx with mVariables := idx.mVariables.set slot ctx } := by
  cases hd : idx.mDirty[slot]? with
  | none => simp [validateSlot, readAt, hd, bind, Except.bind] at h
  | some dirty =>
    cases dirty with
    | true =>
      simp [validateSlot, readAt, hd, bind, Except.bind, pure, Except.pure] at h
      exact Or.inl h.2.symm
    | false =>
      cases hv : idx.mVariables[slot]? with
      | none => simp [validateSlot, readAt, hd, hv, bind, Except.bind] at h
      | some ctx0 =>
        cases hts : ctx0.timestamp? with
        | none =>
          simp [validateSlot, readAt, hd, hv, hts, bind, Except.bind, pure, Except.pure] at h
          exact Or.inl h.2.symm
        | some ts =>
          by_cases hlt : ts < idx.mOldestPossibleInput.timeslice
          · by_cases hs : slot < idx.mVariables.length
            · simp [validateSlot, readAt, hd, hv, hts, hlt, markAsInvalid, writeAt, hs,
                bind, Except.bind, pure, Except.pure] at h
              refine Or.inr ⟨ctx0.reset, ?_, h.2.symm⟩
              simp [VariableContext.reset, VariableContext.empty, VariableContext.timestamp?,
                VariableContext.get]
            · simp [validateSlot, readAt, hd, hv, hts, hlt, markAsInvalid, writeAt, hs,
                bind, Except.bind, pure, Except.pure] at h
          · simp [validateSlot, readAt, hd, hv, hts, hlt, bind, Except.bind, pure,
              Except.pure] at h
            exact Or.inl h.2.symm

theorem fence_set_vars (idx : TimesliceIndex) (slot : Nat) (ctx : VariableContext)
    (dirty : List Bool) (hinv : FenceInvariant idx)
    (hctx : ∀ v, ctx.timestamp? = some v → idx.mOldestPossibleOutput.timeslice ≤ v) :
    FenceInvariant { idx with mVariables := idx.mVariables.set slot ctx, mDirty := dirty } := by
  obtain ⟨h1, h2, h3⟩ := hinv
  refine ⟨h1, h2, ?_⟩
  intro c hmem v hv
  rcases List.mem_or_eq_of_mem_set hmem with h | h
  · exact h3 c h v hv
  · subst h; exact hctx v hv

theorem fence_step (s s1 : TimesliceIndex) (call : Call) (hinv : FenceInvariant s)
    (hc : call.respectsContract s = true) (ha : call.apply s = Except.ok s1) :
    FenceInvariant s1 ∧
      s.mOldestPossibleInput.timeslice ≤ s1.mOldestPossibleInput.timeslice ∧
      s.mOldestPossibleOutput.timeslice ≤ s1.mOldestPossibleOutput.timeslice := by
  obtain ⟨h1, h2, h3⟩ := hinv
  cases call with
  | setOldestPossibleInput t c =>
    simp only [Call.respectsContract, Bool.and_eq_true, decide_eq_true_eq] at hc
    obtain ⟨hc0, hc1⟩ := hc
    cases hinfo : s.mChannels[c.toNat]? with
    | none => rw [hinfo] at hc1; exact absurd hc1 (by simp)
    | some info =>
      rw [hinfo] at hc1
      simp only [decide_eq_true_eq] at hc1
      obtain ⟨hdpl, hle⟩ := hc1
      simp only [Call.apply, setOldestPossibleInput_ok s t c info hc0 hinfo] at ha
      cases ha
      obtain ⟨q1, q2, q3⟩ := oldestInputLoop_spec
        (s.mChannels.set c.toNat { info with oldestForChannel := t }) 0 ⟨t, c⟩
      have hinfo_ge : s.mOldestPossibleInput.timeslice ≤ info.oldestForChannel :=
        h1 info (List.getElem?_mem hinfo) hdpl
      have hmono : s.mOldestPossibleInput.timeslice ≤
          (oldestInputLoop (s.mChannels.set c.toNat { info with oldestForChannel := t }) 0
            ⟨t, c⟩).timeslice := by
        rcases q3 with h | ⟨ch, hmem, hch, hv⟩
        · rw [h]; simp only; omega
        · rw [← hv]
          rcases List.mem_or_eq_of_mem_set hmem with h | h
          · exact h1 ch h hch
          · subst h; simp only; omega
      refine ⟨⟨q2, ?_, h3⟩, hmono, le_refl _⟩
      simp only
      omega
  | associate t slot =>
    simp only [Call.respectsContract, decide_eq_true_eq] at hc
    simp only [Call.apply] at ha
    obtain ⟨ctx, dirty, hts, heq⟩ := associate_ok s s1 t slot ha
    subst heq
    refine ⟨fence_set_vars s slot ctx dirty ⟨h1, h2, h3⟩ ?_, le_refl _, le_refl _⟩
    intro v hv
    rw [hts] at hv
    cases hv
    exact hc
  | replaceLRUWith c t =>
    simp only [Call.respectsContract] at hc
    simp only [Call.apply] at ha
    cases hr : replaceLRUWith s c t with
    | error e => rw [hr] at ha; exact Except.noConfusion ha
    | ok p =>
      obtain ⟨r, s2⟩ := p
      rw [hr] at ha
      cases ha
      rcases replaceLRUWith_result s s1 c t r hr with h | ⟨slot, _, h⟩
      · subst h; exact ⟨⟨h1, h2, h3⟩, le_refl _, le_refl _⟩
      · subst h
        refine ⟨fence_set_vars s slot c s.mDirty ⟨h1, h2, h3⟩ ?_, le_refl _, le_refl _⟩
        intro v hv
        rw [hv] at hc
        simpa using hc
  | validateSlot slot cur =>
    simp only [Call.apply] at ha
    cases hr : validateSlot s slot cur with
    | error e => rw [hr] at ha; exact Except.noConfusion ha
    | ok p =>
      obtain ⟨b, s2⟩ := p
      rw [hr] at ha
      cases ha
      rcases validateSlot_ok s s1 slot cur b hr with h | ⟨ctx, hts, h⟩
      · subst h; exact ⟨⟨h1, h2, h3⟩, le_refl _, le_refl _⟩
      · subst h
        refine ⟨fence_set_vars s slot ctx s.mDirty ⟨h1, h2, h3⟩ ?_, le_refl _, le_refl _⟩
        intro v hv
        rw [hts] at hv
        exact Option.noConfusion hv
  | updateOldestPossibleOutput =>
    simp only [Call.apply, updateOldestPossibleOutput, getOldestPossibleInput] at ha
    cases ha
    obtain ⟨q1, q2, q3⟩ := oldestOutputLoop_spec s.mVariables 0
      ⟨s.mOldestPossibleInput.timeslice, s.mOldestPossibleInput.channel, 0⟩
    refine ⟨⟨h1, q1, q2⟩, le_refl _, ?_⟩
    rcases q3 with h | ⟨ctx, hmem, hv⟩
    · simp only at h ⊢; omega
    · exact h3 ctx hmem _ hv

theorem fence_reset (idx : TimesliceIndex) : FenceInvariant (reset idx) := by
  refine ⟨?_, le_refl _, ?_⟩
  · intro ch _ _
    exact Nat.zero_le _
  · intro ctx _ v _
    exact Nat.zero_le _

theorem fence_run (calls : List Call) :
    ∀ s s1 : TimesliceIndex, FenceInvariant s → applyContractual s calls = some s1 →
      FenceInvariant s1 := by
  induction calls with
  | nil =>
    intro s s1 hinv h
    simp only [applyContractual, Option.some.injEq] at h
    subst h
    exact hinv
  | cons call rest ih =>
    intro s s1 hinv h
    by_cases hc : call.respectsContract s = true
    · cases ha : call.apply s with
      | error e => simp [applyContractual, hc, ha] at h
      | ok s2 =>
        simp only [applyContractual, hc, ha, if_true] at h
        exact ih s2 s1 (fence_step s s2 call hinv hc ha).1 h
    · simp [applyContractual, hc] at h

/-- A report from a real data channel: the returned and stored fence is the least
watermark of the real data channels after the update. -/
theorem setOldestPossibleInput_data_report (idx : TimesliceIndex) (c t : Nat)
    (info : InputChannelInfo) (hinfo : idx.mChannels[c]? = some info)
    (hdpl : info.channelType = ChannelAccountingType.DPL) :
    ∃ r idx1, setOldestPossibleInput idx t (c : Int) = Except.ok (r, idx1) ∧
      idx1.mOldestPossibleInput = r ∧
      (∀ ch ∈ idx1.mChannels, ch.channelType = ChannelAccountingType.DPL →
        r.timeslice ≤ ch.oldestForChannel) ∧
      (∃ ch ∈ idx1.mChannels,
        ch.channelType = ChannelAccountingType.DPL ∧ ch.oldestForChannel = r.timeslice) := by
  have hlen : c < idx.mChannels.length := by
    by_contra hn
    have : idx.mChannels[c]? = none := List.getElem?_eq_none (by omega)
    rw [this] at hinfo
    exact Option.noConfusion hinfo
  have hinfo1 : idx.mChannels[(c : Int).toNat]? = some info := by simpa using hinfo
  have hok := setOldestPossibleInput_ok idx t (c : Int) info (Int.natCast_nonneg c) hinfo1
  simp only [Int.toNat_ofNat] at hok
  obtain ⟨_, q2, q3⟩ := oldestInputLoop_spec
    (idx.mChannels.set c { info with oldestForChannel := t }) 0 ⟨t, (c : Int)⟩
  refine ⟨_, _, hok, rfl, q2, ?_⟩
  rcases q3 with h | h
  · refine ⟨{ info with oldestForChannel := t }, List.mem_set _ _ hlen _, hdpl, ?_⟩
    rw [h]
  · exact h

/-- C9 (counterexample): the single data channel reported 20 and then reports 15;
the stored watermark becomes 15 and the stored OldestPossibleInput drops from 20
to 15. -/
theorem setOldestPossibleInput_regression_applied :
    channelWatermark (afterReport singleDataChannel 20 0) 0 = some 20 ∧
    (afterReport singleDataChannel 20 0).mOldestPossibleInput.timeslice = 20 ∧
    ∃ r idx1, setOldestPossibleInput (afterReport singleDataChannel 20 0) 15 0 =
        Except.ok (r, idx1) ∧
      channelWatermark idx1 0 = some 15 ∧
      channelWatermark idx1 0 ≠ channelWatermark (afterReport singleDataChannel 20 0) 0 ∧
      idx1.mOldestPossibleInput.timeslice = 15 ∧
      idx1.mOldestPossibleInput ≠ (afterReport singleDataChannel 20 0).mOldestPossibleInput :=
  ⟨rfl, rfl, _, _, rfl, rfl, by decide, rfl, by decide⟩

/-- C9 (amended): for every real data (DPL) channel `c` of the roster and every
timestamp `t` strictly less than the watermark stored for `c`,
`setOldestPossibleInput(t, c)` returns, stores `t` as the watermark of `c` (the
regression is only reported), leaves the other channels alone, and stores as
OldestPossibleInput the returned fence, which is the minimum of the data-channel
watermarks after the update: at most each of them, held by one of them, hence at
most `t` and below the previous watermark of `c`. -/
theorem setOldestPossibleInput_regression (idx : TimesliceIndex) (c t : Nat)
    (info : InputChannelInfo) (hinfo : idx.mChannels[c]? = some info)
    (hdpl : info.channelType = ChannelAccountingType.DPL)
    (hlt : t < info.oldestForChannel) :
    ∃ r idx1, setOldestPossibleInput idx t (c : Int) = Except.ok (r, idx1) ∧
      channelWatermark idx c = some info.oldestForChannel ∧
      channelWatermark idx1 c = some t ∧
      (∀ d, d ≠ c → idx1.mChannels[d]? = idx.mChannels[d]?) ∧
      idx1.mOldestPossibleInput = r ∧ r.timeslice ≤ t ∧
      r.timeslice < info.oldestForChannel ∧
      (∀ ch ∈ idx1.mChannels, ch.channelType = ChannelAccountingType.DPL →
        r.timeslice ≤ ch.oldestForChannel) ∧
      (∃ ch ∈ idx1.mChannels,
        ch.channelType = ChannelAccountingType.DPL ∧ ch.oldestForChannel = r.timeslice) := by
  have hlen : c < idx.mChannels.length := by
    by_contra hn
    have : idx.mChannels[c]? = none := List.getElem?_eq_none (by omega)
    rw [this] at hinfo
    exact Option.noConfusion hinfo
  have hinfo1 : idx.mChannels[(c : Int).toNat]? = some info := by simpa using hinfo
  have hok := setOldestPossibleInput_ok idx t (c : Int) info (Int.natCast_nonneg c) hinfo1
  simp only [Int.toNat_ofNat] at hok
  obtain ⟨q1, q2, q3⟩ := oldestInputLoop_spec
    (idx.mChannels.set c { info with oldestForChannel := t }) 0 ⟨t, (c : Int)⟩
  refine ⟨_, _, hok, ?_, ?_, ?_, rfl, q1, lt_of_le_of_lt q1 hlt, q2, ?_⟩
  · simp [channelWatermark, hinfo]
  · simp [channelWatermark, hlen]
  · intro d hd
    simp only
    exact List.getElem?_set_ne (Ne.symm hd)
  · rcases q3 with h | h
    · refine ⟨{ info with oldestForChannel := t }, List.mem_set _ _ hlen _, hdpl, ?_⟩
      rw [h]
    · exact h

/-- Witness for C9 (amended): the single data channel holds 20 and reports 15. -/
theorem setOldestPossibleInput_regression_witness :
    ∃ r idx1, setOldestPossibleInput (afterReport singleDataChannel 20 0) 15 ((0 : Nat) : Int) =
        Except.ok (r, idx1) ∧
      channelWatermark (afterReport singleDataChannel 20 0) 0 = some 20 ∧
      channelWatermark idx1 0 = some 15 ∧
      (∀ d, d ≠ 0 → idx1.mChannels[d]? = (afterReport singleDataChannel 20 0).mChannels[d]?) ∧
      idx1.mOldestPossibleInput = r ∧ r.timeslice ≤ 15 ∧ r.timeslice < 20 ∧
      (∀ ch ∈ idx1.mChannels, ch.channelType = ChannelAccountingType.DPL →
        r.timeslice ≤ ch.oldestForChannel) ∧
      (∃ ch ∈ idx1.mChannels,
        ch.channelType = ChannelAccountingType.DPL ∧ ch.oldestForChannel = r.timeslice) :=
  setOldestPossibleInput_regression (afterReport singleDataChannel 20 0) 0 15
    ⟨ChannelAccountingType.DPL, 20⟩ rfl rfl (by decide)

/-- C10 (counterexample): from the reset state with one data channel, a report of
20 followed by a report of 15 lowers the stored OldestPossibleInput from 20 to 15,
and the next `updateOldestPossibleOutput` lowers the stored OldestPossibleOutput
from 20 to 15; without any regressing report, associating timestamp 5 with slot 0
after the fence reached 20 lowers the stored OldestPossibleOutput to 5. -/
theorem fences_regress :
    (∃ s1 s2 s3,
      applyAll (reset singleDataChannel)
        [Call.setOldestPossibleInput 20 0, Call.updateOldestPossibleOutput] = Except.ok s1 ∧
      Call.apply s1 (Call.setOldestPossibleInput 15 0) = Except.ok s2 ∧
      s2.mOldestPossibleInput.timeslice < s1.mOldestPossibleInput.timeslice ∧
      Call.apply s2 Call.updateOldestPossibleOutput = Except.ok s3 ∧
      s3.mOldestPossibleOutput.timeslice < s2.mOldestPossibleOutput.timeslice) ∧
    (∃ s1 s2,
      applyAll (reset singleDataChannel)
        [Call.setOldestPossibleInput 20 0, Call.updateOldestPossibleOutput,
          Call.associate 5 0] = Except.ok s1 ∧
      Call.apply s1 Call.updateOldestPossibleOutput = Except.ok s2 ∧
      s2.mOldestPossibleOutput.timeslice < s1.mOldestPossibleOutput.timeslice) :=
  ⟨⟨_, _, _, rfl, rfl, by decide, rfl, by decide⟩, ⟨_, _, rfl, rfl, by decide⟩⟩

/-- C10 (amended): starting from the reset state, along every sequence of
`setOldestPossibleInput`, `associate`, `replaceLRUWith`, `validateSlot` and
`updateOldestPossibleOutput` calls in which every watermark report comes from a
real data channel and is not below the watermark stored for it, and every admitted
timestamp is not below the stored OldestPossibleOutput, the stored
OldestPossibleInput and OldestPossibleOutput after a call are greater than or
equal to their values before it. -/
theorem fences_monotonic (idx0 s s1 : TimesliceIndex) (calls : List Call) (call : Call)
    (hrun : applyContractual (reset idx0) calls = some s)
    (hc : call.respectsContract s = true) (ha : call.apply s = Except.ok s1) :
    s.mOldestPossibleInput.timeslice ≤ s1.mOldestPossibleInput.timeslice ∧
      s.mOldestPossibleOutput.timeslice ≤ s1.mOldestPossibleOutput.timeslice :=
  (fence_step s s1 call (fence_run calls (reset idx0) s (fence_reset idx0) hrun) hc ha).2

/-- Witness for C10 (amended): one data channel and one slot; report 20, admit
timestamp 25 into slot 0, recompute the output fence, then report 30. -/
theorem fences_monotonic_witness :
    ∃ s s1,
      applyContractual (reset singleDataChannel)
        [Call.setOldestPossibleInput 20 0, Call.associate 25 0,
          Call.updateOldestPossibleOutput] = some s ∧
      Call.apply s (Call.setOldestPossibleInput 30 0) = Except.ok s1 ∧
      s.mOldestPossibleInput.timeslice ≤ s1.mOldestPossibleInput.timeslice ∧
      s.mOldestPossibleOutput.timeslice ≤ s1.mOldestPossibleOutput.timeslice :=
  ⟨_, _, rfl, rfl,
    fences_monotonic singleDataChannel _ _
      [Call.setOldestPossibleInput 20 0, Call.associate 25 0, Call.updateOldestPossibleOutput]
      (Call.setOldestPossibleInput 30 0) rfl rfl rfl⟩

/-- C11 (code at the failing input): roster with data channel 0 and auxiliary
channel 1, all watermarks 0 after reset.  The report `(10, channel 0)` is not below
the stored 0 and raises the input fence to 10; the report `(5, channel 1)` is not
below the stored 0 either, and lowers the stored input fence from 10 to 5. -/
theorem setOldestPossibleInput_in_order_regresses :
    ∃ s1 s2,
      applyAll (reset dataAndAuxiliary) [Call.setOldestPossibleInput 10 0] = Except.ok s1 ∧
      channelWatermark (reset dataAndAuxiliary) 0 = some 0 ∧
      s1.mOldestPossibleInput.timeslice = 10 ∧
      channelWatermark s1 1 = some 0 ∧
      Call.apply s1 (Call.setOldestPossibleInput 5 1) = Except.ok s2 ∧
      s2.mOldestPossibleInput.timeslice = 5 ∧
      s2.mOldestPossibleInput.timeslice < s1.mOldestPossibleInput.timeslice :=
  ⟨_, _, rfl, rfl, rfl, rfl, rfl, rfl, by decide⟩

theorem shape_frame (idx idx1 : TimesliceIndex)
    (h : idx1 = idx ∨ ∃ slot ctx dirty,
      idx1 = { idx with mVariables := idx.mVariables.set slot ctx, mDirty := dirty }) :
    idx1.mChannels = idx.mChannels ∧ idx1.mOldestPossibleInput = idx.mOldestPossibleInput ∧
      idx1.mOldestPossibleOutput = idx.mOldestPossibleOutput ∧
      idx1.mMaxLanes = idx.mMaxLanes ∧
      idx1.mVariables.length = idx.mVariables.length := by
  rcases h with h | ⟨slot, ctx, dirty, h⟩
  · subst h; exact ⟨rfl, rfl, rfl, rfl, rfl⟩
  · subst h; exact ⟨rfl, rfl, rfl, rfl, by simp⟩

theorem slot_call_shape (s s1 : TimesliceIndex) (call : Call)
    (ha : call.apply s = Except.ok s1)
    (hcall : (∃ t slot, call = Call.associate t slot) ∨
      (∃ c t, call = Call.replaceLRUWith c t) ∨ (∃ slot cur, call = Call.validateSlot slot cur)) :
    s1 = s ∨ ∃ slot ctx dirty,
      s1 = { s with mVariables := s.mVariables.set slot ctx, mDirty := dirty } := by
  rcases hcall with ⟨t, slot, rfl⟩ | ⟨c, t, rfl⟩ | ⟨slot, cur, rfl⟩
  · simp only [Call.apply] at ha
    obtain ⟨ctx, dirty, _, heq⟩ := associate_ok s s1 t slot ha
    exact Or.inr ⟨slot, ctx, dirty, heq⟩
  · simp only [Call.apply] at ha
    cases hr : replaceLRUWith s c t with
    | error e => rw [hr] at ha; exact Except.noConfusion ha
    | ok p =>
      obtain ⟨r, s2⟩ := p
      rw [hr] at ha
      cases ha
      rcases replaceLRUWith_result s s1 c t r hr with h | ⟨slot, _, h⟩
      · exact Or.inl h
      · exact Or.inr ⟨slot, c, s.mDirty, h⟩
  · simp only [Call.apply] at ha
    cases hr : validateSlot s slot cur with
    | error e => rw [hr] at ha; exact Except.noConfusion ha
    | ok p =>
      obtain ⟨b, s2⟩ := p
      rw [hr] at ha
      cases ha
      rcases validateSlot_ok s s1 slot cur b hr with h | ⟨ctx, _, h⟩
      · exact Or.inl h
      · exact Or.inr ⟨slot, ctx, s.mDirty, h⟩

theorem watermark_step (s s1 : TimesliceIndex) (call : Call) (hinv : WatermarkInvariant s)
    (hc : call.reportsInOrder s = true) (ha : call.apply s = Except.ok s1) :
    WatermarkInvariant s1 ∧
      s.mOldestPossibleInput.timeslice ≤ s1.mOldestPossibleInput.timeslice := by
  obtain ⟨h1, h2⟩ := hinv
  have hslot : ∀ call1 : Call, call1.apply s = Except.ok s1 →
      ((∃ t slot, call1 = Call.associate t slot) ∨
        (∃ c t, call1 = Call.replaceLRUWith c t) ∨
        (∃ slot cur, call1 = Call.validateSlot slot cur)) →
      WatermarkInvariant s1 ∧
        s.mOldestPossibleInput.timeslice ≤ s1.mOldestPossibleInput.timeslice := by
    intro call1 ha1 hcall
    obtain ⟨e1, e2, e3, _, _⟩ := shape_frame s s1 (slot_call_shape s s1 call1 ha1 hcall)
    refine ⟨⟨?_, ?_⟩, ?_⟩
    · rw [e1, e2]; exact h1
    · rw [e2, e3]; exact h2
    · rw [e2]
  cases call with
  | setOldestPossibleInput t c =>
    simp only [Call.reportsInOrder, Bool.and_eq_true, decide_eq_true_eq] at hc
    obtain ⟨hc0, hc1⟩ := hc
    cases hinfo : s.mChannels[c.toNat]? with
    | none => rw [hinfo] at hc1; exact absurd hc1 (by simp)
    | some info =>
      rw [hinfo] at hc1
      simp only [decide_eq_true_eq] at hc1
      obtain ⟨hdpl, hle⟩ := hc1
      simp only [Call.apply, setOldestPossibleInput_ok s t c info hc0 hinfo] at ha
      cases ha
      obtain ⟨q1, q2, q3⟩ := oldestInputLoop_spec
        (s.mChannels.set c.toNat { info with oldestForChannel := t }) 0 ⟨t, c⟩
      have hinfo_ge : s.mOldestPossibleInput.timeslice ≤ info.oldestForChannel :=
        h1 info (List.getElem?_mem hinfo) hdpl
      have hmono : s.mOldestPossibleInput.timeslice ≤
          (oldestInputLoop (s.mChannels.set c.toNat { info with oldestForChannel := t }) 0
            ⟨t, c⟩).timeslice := by
        rcases q3 with h | ⟨ch, hmem, hch, hv⟩
        · rw [h]; simp only; omega
        · rw [← hv]
          rcases List.mem_or_eq_of_mem_set hmem with h | h
          · exact h1 ch h hch
          · subst h; simp only; omega
      refine ⟨⟨q2, ?_⟩, hmono⟩
      simp only
      omega
  | associate t slot => exact hslot _ ha (Or.inl ⟨t, slot, rfl⟩)
  | replaceLRUWith c t => exact hslot _ ha (Or.inr (Or.inl ⟨c, t, rfl⟩))
  | validateSlot slot cur => exact hslot _ ha (Or.inr (Or.inr ⟨slot, cur, rfl⟩))
  | updateOldestPossibleOutput =>
    simp only [Call.apply, updateOldestPossibleOutput, getOldestPossibleInput] at ha
    cases ha
    obtain ⟨q1, _, _⟩ := oldestOutputLoop_spec s.mVariables 0
      ⟨s.mOldestPossibleInput.timeslice, s.mOldestPossibleInput.channel, 0⟩
    exact ⟨⟨h1, q1⟩, le_refl _⟩

theorem watermark_run (calls : List Call) :
    ∀ s s1 : TimesliceIndex, WatermarkInvariant s → applyInOrder s calls = some s1 →
      WatermarkInvariant s1 := by
  induction calls with
  | nil =>
    intro s s1 hinv h
    simp only [applyInOrder, Option.some.injEq] at h
    subst h
    exact hinv
  | cons call rest ih =>
    intro s s1 hinv h
    by_cases hc : call.reportsInOrder s = true
    · cases ha : call.apply s with
      | error e => simp [applyInOrder, hc, ha] at h
      | ok s2 =>
        simp only [applyInOrder, hc, ha, if_true] at h
        exact ih s2 s1 (watermark_step s s2 call hinv hc ha).1 h
    · simp [applyInOrder, hc] at h

theorem watermark_reset (idx : TimesliceIndex) : WatermarkInvariant (reset idx) :=
  ⟨fun _ _ _ => Nat.zero_le _, le_refl _⟩

/-- C13 (counterexample): from the reset state with one data channel, the calls
report 20, `updateOldestPossibleOutput`, report 15 leave the stored
OldestPossibleOutput at 20 above the stored OldestPossibleInput 15. -/
theorem output_fence_above_input_fence :
    ∃ s, applyAll (reset singleDataChannel)
        [Call.setOldestPossibleInput 20 0, Call.updateOldestPossibleOutput,
          Call.setOldestPossibleInput 15 0] = Except.ok s ∧
      s.mOldestPossibleInput.timeslice = 15 ∧ s.mOldestPossibleOutput.timeslice = 20 ∧
      ¬ s.mOldestPossibleOutput.timeslice ≤ s.mOldestPossibleInput.timeslice :=
  ⟨_, rfl, rfl, rfl, by decide⟩

/-- C13 (amended): in every state reached from the reset state by a sequence of
`setOldestPossibleInput`, `associate`, `replaceLRUWith`, `validateSlot` and
`updateOldestPossibleOutput` calls in which every watermark report comes from a
real data channel and is not below the watermark stored for it, the stored
OldestPossibleOutput timeslice is at most the stored OldestPossibleInput
timeslice. -/
theorem output_fence_le_input_fence (idx0 s : TimesliceIndex) (calls : List Call)
    (hrun : applyInOrder (reset idx0) calls = some s) :
    s.mOldestPossibleOutput.timeslice ≤ s.mOldestPossibleInput.timeslice :=
  (watermark_run calls (reset idx0) s (watermark_reset idx0) hrun).2

/-- Witness for C13 (amended): one data channel and one slot; report 20, associate
timestamp 7 with slot 0, recompute the output fence, report 30. -/
theorem output_fence_le_input_fence_witness :
    ∃ s, applyInOrder (reset singleDataChannel)
        [Call.setOldestPossibleInput 20 0, Call.associate 7 0,
          Call.updateOldestPossibleOutput, Call.setOldestPossibleInput 30 0] = some s ∧
      s.mOldestPossibleOutput.timeslice ≤ s.mOldestPossibleInput.timeslice :=
  ⟨_, rfl, output_fence_le_input_fence singleDataChannel _
    [Call.setOldestPossibleInput 20 0, Call.associate 7 0,
      Call.updateOldestPossibleOutput, Call.setOldestPossibleInput 30 0] rfl⟩

theorem slotTimestamp_of_mem {vars : List VariableContext} {ctx : VariableContext}
    (h : ctx ∈ vars) : ∃ i, slotTimestamp vars i = ctx.timestamp? := by
  obtain ⟨n, hn⟩ := List.mem_iff_getElem?.mp h
  exact ⟨n, by simp [slotTimestamp, hn]⟩

/-- C12: `updateOldestPossibleOutput` returns and stores as OldestPossibleOutput a
fence whose timeslice is the minimum of the current OldestPossibleInput timeslice
and the timestamps of all slots holding a readable timestamp: it is at most each
of them and equal to one of them; with no occupied slot it is the
OldestPossibleInput timeslice. -/
theorem updateOldestPossibleOutput_minimum (idx : TimesliceIndex) :
    (updateOldestPossibleOutput idx).2.mOldestPossibleOutput =
        (updateOldestPossibleOutput idx).1 ∧
      (updateOldestPossibleOutput idx).1.timeslice ≤ idx.mOldestPossibleInput.timeslice ∧
      (∀ i v, slotTimestamp idx.mVariables i = some v →
        (updateOldestPossibleOutput idx).1.timeslice ≤ v) ∧
      ((updateOldestPossibleOutput idx).1.timeslice = idx.mOldestPossibleInput.timeslice ∨
        ∃ i, slotTimestamp idx.mVariables i =
          some (updateOldestPossibleOutput idx).1.timeslice) ∧
      ((∀ i, slotTimestamp idx.mVariables i = none) →
        (updateOldestPossibleOutput idx).1.timeslice = idx.mOldestPossibleInput.timeslice) := by
  obtain ⟨q1, q2, q3⟩ := oldestOutputLoop_spec idx.mVariables 0
    ⟨idx.mOldestPossibleInput.timeslice, idx.mOldestPossibleInput.channel, 0⟩
  have hattain : (updateOldestPossibleOutput idx).1.timeslice =
        idx.mOldestPossibleInput.timeslice ∨
      ∃ i, slotTimestamp idx.mVariables i =
        some (updateOldestPossibleOutput idx).1.timeslice := by
    rcases q3 with h | ⟨ctx, hmem, hv⟩
    · exact Or.inl h
    · obtain ⟨i, hi⟩ := slotTimestamp_of_mem hmem
      exact Or.inr ⟨i, hi.trans hv⟩
  refine ⟨rfl, q1, ?_, hattain, ?_⟩
  · intro i v hv
    obtain ⟨ctx, hmem, hctx⟩ := slotTimestamp_mem hv
    exact q2 ctx hmem v hctx
  · intro hnone
    rcases hattain with h | ⟨i, hi⟩
    · exact h
    · rw [hnone i] at hi
      exact Option.noConfusion hi

/-- Witness for C12: slots hold 4, 7, 2, 3 and the input fence is 0 (no channel has
reported), and on an index without occupied slot the fence is the input fence. -/
theorem updateOldestPossibleOutput_minimum_witness :
    (updateOldestPossibleOutput twoLanesFull).1.timeslice ≤
        twoLanesFull.mOldestPossibleInput.timeslice ∧
      (updateOldestPossibleOutput singleDataChannel).1.timeslice =
        singleDataChannel.mOldestPossibleInput.timeslice :=
  ⟨(updateOldestPossibleOutput_minimum twoLanesFull).2.1,
    (updateOldestPossibleOutput_minimum singleDataChannel).2.2.2.2
      (fun i => slotTimestamp_none_of_all (by decide) i)⟩

theorem validateSlot_dirty (idx : TimesliceIndex) (slot cur : Nat)
    (hd : idx.mDirty[slot]? = some true) :
    validateSlot idx slot cur = Except.ok (true, idx) := by
  simp [validateSlot, readAt, hd, bind, Except.bind, pure, Except.pure]

theorem validateSlot_stale (idx : TimesliceIndex) (slot cur ts : Nat) (ctx : VariableContext)
    (hd : idx.mDirty[slot]? = some false) (hv : idx.mVariables[slot]? = some ctx)
    (hts : ctx.timestamp? = some ts) (hlt : ts < idx.mOldestPossibleInput.timeslice) :
    validateSlot idx slot cur =
      Except.ok (false, { idx with mVariables := idx.mVariables.set slot ctx.reset }) := by
  have hs : slot < idx.mVariables.length := by
    by_contra hn
    have : idx.mVariables[slot]? = none := List.getElem?_eq_none (by omega)
    rw [this] at hv
    exact Option.noConfusion hv
  simp [validateSlot, readAt, hd, hv, hts, hlt, markAsInvalid, writeAt, hs,
    bind, Except.bind, pure, Except.pure]

theorem validateSlot_current (idx : TimesliceIndex) (slot cur : Nat) (ctx : VariableContext)
    (hd : idx.mDirty[slot]? = some false) (hv : idx.mVariables[slot]? = some ctx)
    (hts : ∀ ts, ctx.timestamp? = some ts → ¬ ts < idx.mOldestPossibleInput.timeslice) :
    validateSlot idx slot cur = Except.ok (true, idx) := by
  cases hc : ctx.timestamp? with
  | none => simp [validateSlot, readAt, hd, hv, hc, bind, Except.bind, pure, Except.pure]
  | some ts =>
    have hlt := hts ts hc
    simp [validateSlot, readAt, hd, hv, hc, hlt, bind, Except.bind, pure, Except.pure]

theorem timestamp_reset (ctx : VariableContext) : ctx.reset.timestamp? = none := by
  simp [VariableContext.reset, VariableContext.empty, VariableContext.timestamp?,
    VariableContext.get]

/-- C14: for a slot of the index, `validateSlot(s, currentOldest)` returns false
if and only if `s` is not dirty and holds a timestamp strictly below the stored
OldestPossibleInput timeslice; when it returns false the slot no longer holds a
readable timestamp and nothing else changed; when it returns true the state is
unchanged; the call does not depend on `currentOldest`. -/
theorem validateSlot_spec (idx : TimesliceIndex) (slot cur : Nat) (dirty : Bool)
    (ctx : VariableContext)
    (hd : idx.mDirty[slot]? = some dirty) (hv : idx.mVariables[slot]? = some ctx) :
    ∃ b idx1, validateSlot idx slot cur = Except.ok (b, idx1) ∧
      (b = false ↔ (dirty = false ∧
        ∃ ts, ctx.timestamp? = some ts ∧ ts < idx.mOldestPossibleInput.timeslice)) ∧
      (b = false → slotTimestamp idx1.mVariables slot = none ∧
        (∀ j, j ≠ slot → idx1.mVariables[j]? = idx.mVariables[j]?) ∧
        idx1 = { idx with mVariables := idx1.mVariables }) ∧
      (b = true → idx1 = idx) ∧
      (∀ cur2, validateSlot idx slot cur2 = validateSlot idx slot cur) := by
  cases dirty with
  | true =>
    refine ⟨true, idx, validateSlot_dirty idx slot cur hd, ?_, ?_, fun _ => rfl, fun _ => rfl⟩
    · simp
    · intro h; exact absurd h (by decide)
  | false =>
    by_cases hst : ∃ ts, ctx.timestamp? = some ts ∧ ts < idx.mOldestPossibleInput.timeslice
    · obtain ⟨ts, hts, hlt⟩ := hst
      refine ⟨false, _, validateSlot_stale idx slot cur ts ctx hd hv hts hlt, ?_, ?_, ?_,
        fun _ => rfl⟩
      · exact ⟨fun _ => ⟨rfl, ts, hts, hlt⟩, fun _ => rfl⟩
      · intro _
        refine ⟨?_, ?_, rfl⟩
        · rw [slotTimestamp_set]
          split
          · exact timestamp_reset ctx
          · rename_i hn
            have hs : slot < idx.mVariables.length := by
              by_contra hn2
              have : idx.mVariables[slot]? = none := List.getElem?_eq_none (by omega)
              rw [this] at hv
              exact Option.noConfusion hv
            exact absurd ⟨rfl, hs⟩ hn
        · intro j hj
          exact List.getElem?_set_ne (Ne.symm hj)
      · intro h; exact absurd h (by decide)
    · refine ⟨true, idx, validateSlot_current idx slot cur ctx hd hv ?_, ?_, ?_, fun _ => rfl,
        fun _ => rfl⟩
      · intro ts hts hlt
        exact hst ⟨ts, hts, hlt⟩
      · constructor
        · intro h; exact absurd h (by decide)
        · rintro ⟨_, h⟩; exact absurd h hst
      · intro h; exact absurd h (by decide)

/-- Witness for C14: the single data channel reports 12 while the non-dirty slot 0
holds timestamp 10; `validateSlot` returns false and the slot is emptied. -/
theorem validateSlot_spec_witness :
    ∃ idx1, validateSlot staleSlotIndex 0 0 = Except.ok (false, idx1) ∧
      slotTimestamp staleSlotIndex.mVariables 0 = some 10 ∧
      staleSlotIndex.mOldestPossibleInput.timeslice = 12 ∧
      slotTimestamp idx1.mVariables 0 = none ∧
      (∃ b idx2, validateSlot staleSlotIndex 0 0 = Except.ok (b, idx2) ∧
        (b = false ↔ (false = false ∧ ∃ ts, (contextOf 10).timestamp? = some ts ∧
          ts < staleSlotIndex.mOldestPossibleInput.timeslice))) :=
  ⟨_, rfl, rfl, rfl, rfl,
    (validateSlot_spec staleSlotIndex 0 0 false (contextOf 10) rfl rfl).imp
      (fun _ h => h.imp (fun _ h2 => ⟨h2.1, h2.2.1⟩))⟩

/-- C15: when the candidate slot `findOldestSlot(t)` holds a timestamp and the new
context carries no readable timestamp, `replaceLRUWith(c, t)` returns
`(DropInvalid, TimesliceSlot::INVALID)` whatever the backpressure policy of the
index, and the index, every slot context included, is unchanged. -/
theorem replaceLRUWith_malformed_on_occupied (idx : TimesliceIndex) (c : VariableContext)
    (t s old : Nat)
    (hf : findOldestSlot idx t = Except.ok s)
    (hts : slotTimestamp idx.mVariables s = some old) (hc : c.timestamp? = none) :
    ∃ idx1, replaceLRUWith idx c t =
        Except.ok ((ActionTaken.DropInvalid, TimesliceSlot.INVALID), idx1) ∧
      idx1 = idx ∧ idx1.mVariables = idx.mVariables :=
  ⟨idx, replaceLRUWith_invalid idx c t s old hf hts hc, rfl, rfl⟩

/-- Witness for C15: slot 2 holds 10 and an empty context is offered for
timestamp 14, under each of the three policies. -/
theorem replaceLRUWith_malformed_on_occupied_witness :
    (∃ idx1, replaceLRUWith (laneTwoHoldsTen BackpressureOp.DropAncient)
        VariableContext.empty 14 =
          Except.ok ((ActionTaken.DropInvalid, TimesliceSlot.INVALID), idx1) ∧
        idx1 = laneTwoHoldsTen BackpressureOp.DropAncient ∧
        idx1.mVariables = (laneTwoHoldsTen BackpressureOp.DropAncient).mVariables) ∧
    (∃ idx1, replaceLRUWith (laneTwoHoldsTen BackpressureOp.DropRecent)
        VariableContext.empty 14 =
          Except.ok ((ActionTaken.DropInvalid, TimesliceSlot.INVALID), idx1) ∧
        idx1 = laneTwoHoldsTen BackpressureOp.DropRecent ∧
        idx1.mVariables = (laneTwoHoldsTen BackpressureOp.DropRecent).mVariables) ∧
    (∃ idx1, replaceLRUWith (laneTwoHoldsTen BackpressureOp.Wait)
        VariableContext.empty 14 =
          Except.ok ((ActionTaken.DropInvalid, TimesliceSlot.INVALID), idx1) ∧
        idx1 = laneTwoHoldsTen BackpressureOp.Wait ∧
        idx1.mVariables = (laneTwoHoldsTen BackpressureOp.Wait).mVariables) :=
  ⟨replaceLRUWith_malformed_on_occupied (laneTwoHoldsTen BackpressureOp.DropAncient)
      VariableContext.empty 14 2 10 rfl rfl rfl,
   replaceLRUWith_malformed_on_occupied (laneTwoHoldsTen BackpressureOp.DropRecent)
      VariableContext.empty 14 2 10 rfl rfl rfl,
   replaceLRUWith_malformed_on_occupied (laneTwoHoldsTen BackpressureOp.Wait)
      VariableContext.empty 14 2 10 rfl rfl rfl⟩

/-- C16 (counterexample): on an index of four unoccupied slots the empty context,
which carries no readable timestamp, is admitted for timestamp 10: the call
returns `(ReplaceUnused, 2)` and slot 2 then holds that context. -/
theorem replaceLRUWith_malformed_admitted :
    VariableContext.empty.timestamp? = none ∧
    ∃ idx1, replaceLRUWith (freshIndex 4 BackpressureOp.Wait [] 4) VariableContext.empty 10 =
        Except.ok ((ActionTaken.ReplaceUnused, 2), idx1) ∧
      ActionTaken.ReplaceUnused ≠ ActionTaken.DropInvalid ∧
      idx1.mVariables[2]? = some VariableContext.empty :=
  ⟨rfl, _, rfl, by decide, rfl⟩

/-- C16 (amended): with `MaxLanes > 0` and at least `MaxLanes` slots, for every
timestamp `t` and every context `c` that carries no readable timestamp,
`replaceLRUWith(c, t)` returns `DropInvalid` with the index unchanged when the
candidate slot `findOldestSlot(t)` holds a timestamp, and returns `ReplaceUnused`
with `c` stored in the candidate when the candidate holds none. -/
theorem replaceLRUWith_malformed (idx : TimesliceIndex) (c : VariableContext) (t : Nat)
    (hL : 0 < idx.mMaxLanes) (hN : idx.mMaxLanes ≤ idx.mVariables.length)
    (hc : c.timestamp? = none) :
    ∃ s, findOldestSlot idx t = Except.ok s ∧
      ((∃ old, slotTimestamp idx.mVariables s = some old) →
        replaceLRUWith idx c t =
          Except.ok ((ActionTaken.DropInvalid, TimesliceSlot.INVALID), idx)) ∧
      (slotTimestamp idx.mVariables s = none →
        replaceLRUWith idx c t =
          Except.ok ((ActionTaken.ReplaceUnused, s),
            { idx with mVariables := idx.mVariables.set s c })) := by
  obtain ⟨s, hf, hlt, _⟩ := findOldestSlot_spec idx t hL hN
  refine ⟨s, hf, ?_, ?_⟩
  · rintro ⟨old, hts⟩
    exact replaceLRUWith_invalid idx c t s old hf hts hc
  · intro hts
    exact replaceLRUWith_unused idx c t s hf hlt hts

/-- Witness for C16 (amended): the empty context offered for timestamp 14 to the
index whose slot 2 holds 10 is dropped as invalid. -/
theorem replaceLRUWith_malformed_witness :
    replaceLRUWith (laneTwoHoldsTen BackpressureOp.Wait) VariableContext.empty 14 =
      Except.ok ((ActionTaken.DropInvalid, TimesliceSlot.INVALID),
        laneTwoHoldsTen BackpressureOp.Wait) := by
  obtain ⟨s, hf, h1, _⟩ := replaceLRUWith_malformed (laneTwoHoldsTen BackpressureOp.Wait)
    VariableContext.empty 14 (by decide) (by decide) rfl
  have hs : s = 2 := by
    have h2 : findOldestSlot (laneTwoHoldsTen BackpressureOp.Wait) 14 = Except.ok 2 := rfl
    rw [h2] at hf
    cases hf
    rfl
  subst hs
  exact h1 ⟨10, rfl⟩

theorem replaceLRUWith_shape (idx idx1 : TimesliceIndex) (c : VariableContext) (t : Nat)
    (action : ActionTaken) (slot : Nat)
    (h : replaceLRUWith idx c t = Except.ok ((action, slot), idx1)) :
    ((action = ActionTaken.Wait ∨ action = ActionTaken.DropObsolete ∨
        action = ActionTaken.DropInvalid) ∧ slot = TimesliceSlot.INVALID ∧ idx1 = idx) ∨
    ((action = ActionTaken.ReplaceUnused ∨ action = ActionTaken.ReplaceObsolete) ∧
      findOldestSlot idx t = Except.ok slot ∧ slot < idx.mVariables.length ∧
      idx1 = { idx with mVariables := idx.mVariables.set slot c }) := by
  cases hf : findOldestSlot idx t with
  | error e => simp [replaceLRUWith, hf, bind, Except.bind] at h
  | ok s =>
    by_cases hs : s < idx.mVariables.length
    · cases hts : slotTimestamp idx.mVariables s with
      | none =>
        rw [replaceLRUWith_unused idx c t s hf hs hts] at h
        cases h
        exact Or.inr ⟨Or.inl rfl, rfl, hs, rfl⟩
      | some old =>
        cases hc : c.timestamp? with
        | none =>
          rw [replaceLRUWith_invalid idx c t s old hf hts hc] at h
          cases h
          exact Or.inl ⟨Or.inr (Or.inr rfl), rfl, rfl⟩
        | some new =>
          rw [replaceLRUWith_occupied idx c t s old new hf hts hc] at h
          by_cases hlt : new > old
          · rw [if_pos hlt] at h
            cases hp : idx.mBackpressurePolicy <;> rw [hp] at h <;> cases h
            · exact Or.inr ⟨Or.inr rfl, rfl, hs, rfl⟩
            · exact Or.inl ⟨Or.inr (Or.inl rfl), rfl, rfl⟩
            · exact Or.inl ⟨Or.inl rfl, rfl, rfl⟩
          · rw [if_neg hlt] at h
            cases hp : idx.mBackpressurePolicy <;> rw [hp] at h <;> cases h
            · exact Or.inl ⟨Or.inr (Or.inl rfl), rfl, rfl⟩
            · exact Or.inr ⟨Or.inr rfl, rfl, hs, rfl⟩
            · exact Or.inl ⟨Or.inl rfl, rfl, rfl⟩
    · have hnone : idx.mVariables[s]? = none := List.getElem?_eq_none (by omega)
      simp [replaceLRUWith, hf, isValid, readAt, hnone, bind, Except.bind] at h

/-- C17: `replaceLRUWith` changes at most the context of the slot it returns.
When it returns `Wait`, `DropObsolete` or `DropInvalid` the returned slot is
`TimesliceSlot::INVALID` and the whole index is unchanged; when it returns
`ReplaceUnused` or `ReplaceObsolete` the returned slot holds the new context and
every other slot, the dirty flags, the channels and both fences are unchanged. -/
theorem replaceLRUWith_frame (idx idx1 : TimesliceIndex) (c : VariableContext) (t : Nat)
    (action : ActionTaken) (slot : Nat)
    (h : replaceLRUWith idx c t = Except.ok ((action, slot), idx1)) :
    ((action = ActionTaken.Wait ∨ action = ActionTaken.DropObsolete ∨
        action = ActionTaken.DropInvalid) →
      slot = TimesliceSlot.INVALID ∧ idx1 = idx) ∧
    ((action = ActionTaken.ReplaceUnused ∨ action = ActionTaken.ReplaceObsolete) →
      idx1.mVariables[slot]? = some c ∧
      (∀ j, j ≠ slot → idx1.mVariables[j]? = idx.mVariables[j]?) ∧
      idx1.mDirty = idx.mDirty ∧ idx1.mChannels = idx.mChannels ∧
      idx1.mOldestPossibleInput = idx.mOldestPossibleInput ∧
      idx1.mOldestPossibleOutput = idx.mOldestPossibleOutput ∧
      idx1 = { idx with mVariables := idx1.mVariables }) := by
  rcases replaceLRUWith_shape idx idx1 c t action slot h with
    ⟨ha, hs, he⟩ | ⟨ha, _, hs, he⟩
  · refine ⟨fun _ => ⟨hs, he⟩, ?_⟩
    intro hb
    rcases ha with rfl | rfl | rfl <;> rcases hb with hb | hb <;> cases hb
  · refine ⟨?_, ?_⟩
    · intro hb
      rcases ha with rfl | rfl <;> rcases hb with hb | hb | hb <;> cases hb
    · intro _
      subst he
      refine ⟨by simp [hs], ?_, rfl, rfl, rfl, rfl, rfl⟩
      intro j hj
      exact List.getElem?_set_ne (Ne.symm hj)

/-- Witness for C17: slot 2 holds 10; admitting 14 under `DropAncient` replaces
slot 2 only. -/
theorem replaceLRUWith_frame_witness :
    ∃ idx1, replaceLRUWith (laneTwoHoldsTen BackpressureOp.DropAncient) (contextOf 14) 14 =
        Except.ok ((ActionTaken.ReplaceObsolete, 2), idx1) ∧
      idx1.mVariables[2]? = some (contextOf 14) ∧
      (∀ j, j ≠ 2 →
        idx1.mVariables[j]? = (laneTwoHoldsTen BackpressureOp.DropAncient).mVariables[j]?) ∧
      idx1.mDirty = (laneTwoHoldsTen BackpressureOp.DropAncient).mDirty ∧
      idx1.mChannels = (laneTwoHoldsTen BackpressureOp.DropAncient).mChannels ∧
      idx1.mOldestPossibleInput =
        (laneTwoHoldsTen BackpressureOp.DropAncient).mOldestPossibleInput ∧
      idx1.mOldestPossibleOutput =
        (laneTwoHoldsTen BackpressureOp.DropAncient).mOldestPossibleOutput ∧
      idx1 = { laneTwoHoldsTen BackpressureOp.DropAncient with mVariables := idx1.mVariables } :=
  ⟨_, rfl, (replaceLRUWith_frame (laneTwoHoldsTen BackpressureOp.DropAncient) _ (contextOf 14) 14
    ActionTaken.ReplaceObsolete 2 rfl).2 (Or.inr rfl)⟩

theorem lane_set (idx : TimesliceIndex) (slot : Nat) (ctx : VariableContext)
    (dirty : List Bool) (hlc : LaneCorrect idx)
    (hctx : ∀ v, ctx.timestamp? = some v → slot % idx.mMaxLanes = v % idx.mMaxLanes) :
    LaneCorrect { idx with mVariables := idx.mVariables.set slot ctx, mDirty := dirty } := by
  intro i v hv
  simp only at hv ⊢
  rw [slotTimestamp_set] at hv
  by_cases h : slot = i ∧ slot < idx.mVariables.length
  · rw [if_pos h] at hv
    rw [← h.1]
    exact hctx v hv
  · rw [if_neg h] at hv
    exact hlc i v hv

theorem lane_step (s s1 : TimesliceIndex) (call : Call)
    (hL : 0 < s.mMaxLanes) (hN : s.mMaxLanes ≤ s.mVariables.length) (hlc : LaneCorrect s)
    (hc : call.keepsLane s = true) (ha : call.apply s = Except.ok s1) :
    LaneCorrect s1 ∧ s1.mMaxLanes = s.mMaxLanes ∧
      s1.mVariables.length = s.mVariables.length := by
  cases call with
  | setOldestPossibleInput t c => simp [Call.keepsLane] at hc
  | validateSlot slot cur => simp [Call.keepsLane] at hc
  | updateOldestPossibleOutput => simp [Call.keepsLane] at hc
  | associate t slot =>
    simp only [Call.keepsLane, decide_eq_true_eq] at hc
    simp only [Call.apply] at ha
    obtain ⟨ctx, dirty, hts, heq⟩ := associate_ok s s1 t slot ha
    subst heq
    refine ⟨lane_set s slot ctx dirty hlc ?_, rfl, by simp⟩
    intro v hv
    rw [hts] at hv
    cases hv
    exact hc
  | replaceLRUWith c t =>
    simp only [Call.keepsLane] at hc
    simp only [Call.apply] at ha
    cases hr : replaceLRUWith s c t with
    | error e => rw [hr] at ha; exact Except.noConfusion ha
    | ok p =>
      obtain ⟨⟨action, slot⟩, s2⟩ := p
      rw [hr] at ha
      cases ha
      rcases replaceLRUWith_shape s s1 c t action slot hr with
        ⟨_, _, he⟩ | ⟨_, hf, _, he⟩
      · subst he; exact ⟨hlc, rfl, rfl⟩
      · subst he
        obtain ⟨r, hr2, _, hmod, _⟩ := findOldestSlot_spec s t hL hN
        have hrs : r = slot := by
          rw [hr2] at hf
          exact Except.ok.inj hf
        rw [hrs] at hmod
        refine ⟨lane_set s slot c s.mDirty hlc ?_, rfl, by simp⟩
        intro v hv
        rw [hv] at hc
        simp only [decide_eq_true_eq] at hc
        rw [hmod, hc]

theorem lane_run (calls : List Call) :
    ∀ s s1 : TimesliceIndex, 0 < s.mMaxLanes → s.mMaxLanes ≤ s.mVariables.length →
      LaneCorrect s → applyInLane s calls = some s1 → LaneCorrect s1 := by
  induction calls with
  | nil =>
    intro s s1 _ _ hlc h
    simp only [applyInLane, Option.some.injEq] at h
    subst h
    exact hlc
  | cons call rest ih =>
    intro s s1 hL hN hlc h
    by_cases hc : call.keepsLane s = true
    · cases ha : call.apply s with
      | error e => simp [applyInLane, hc, ha] at h
      | ok s2 =>
        simp only [applyInLane, hc, ha, if_true] at h
        obtain ⟨q1, q2, q3⟩ := lane_step s s2 call hL hN hlc hc ha
        exact ih s2 s1 (by rw [q2]; exact hL) (by rw [q2, q3]; exact hN) q1 h
    · simp [applyInLane, hc] at h

/-- C18 (counterexample): four lanes, four unoccupied slots.  `associate(5, 0)`
commits timestamp 5 into slot 0, and `replaceLRUWith` called for timestamp 4 with a
context carrying 5 commits timestamp 5 into slot 0 as well, although
`0 mod 4` differs from `5 mod 4`. -/
theorem slot_outside_lane :
    (∃ s, applyAll (freshIndex 4 BackpressureOp.Wait [] 4) [Call.associate 5 0] = Except.ok s ∧
      slotTimestamp s.mVariables 0 = some 5 ∧ ¬ 0 % s.mMaxLanes = 5 % s.mMaxLanes ∧
      ¬ LaneCorrect s) ∧
    (∃ s, applyAll (freshIndex 4 BackpressureOp.Wait [] 4)
        [Call.replaceLRUWith (contextOf 5) 4] = Except.ok s ∧
      slotTimestamp s.mVariables 0 = some 5 ∧ ¬ 0 % s.mMaxLanes = 5 % s.mMaxLanes ∧
      ¬ LaneCorrect s) :=
  ⟨⟨_, rfl, rfl, by decide, fun h => absurd (h 0 5 rfl) (by decide)⟩,
    ⟨_, rfl, rfl, by decide, fun h => absurd (h 0 5 rfl) (by decide)⟩⟩

/-- C18 (amended): for `N = k * MaxLanes` slots (`k >= 1`, `MaxLanes >= 1`) that all
start unoccupied, in every state reached by a sequence of `associate(t, slot)`
calls with `slot mod MaxLanes = t mod MaxLanes` and `replaceLRUWith(c, t)` calls
whose context carries no timestamp or one congruent to `t` modulo `MaxLanes`, every
slot `i` that holds a committed TimesliceId `v` satisfies
`i mod MaxLanes = v mod MaxLanes`. -/
theorem admissions_keep_lane (idx s : TimesliceIndex) (k : Nat) (calls : List Call)
    (hk : 1 ≤ k) (hL : 0 < idx.mMaxLanes) (hN : idx.mVariables.length = k * idx.mMaxLanes)
    (hempty : ∀ ctx ∈ idx.mVariables, ctx.timestamp? = none)
    (hrun : applyInLane idx calls = some s) :
    ∀ i v, slotTimestamp s.mVariables i = some v → i % s.mMaxLanes = v % s.mMaxLanes := by
  have hle : idx.mMaxLanes ≤ idx.mVariables.length := by
    rw [hN]; exact Nat.le_mul_of_pos_left _ hk
  refine lane_run calls idx s hL hle ?_ hrun
  intro i v hv
  rw [slotTimestamp_none_of_all hempty i] at hv
  exact Option.noConfusion hv

/-- Witness for C18 (amended): two lanes, four slots; timestamp 5 is associated
with slot 3 and timestamp 6 is admitted by `replaceLRUWith`. -/
theorem admissions_keep_lane_witness :
    ∃ s, applyInLane (freshIndex 2 BackpressureOp.Wait [] 4)
        [Call.associate 5 3, Call.replaceLRUWith (contextOf 6) 6] = some s ∧
      slotTimestamp s.mVariables 3 = some 5 ∧ slotTimestamp s.mVariables 0 = some 6 ∧
      ∀ i v, slotTimestamp s.mVariables i = some v → i % s.mMaxLanes = v % s.mMaxLanes :=
  ⟨_, rfl, rfl, rfl,
    admissions_keep_lane (freshIndex 2 BackpressureOp.Wait [] 4) _ 2
      [Call.associate 5 3, Call.replaceLRUWith (contextOf 6) 6]
      (by decide) (by decide) (by decide) (by decide) rfl⟩

theorem didReceiveDataLoop_iff (channels : List InputChannelInfo) :
    ∀ expectsData : Bool, didReceiveDataLoop channels expectsData = true ↔
      ((expectsData = false ∧
          ∀ ch ∈ channels, ch.channelType ≠ ChannelAccountingType.DPL) ∨
        ∃ ch ∈ channels, ch.channelType = ChannelAccountingType.DPL ∧
          ch.oldestForChannel ≠ 0) := by
  induction channels with
  | nil => intro e; cases e <;> simp [didReceiveDataLoop]
  | cons a rest ih =>
    intro e
    by_cases hd : a.channelType = ChannelAccountingType.DPL
    · by_cases hz : a.oldestForChannel = 0
      · have hstep : didReceiveDataLoop (a :: rest) e = didReceiveDataLoop rest true := by
          simp [didReceiveDataLoop, hd, hz]
        rw [hstep, ih true]
        constructor
        · rintro (⟨h, _⟩ | ⟨ch, hmem, hch, hv⟩)
          · exact absurd h (by decide)
          · exact Or.inr ⟨ch, List.mem_cons_of_mem _ hmem, hch, hv⟩
        · rintro (⟨_, h⟩ | ⟨ch, hmem, hch, hv⟩)
          · exact absurd hd (h a (List.mem_cons_self _ _))
          · rcases List.mem_cons.mp hmem with h | h
            · subst h; exact absurd hz hv
            · exact Or.inr ⟨ch, h, hch, hv⟩
      · have hstep : didReceiveDataLoop (a :: rest) e = true := by
          simp [didReceiveDataLoop, hd, hz]
        rw [hstep]
        exact ⟨fun _ => Or.inr ⟨a, List.mem_cons_self _ _, hd, hz⟩, fun _ => rfl⟩
    · have hstep : didReceiveDataLoop (a :: rest) e = didReceiveDataLoop rest e := by
        simp [didReceiveDataLoop, hd]
      rw [hstep, ih e]
      constructor
      · rintro (⟨h1, h2⟩ | ⟨ch, hmem, hch, hv⟩)
        · refine Or.inl ⟨h1, ?_⟩
          intro ch hmem
          rcases List.mem_cons.mp hmem with h | h
          · subst h; exact hd
          · exact h2 ch h
        · exact Or.inr ⟨ch, List.mem_cons_of_mem _ hmem, hch, hv⟩
      · rintro (⟨h1, h2⟩ | ⟨ch, hmem, hch, hv⟩)
        · exact Or.inl ⟨h1, fun ch hmem => h2 ch (List.mem_cons_of_mem _ hmem)⟩
        · rcases List.mem_cons.mp hmem with h | h
          · subst h; exact absurd hch hd
          · exact Or.inr ⟨ch, h, hch, hv⟩

/-- C19: `didReceiveData` returns true if and only if the roster has no real data
(DPL) channel or some real data channel has a non-zero `oldestForChannel`; when a
data channel exists and all data channels are at zero it returns false whatever the
auxiliary channels hold. -/
theorem didReceiveData_iff (idx : TimesliceIndex) :
    (didReceiveData idx = true ↔
      ((∀ ch ∈ idx.mChannels, ch.channelType ≠ ChannelAccountingType.DPL) ∨
        ∃ ch ∈ idx.mChannels, ch.channelType = ChannelAccountingType.DPL ∧
          ch.oldestForChannel ≠ 0)) ∧
    ((∃ ch ∈ idx.mChannels, ch.channelType = ChannelAccountingType.DPL) →
      (∀ ch ∈ idx.mChannels, ch.channelType = ChannelAccountingType.DPL →
        ch.oldestForChannel = 0) →
      didReceiveData idx = false) := by
  have hiff : didReceiveData idx = true ↔
      ((∀ ch ∈ idx.mChannels, ch.channelType ≠ ChannelAccountingType.DPL) ∨
        ∃ ch ∈ idx.mChannels, ch.channelType = ChannelAccountingType.DPL ∧
          ch.oldestForChannel ≠ 0) := by
    unfold didReceiveData
    rw [didReceiveDataLoop_iff]
    simp
  refine ⟨hiff, ?_⟩
  rintro ⟨ch0, hmem0, hch0⟩ hzero
  cases hb : didReceiveData idx with
  | false => rfl
  | true =>
    rcases hiff.mp hb with h | ⟨ch, hmem, hch, hv⟩
    · exact absurd hch0 (h ch0 hmem0)
    · exact absurd (hzero ch hmem hch) hv

/-- Witness for C19: two data channels at zero and an auxiliary channel at 9. -/
theorem didReceiveData_iff_witness : didReceiveData onlyAuxiliaryReported = false :=
  (didReceiveData_iff onlyAuxiliaryReported).2
    ⟨⟨ChannelAccountingType.DPL, 0⟩, by decide, rfl⟩ (by decide)

/-- C20: after `reset` every channel has `oldestForChannel = 0`, the
OldestPossibleInput is `(0, INVALID)`, the OldestPossibleOutput has timeslice 0 and
channel `INVALID`; slot contexts, dirty flags and channel kinds are unchanged; and
`didReceiveData` is then true only if (indeed exactly if) the roster has no real
data channel. -/
theorem reset_spec (idx : TimesliceIndex) :
    (∀ ch ∈ (reset idx).mChannels, ch.oldestForChannel = 0) ∧
    (reset idx).mOldestPossibleInput = ⟨0, ChannelIndex.INVALID⟩ ∧
    (reset idx).mOldestPossibleOutput.timeslice = 0 ∧
    (reset idx).mOldestPossibleOutput.channel = ChannelIndex.INVALID ∧
    (reset idx).mVariables = idx.mVariables ∧
    (reset idx).mDirty = idx.mDirty ∧
    (reset idx).mChannels.map (fun ch => ch.channelType) =
      idx.mChannels.map (fun ch => ch.channelType) ∧
    (didReceiveData (reset idx) = true ↔
      ∀ ch ∈ idx.mChannels, ch.channelType ≠ ChannelAccountingType.DPL) := by
  have hzero : ∀ ch ∈ (reset idx).mChannels, ch.oldestForChannel = 0 := by
    intro ch hmem
    simp only [reset, List.mem_map] at hmem
    obtain ⟨a, _, rfl⟩ := hmem
    rfl
  refine ⟨hzero, rfl, rfl, rfl, rfl, rfl, ?_, ?_⟩
  · simp [reset, List.map_map, Function.comp_def]
  · unfold didReceiveData
    rw [didReceiveDataLoop_iff]
    constructor
    · rintro (⟨_, h⟩ | ⟨ch, hmem, _, hv⟩)
      · intro ch hmem
        have := h { ch with oldestForChannel := 0 }
          (by simp only [reset, List.mem_map]; exact ⟨ch, hmem, rfl⟩)
        exact this
      · exact absurd (hzero ch hmem) hv
    · intro h
      refine Or.inl ⟨rfl, ?_⟩
      intro ch hmem
      simp only [reset, List.mem_map] at hmem
      obtain ⟨a, ha, rfl⟩ := hmem
      exact h a ha

/-- C21: `updateOldestPossibleOutput` changes nothing but the stored output fence
(slot contexts, dirty flags, channels and OldestPossibleInput are as before, and
the stored fence is the returned one), and a second call made right after the first
returns the same result and leaves the state as the first call left it. -/
theorem updateOldestPossibleOutput_idempotent (idx : TimesliceIndex) :
    (updateOldestPossibleOutput idx).2.mVariables = idx.mVariables ∧
    (updateOldestPossibleOutput idx).2.mDirty = idx.mDirty ∧
    (updateOldestPossibleOutput idx).2.mChannels = idx.mChannels ∧
    (updateOldestPossibleOutput idx).2.mOldestPossibleInput = idx.mOldestPossibleInput ∧
    (updateOldestPossibleOutput idx).2 =
      { idx with mOldestPossibleOutput := (updateOldestPossibleOutput idx).1 } ∧
    updateOldestPossibleOutput (updateOldestPossibleOutput idx).2 =
      ((updateOldestPossibleOutput idx).1, (updateOldestPossibleOutput idx).2) :=
  ⟨rfl, rfl, rfl, rfl, rfl, rfl⟩

theorem replaceLRUWith_action (idx idx1 : TimesliceIndex) (c : VariableContext) (t s : Nat)
    (action : ActionTaken) (slot : Nat)
    (hf : findOldestSlot idx t = Except.ok s)
    (h : replaceLRUWith idx c t = Except.ok ((action, slot), idx1)) :
    action = actionFor idx.mBackpressurePolicy (slotTimestamp idx.mVariables s)
      c.timestamp? := by
  by_cases hs : s < idx.mVariables.length
  · cases hts : slotTimestamp idx.mVariables s with
    | none =>
      rw [replaceLRUWith_unused idx c t s hf hs hts] at h
      cases h
      rfl
    | some old =>
      cases hc : c.timestamp? with
      | none =>
        rw [replaceLRUWith_invalid idx c t s old hf hts hc] at h
        cases h
        rfl
      | some new =>
        rw [replaceLRUWith_occupied idx c t s old new hf hts hc] at h
        by_cases hlt : new > old
        · rw [if_pos hlt] at h
          cases hp : idx.mBackpressurePolicy <;> rw [hp] at h <;> cases h <;>
            simp [actionFor, hlt]
        · rw [if_neg hlt] at h
          cases hp : idx.mBackpressurePolicy <;> rw [hp] at h <;> cases h <;>
            simp [actionFor, hlt]
  · have hnone : idx.mVariables[s]? = none := List.getElem?_eq_none (by omega)
    simp [replaceLRUWith, hf, isValid, readAt, hnone, bind, Except.bind] at h

theorem actionFor_congr (policy : BackpressureOp) (o1 n1 o2 n2 : Option Nat)
    (hocc : o1.isSome = o2.isSome) (hnew : n1.isSome = n2.isSome)
    (hcmp : ∀ a b x y, o1 = some a → n1 = some b → o2 = some x → n2 = some y →
      (b > a ↔ y > x)) :
    actionFor policy o1 n1 = actionFor policy o2 n2 := by
  cases o1 with
  | none =>
    cases o2 with
    | none => rfl
    | some x => simp at hocc
  | some a =>
    cases o2 with
    | none => simp at hocc
    | some x =>
      cases n1 with
      | none =>
        cases n2 with
        | none => rfl
        | some y => simp at hnew
      | some b =>
        cases n2 with
        | none => simp at hnew
        | some y =>
          have h := hcmp a b x y rfl rfl rfl rfl
          by_cases hlt : b > a
          · have hlt2 : y > x := h.mp hlt
            simp [actionFor, hlt, hlt2]
          · have hlt2 : ¬ y > x := fun hh => hlt (h.mpr hh)
            simp [actionFor, hlt, hlt2]

/-- C23: two `replaceLRUWith` calls, on possibly different indices, contexts and
timestamps, that agree on the backpressure policy, on whether the candidate slot is
occupied, on whether the new context carries a timestamp, and (when both
timestamps exist) on whether the new one is greater than the old one, return the
same `ActionTaken`. -/
theorem replaceLRUWith_policy_determinism (idxA idxB idxA1 idxB1 : TimesliceIndex)
    (cA cB : VariableContext) (tA tB sA sB : Nat) (actionA actionB : ActionTaken)
    (slotA slotB : Nat)
    (hfA : findOldestSlot idxA tA = Except.ok sA)
    (hfB : findOldestSlot idxB tB = Except.ok sB)
    (hA : replaceLRUWith idxA cA tA = Except.ok ((actionA, slotA), idxA1))
    (hB : replaceLRUWith idxB cB tB = Except.ok ((actionB, slotB), idxB1))
    (hpolicy : idxA.mBackpressurePolicy = idxB.mBackpressurePolicy)
    (hocc : (slotTimestamp idxA.mVariables sA).isSome =
      (slotTimestamp idxB.mVariables sB).isSome)
    (hnew : cA.timestamp?.isSome = cB.timestamp?.isSome)
    (hcmp : ∀ a b x y, slotTimestamp idxA.mVariables sA = some a → cA.timestamp? = some b →
      slotTimestamp idxB.mVariables sB = some x → cB.timestamp? = some y →
      (b > a ↔ y > x)) :
    actionA = actionB := by
  rw [replaceLRUWith_action idxA idxA1 cA tA sA actionA slotA hfA hA,
    replaceLRUWith_action idxB idxB1 cB tB sB actionB slotB hfB hB, hpolicy]
  exact actionFor_congr _ _ _ _ _ hocc hnew hcmp

/-- Witness for C23: slot 2 of one index holds 10 and 14 is offered; slot 0 of
another index (two lanes, slots 4, 7, 2, 3) is the candidate for timestamp 4,
slot 2 holding 2, and 9 is offered; both under `Wait`, both newer. -/
theorem replaceLRUWith_policy_determinism_witness :
    ∃ slotA idxA1 slotB idxB1,
      replaceLRUWith (laneTwoHoldsTen BackpressureOp.Wait) (contextOf 14) 14 =
        Except.ok ((ActionTaken.Wait, slotA), idxA1) ∧
      replaceLRUWith twoLanesFull (contextOf 9) 4 =
        Except.ok ((ActionTaken.Wait, slotB), idxB1) ∧
      ActionTaken.Wait = ActionTaken.Wait :=
  ⟨_, _, _, _, rfl, rfl,
    replaceLRUWith_policy_determinism (laneTwoHoldsTen BackpressureOp.Wait) twoLanesFull _ _
      (contextOf 14) (contextOf 9) 14 4 2 2 ActionTaken.Wait ActionTaken.Wait _ _
      rfl rfl rfl rfl rfl rfl rfl
      (fun a b x y h1 h2 h3 h4 => by
        have e1 : a = 10 := (Option.some.inj h1).symm
        have e2 : b = 14 := (Option.some.inj h2).symm
        have e3 : x = 2 := (Option.some.inj h3).symm
        have e4 : y = 9 := (Option.some.inj h4).symm
        subst e1 e2 e3 e4
        decide)⟩

theorem associate_eq (idx idx1 : TimesliceIndex) (t slot : Nat)
    (h : associate idx t slot = Except.ok idx1) :
    ∃ ctx, ctx.timestamp? = some t ∧ slot < idx.mVariables.length ∧
      idx1 = { idx with mVariables := idx.mVariables.set slot ctx,
                        mDirty := idx.mDirty.set slot true } := by
  cases hv : idx.mVariables[slot]? with
  | none => simp [associate, readAt, hv, bind, Except.bind] at h
  | some ctx0 =>
    by_cases hs : slot < idx.mVariables.length
    · by_cases hd : slot < idx.mDirty.length
      · simp [associate, readAt, hv, writeAt, hs, hd, bind, Except.bind, pure, Except.pure] at h
        refine ⟨_, ?_, hs, h.symm⟩
        simp [VariableContext.timestamp?, VariableContext.get, VariableContext.put,
          VariableContext.commit]
      · simp [associate, readAt, hv, writeAt, hs, hd, bind, Except.bind, pure, Except.pure] at h
    · simp [associate, readAt, hv, writeAt, hs, bind, Except.bind] at h

theorem validateSlot_changed (idx idx1 : TimesliceIndex) (slot cur : Nat) (b : Bool)
    (h : validateSlot idx slot cur = Except.ok (b, idx1)) :
    idx1 = idx ∨ (idx.mDirty[slot]? = some false ∧
      idx1 = { idx with mVariables := idx.mVariables.set slot VariableContext.empty }) := by
  cases hd : idx.mDirty[slot]? with
  | none => simp [validateSlot, readAt, hd, bind, Except.bind] at h
  | some dirty =>
    cases dirty with
    | true =>
      rw [validateSlot_dirty idx slot cur hd] at h
      cases h
      exact Or.inl rfl
    | false =>
      cases hv : idx.mVariables[slot]? with
      | none => simp [validateSlot, readAt, hd, hv, bind, Except.bind] at h
      | some ctx0 =>
        by_cases hst : ∃ ts, ctx0.timestamp? = some ts ∧
            ts < idx.mOldestPossibleInput.timeslice
        · obtain ⟨ts, hts, hlt⟩ := hst
          rw [validateSlot_stale idx slot cur ts ctx0 hd hv hts hlt] at h
          cases h
          exact Or.inr ⟨rfl, rfl⟩
        · rw [validateSlot_current idx slot cur ctx0 hd hv
            (fun ts hts hlt => hst ⟨ts, hts, hlt⟩)] at h
          cases h
          exact Or.inl rfl

theorem setOldestPossibleInput_slots (idx idx1 : TimesliceIndex) (t : Nat) (c : Int)
    (r : OldestInputInfo) (h : setOldestPossibleInput idx t c = Except.ok (r, idx1)) :
    idx1.mVariables = idx.mVariables ∧ idx1.mDirty = idx.mDirty := by
  by_cases hc : c < 0
  · simp [setOldestPossibleInput, hc] at h
  · cases hinfo : idx.mChannels[c.toNat]? with
    | none => simp [setOldestPossibleInput, hc, readAt, hinfo] at h
    | some info =>
      rw [setOldestPossibleInput_ok idx t c info (by omega) hinfo] at h
      cases h
      exact ⟨rfl, rfl⟩

theorem dirty_step (s s1 : TimesliceIndex) (call : Call) (hinv : DirtyInvariant s)
    (ha : call.apply s = Except.ok s1) :
    DirtyInvariant s1 ∧ ∀ i : Nat, s.mDirty[i]? = some true → s1.mDirty[i]? = some true := by
  cases call with
  | setOldestPossibleInput t c =>
    simp only [Call.apply] at ha
    cases hr : setOldestPossibleInput s t c with
    | error e => rw [hr] at ha; exact Except.noConfusion ha
    | ok p =>
      obtain ⟨r, s2⟩ := p
      rw [hr] at ha
      cases ha
      obtain ⟨e1, e2⟩ := setOldestPossibleInput_slots s s1 t c r hr
      refine ⟨?_, ?_⟩
      · intro i hi
        rw [e1]
        rw [e2] at hi
        exact hinv i hi
      · intro i hi
        rw [e2]
        exact hi
  | associate t slot =>
    simp only [Call.apply] at ha
    obtain ⟨ctx, hts, hs, heq⟩ := associate_eq s s1 t slot ha
    subst heq
    refine ⟨?_, ?_⟩
    · intro i hi
      simp only at hi ⊢
      rw [slotTimestamp_set]
      by_cases h : slot = i
      · rw [if_pos ⟨h, hs⟩]
        exact ⟨t, hts⟩
      · rw [if_neg (fun hh => h hh.1)]
        rw [List.getElem?_set_ne h] at hi
        exact hinv i hi
    · intro i hi
      simp only
      by_cases h : slot = i
      · subst h
        have hlt : slot < s.mDirty.length := by
          by_contra hn
          have : s.mDirty[slot]? = none := List.getElem?_eq_none (by omega)
          rw [this] at hi
          exact Option.noConfusion hi
        simp [hlt]
      · rw [List.getElem?_set_ne h]
        exact hi
  | replaceLRUWith c t =>
    simp only [Call.apply] at ha
    cases hr : replaceLRUWith s c t with
    | error e => rw [hr] at ha; exact Except.noConfusion ha
    | ok p =>
      obtain ⟨⟨action, slot⟩, s2⟩ := p
      rw [hr] at ha
      cases ha
      rcases replaceLRUWith_shape s s1 c t action slot hr with
        ⟨_, _, he⟩ | ⟨hact, hf, hs, he⟩
      · subst he; exact ⟨hinv, fun i hi => hi⟩
      · have haction := replaceLRUWith_action s s1 c t slot action slot hf hr
        subst he
        refine ⟨?_, fun i hi => hi⟩
        intro i hi
        simp only at hi ⊢
        rw [slotTimestamp_set]
        by_cases h : slot = i
        · rw [if_pos ⟨h, hs⟩]
          subst h
          obtain ⟨old, hold⟩ := hinv slot hi
          rw [hold] at haction
          cases hc : c.timestamp? with
          | some new => exact ⟨new, rfl⟩
          | none =>
            rw [hc] at haction
            simp only [actionFor] at haction
            rcases hact with h1 | h1 <;> rw [h1] at haction <;> cases haction
        · rw [if_neg (fun hh => h hh.1)]
          exact hinv i hi
  | validateSlot slot cur =>
    simp only [Call.apply] at ha
    cases hr : validateSlot s slot cur with
    | error e => rw [hr] at ha; exact Except.noConfusion ha
    | ok p =>
      obtain ⟨b, s2⟩ := p
      rw [hr] at ha
      cases ha
      rcases validateSlot_changed s s1 slot cur b hr with he | ⟨hd, he⟩
      · subst he; exact ⟨hinv, fun i hi => hi⟩
      · subst he
        refine ⟨?_, fun i hi => hi⟩
        intro i hi
        simp only at hi ⊢
        rw [slotTimestamp_set]
        by_cases h : slot = i
        · subst h
          rw [hd] at hi
          exact absurd hi (by decide)
        · rw [if_neg (fun hh => h hh.1)]
          exact hinv i hi
  | updateOldestPossibleOutput =>
    simp only [Call.apply, updateOldestPossibleOutput] at ha
    cases ha
    exact ⟨hinv, fun i hi => hi⟩

theorem dirty_run (calls : List Call) :
    ∀ s s1 : TimesliceIndex, DirtyInvariant s → applyAll s calls = Except.ok s1 →
      DirtyInvariant s1 := by
  induction calls with
  | nil =>
    intro s s1 hinv h
    simp only [applyAll] at h
    cases h
    exact hinv
  | cons call rest ih =>
    intro s s1 hinv h
    cases ha : call.apply s with
    | error e => simp [applyAll, ha] at h
    | ok s2 =>
      simp only [applyAll, ha] at h
      exact ih s2 s1 (dirty_step s s2 call hinv ha).1 h

/-- C22 (counterexample): on a freshly resized index of four slots,
`replaceLRUWith` commits timestamp 10 into slot 2 and leaves the dirty flag of
slot 2 cleared. -/
theorem committed_slot_not_dirty :
    (∀ ctx ∈ (freshIndex 4 BackpressureOp.Wait [] 4).mVariables, ctx.timestamp? = none) ∧
    (∀ d ∈ (freshIndex 4 BackpressureOp.Wait [] 4).mDirty, d = false) ∧
    ∃ s, applyAll (freshIndex 4 BackpressureOp.Wait [] 4)
        [Call.replaceLRUWith (contextOf 10) 10] = Except.ok s ∧
      slotTimestamp s.mVariables 2 = some 10 ∧ s.mDirty[2]? = some false :=
  ⟨by decide, by decide, _, rfl, rfl, rfl⟩

/-- C22 (amended): in every state reached from an index whose dirty flags are all
cleared (as after `resize`) by any sequence of `associate`, `replaceLRUWith`,
`validateSlot`, `setOldestPossibleInput` and `updateOldestPossibleOutput` calls,
every slot whose dirty flag is set holds a committed timestamp (a slot may hold one
with the flag cleared), and none of these calls changes a dirty flag from set to
cleared. -/
theorem dirty_slots_hold_timestamps (idx0 s : TimesliceIndex) (calls : List Call)
    (hstart : ∀ d ∈ idx0.mDirty, d = false)
    (hrun : applyAll idx0 calls = Except.ok s) :
    (∀ i : Nat, s.mDirty[i]? = some true → ∃ v, slotTimestamp s.mVariables i = some v) ∧
    (∀ call s1, Call.apply s call = Except.ok s1 →
      ∀ i : Nat, s.mDirty[i]? = some true → s1.mDirty[i]? = some true) := by
  have h0 : DirtyInvariant idx0 := by
    intro i hi
    have := hstart true (List.getElem?_mem hi)
    exact absurd this (by decide)
  have hs := dirty_run calls idx0 s h0 hrun
  exact ⟨hs, fun call s1 ha => (dirty_step s s1 call hs ha).2⟩

/-- Witness for C22 (amended): one data channel, one slot; timestamp 25 is
associated with slot 0, the channel reports 30 and the fence is recomputed. -/
theorem dirty_slots_hold_timestamps_witness :
    ∃ s, applyAll singleDataChannel
        [Call.associate 25 0, Call.setOldestPossibleInput 30 0, Call.validateSlot 0 0,
          Call.updateOldestPossibleOutput] = Except.ok s ∧
      s.mDirty[0]? = some true ∧
      (∀ i : Nat, s.mDirty[i]? = some true → ∃ v, slotTimestamp s.mVariables i = some v) ∧
      (∀ call s1, Call.apply s call = Except.ok s1 →
        ∀ i : Nat, s.mDirty[i]? = some true → s1.mDirty[i]? = some true) :=
  ⟨_, rfl, rfl,
    dirty_slots_hold_timestamps singleDataChannel _
      [Call.associate 25 0, Call.setOldestPossibleInput 30 0, Call.validateSlot 0 0,
        Call.updateOldestPossibleOutput] (by decide) rfl⟩

theorem oldestInputLoop_limiting (channels : List InputChannelInfo) :
    ∀ (ci : Nat) (seed : OldestInputInfo),
      ((∀ (k : Nat) (ch : InputChannelInfo), channels[k]? = some ch →
          ch.channelType = ChannelAccountingType.DPL → seed.timeslice ≤ ch.oldestForChannel) →
        oldestInputLoop channels ci seed = seed) ∧
      ((∃ (k : Nat) (ch : InputChannelInfo), channels[k]? = some ch ∧
          ch.channelType = ChannelAccountingType.DPL ∧ ch.oldestForChannel < seed.timeslice) →
        ∃ (k : Nat) (ch : InputChannelInfo),
          (oldestInputLoop channels ci seed).channel = ((ci + k : Nat) : Int) ∧
          channels[k]? = some ch ∧ ch.channelType = ChannelAccountingType.DPL ∧
          ch.oldestForChannel = (oldestInputLoop channels ci seed).timeslice ∧
          ∀ (j : Nat) (ch1 : InputChannelInfo), j < k → channels[j]? = some ch1 →
            ch1.channelType = ChannelAccountingType.DPL →
            (oldestInputLoop channels ci seed).timeslice < ch1.oldestForChannel) := by
  induction channels with
  | nil =>
    intro ci seed
    refine ⟨fun _ => rfl, ?_⟩
    rintro ⟨k, ch, h, _⟩
    simp at h
  | cons a rest ih =>
    intro ci seed
    by_cases hq : a.channelType = ChannelAccountingType.DPL ∧
        a.oldestForChannel < seed.timeslice
    · obtain ⟨hd, hlt⟩ := hq
      have hstep : oldestInputLoop (a :: rest) ci seed =
          oldestInputLoop rest (ci + 1) ⟨a.oldestForChannel, (ci : Int)⟩ := by
        simp [oldestInputLoop, hd, hlt]
      rw [hstep]
      obtain ⟨iha, ihb⟩ := ih (ci + 1) ⟨a.oldestForChannel, (ci : Int)⟩
      obtain ⟨_, q2, _⟩ := oldestInputLoop_spec rest (ci + 1) ⟨a.oldestForChannel, (ci : Int)⟩
      refine ⟨?_, ?_⟩
      · intro hall
        have := hall 0 a (by simp) hd
        omega
      · intro _
        by_cases hex : ∃ (k : Nat) (ch : InputChannelInfo), rest[k]? = some ch ∧
            ch.channelType = ChannelAccountingType.DPL ∧
            ch.oldestForChannel < a.oldestForChannel
        · obtain ⟨k0, ch0, hk0, hd0, hlt0⟩ := hex
          obtain ⟨k, ch, h1, h2, h3, h4, h5⟩ := ihb ⟨k0, ch0, hk0, hd0, hlt0⟩
          refine ⟨k + 1, ch, ?_, by simpa using h2, h3, h4, ?_⟩
          · rw [h1]; congr 1; omega
          · intro j ch1 hj hch1 hd1
            cases j with
            | zero =>
              simp only [List.getElem?_cons_zero, Option.some.injEq] at hch1
              subst hch1
              have := q2 ch0 (List.getElem?_mem hk0) hd0
              omega
            | succ j =>
              simp only [List.getElem?_cons_succ] at hch1
              exact h5 j ch1 (by omega) hch1 hd1
        · have hall : ∀ (k : Nat) (ch : InputChannelInfo), rest[k]? = some ch →
              ch.channelType = ChannelAccountingType.DPL →
              a.oldestForChannel ≤ ch.oldestForChannel := by
            intro k ch hk hdk
            by_contra hn
            exact hex ⟨k, ch, hk, hdk, by omega⟩
          rw [iha hall]
          refine ⟨0, a, rfl, by simp, hd, rfl, ?_⟩
          intro j _ hj
          omega
    · have hstep : oldestInputLoop (a :: rest) ci seed =
          oldestInputLoop rest (ci + 1) seed := by
        by_cases hd : a.channelType = ChannelAccountingType.DPL
        · have hlt : ¬ a.oldestForChannel < seed.timeslice := fun h => hq ⟨hd, h⟩
          simp [oldestInputLoop, hd, hlt]
        · simp [oldestInputLoop, hd]
      rw [hstep]
      obtain ⟨iha, ihb⟩ := ih (ci + 1) seed
      obtain ⟨_, q2, _⟩ := oldestInputLoop_spec rest (ci + 1) seed
      refine ⟨?_, ?_⟩
      · intro hall
        exact iha (fun k ch hk hdk => hall (k + 1) ch (by simpa using hk) hdk)
      · rintro ⟨k0, ch0, hk0, hd0, hlt0⟩
        cases k0 with
        | zero =>
          simp only [List.getElem?_cons_zero, Option.some.injEq] at hk0
          subst hk0
          exact absurd ⟨hd0, hlt0⟩ hq
        | succ k0 =>
          simp only [List.getElem?_cons_succ] at hk0
          obtain ⟨k, ch, h1, h2, h3, h4, h5⟩ := ihb ⟨k0, ch0, hk0, hd0, hlt0⟩
          refine ⟨k + 1, ch, ?_, by simpa using h2, h3, h4, ?_⟩
          · rw [h1]; congr 1; omega
          · intro j ch1 hj hch1 hd1
            cases j with
            | zero =>
              simp only [List.getElem?_cons_zero, Option.some.injEq] at hch1
              subst hch1
              have h6 := q2 ch0 (List.getElem?_mem hk0) hd0
              have h7 : ¬ a.oldestForChannel < seed.timeslice := fun h => hq ⟨hd1, h⟩
              omega
            | succ j =>
              simp only [List.getElem?_cons_succ] at hch1
              exact h5 j ch1 (by omega) hch1 hd1

/-- C24: for every roster, channel `c` of the roster and timestamp `t`, the fence
`(timeslice, channel)` returned by `setOldestPossibleInput(t, c)` names a channel of
the roster whose stored `oldestForChannel` equals the returned timeslice; it is
`(t, c)` when no real data channel holds a watermark strictly below `t`, and
otherwise the channel is the lowest-index real data channel holding the minimum
over the real data channels. -/
theorem setOldestPossibleInput_limiting_channel (idx : TimesliceIndex) (c t : Nat)
    (info : InputChannelInfo) (hinfo : idx.mChannels[c]? = some info) :
    ∃ (r : OldestInputInfo) (idx1 : TimesliceIndex) (n : Nat),
      setOldestPossibleInput idx t (c : Int) = Except.ok (r, idx1) ∧
      idx1.mOldestPossibleInput = r ∧ r.channel = (n : Int) ∧
      channelWatermark idx1 n = some r.timeslice ∧
      ((∀ (k : Nat) (ch : InputChannelInfo), idx1.mChannels[k]? = some ch →
          ch.channelType = ChannelAccountingType.DPL → t ≤ ch.oldestForChannel) →
        n = c ∧ r.timeslice = t) ∧
      ((∃ (k : Nat) (ch : InputChannelInfo), idx1.mChannels[k]? = some ch ∧
          ch.channelType = ChannelAccountingType.DPL ∧ ch.oldestForChannel < t) →
        (∃ ch, idx1.mChannels[n]? = some ch ∧ ch.channelType = ChannelAccountingType.DPL) ∧
        (∀ (k : Nat) (ch : InputChannelInfo), idx1.mChannels[k]? = some ch →
          ch.channelType = ChannelAccountingType.DPL → r.timeslice ≤ ch.oldestForChannel) ∧
        (∀ (k : Nat) (ch : InputChannelInfo), k < n → idx1.mChannels[k]? = some ch →
          ch.channelType = ChannelAccountingType.DPL → r.timeslice < ch.oldestForChannel)) := by
  have hlen : c < idx.mChannels.length := by
    by_contra hn
    have : idx.mChannels[c]? = none := List.getElem?_eq_none (by omega)
    rw [this] at hinfo
    exact Option.noConfusion hinfo
  have hinfo1 : idx.mChannels[(c : Int).toNat]? = some info := by simpa using hinfo
  have hok := setOldestPossibleInput_ok idx t (c : Int) info (Int.natCast_nonneg c) hinfo1
  simp only [Int.toNat_ofNat] at hok
  obtain ⟨la, lb⟩ := oldestInputLoop_limiting
    (idx.mChannels.set c { info with oldestForChannel := t }) 0 ⟨t, (c : Int)⟩
  obtain ⟨_, q2, _⟩ := oldestInputLoop_spec
    (idx.mChannels.set c { info with oldestForChannel := t }) 0 ⟨t, (c : Int)⟩
  have hself : (idx.mChannels.set c { info with oldestForChannel := t })[c]? =
      some { info with oldestForChannel := t } := by simp [hlen]
  by_cases hex : ∃ (k : Nat) (ch : InputChannelInfo),
      (idx.mChannels.set c { info with oldestForChannel := t })[k]? = some ch ∧
      ch.channelType = ChannelAccountingType.DPL ∧ ch.oldestForChannel < t
  · obtain ⟨k, ch, h1, h2, h3, h4, h5⟩ := lb hex
    refine ⟨_, _, k, hok, rfl, by rw [h1]; simp, ?_, ?_, ?_⟩
    · simp only [channelWatermark, h2, h4]
    · intro hall
      obtain ⟨k0, ch0, hk0, hd0, hlt0⟩ := hex
      have := hall k0 ch0 hk0 hd0
      omega
    · intro _
      exact ⟨⟨ch, h2, h3⟩, fun k1 ch1 hk1 hd1 => q2 ch1 (List.getElem?_mem hk1) hd1, h5⟩
  · have hall : ∀ (k : Nat) (ch : InputChannelInfo),
        (idx.mChannels.set c { info with oldestForChannel := t })[k]? = some ch →
        ch.channelType = ChannelAccountingType.DPL → t ≤ ch.oldestForChannel := by
      intro k ch hk hdk
      by_contra hn
      exact hex ⟨k, ch, hk, hdk, by omega⟩
    have hres := la hall
    refine ⟨_, _, c, hok, rfl, by rw [hres], ?_, ?_, ?_⟩
    · simp only [channelWatermark, hself, hres]
    · intro _
      exact ⟨rfl, by rw [hres]⟩
    · intro h
      exact absurd h hex

/-- Witness for C24: roster with data channel 0 at watermark 10 and auxiliary
channel 1; the report `(20, channel 1)` returns the fence `(10, channel 0)`. -/
theorem setOldestPossibleInput_limiting_channel_witness :
    setOldestPossibleInput (afterReport dataAndAuxiliary 10 0) 20 1 =
        Except.ok (⟨10, 0⟩, afterReport (afterReport dataAndAuxiliary 10 0) 20 1) ∧
    ∃ (r : OldestInputInfo) (idx1 : TimesliceIndex) (n : Nat),
      setOldestPossibleInput (afterReport dataAndAuxiliary 10 0) 20 ((1 : Nat) : Int) =
        Except.ok (r, idx1) ∧
      idx1.mOldestPossibleInput = r ∧ r.channel = (n : Int) ∧
      channelWatermark idx1 n = some r.timeslice :=
  ⟨rfl, (setOldestPossibleInput_limiting_channel (afterReport dataAndAuxiliary 10 0) 1 20
    ⟨ChannelAccountingType.Auxiliary, 0⟩ rfl).imp
      (fun _ h => h.imp (fun _ h2 => h2.imp (fun _ h3 => ⟨h3.1, h3.2.1, h3.2.2.1, h3.2.2.2.1⟩)))⟩

theorem slotTimestamp_cons_zero (a : VariableContext) (rest : List VariableContext) :
    slotTimestamp (a :: rest) 0 = a.timestamp? := by
  simp [slotTimestamp]

theorem slotTimestamp_cons_succ (a : VariableContext) (rest : List VariableContext) (k : Nat) :
    slotTimestamp (a :: rest) (k + 1) = slotTimestamp rest k := by
  simp [slotTimestamp]

theorem oldestOutputLoop_limiting (vars : List VariableContext) :
    ∀ (i : Nat) (seed : OldestOutputInfo),
      ((∀ (k v : Nat), slotTimestamp vars k = some v → seed.timeslice ≤ v) →
        oldestOutputLoop vars i seed = seed) ∧
      ((∃ (k v : Nat), slotTimestamp vars k = some v ∧ v < seed.timeslice) →
        (oldestOutputLoop vars i seed).channel = -1 ∧
        ∃ k : Nat, (oldestOutputLoop vars i seed).slot = i + k ∧
          slotTimestamp vars k = some (oldestOutputLoop vars i seed).timeslice ∧
          ∀ (j v : Nat), j < k → slotTimestamp vars j = some v →
            (oldestOutputLoop vars i seed).timeslice < v) := by
  induction vars with
  | nil =>
    intro i seed
    refine ⟨fun _ => rfl, ?_⟩
    rintro ⟨k, v, h, _⟩
    simp [slotTimestamp] at h
  | cons a rest ih =>
    intro i seed
    by_cases hq : ∃ ts, a.timestamp? = some ts ∧ ts < seed.timeslice
    · obtain ⟨ts, hts, hlt⟩ := hq
      have hstep : oldestOutputLoop (a :: rest) i seed =
          oldestOutputLoop rest (i + 1) ⟨ts, -1, i⟩ := by
        simp [oldestOutputLoop, hts, hlt]
      rw [hstep]
      obtain ⟨iha, ihb⟩ := ih (i + 1) ⟨ts, -1, i⟩
      obtain ⟨_, q2, _⟩ := oldestOutputLoop_spec rest (i + 1) ⟨ts, -1, i⟩
      refine ⟨?_, ?_⟩
      · intro hall
        have := hall 0 ts (by rw [slotTimestamp_cons_zero]; exact hts)
        omega
      · intro _
        by_cases hex : ∃ (k v : Nat), slotTimestamp rest k = some v ∧ v < ts
        · obtain ⟨k0, v0, hk0, hlt0⟩ := hex
          obtain ⟨h1, k, h2, h3, h4⟩ := ihb ⟨k0, v0, hk0, hlt0⟩
          refine ⟨h1, k + 1, by rw [h2]; omega, by rw [slotTimestamp_cons_succ]; exact h3, ?_⟩
          intro j v hj hv
          cases j with
          | zero =>
            rw [slotTimestamp_cons_zero, hts] at hv
            have hv1 : ts = v := Option.some.inj hv
            obtain ⟨ctx, hmem, hctx⟩ := slotTimestamp_mem hk0
            have := q2 ctx hmem v0 hctx
            omega
          | succ j =>
            rw [slotTimestamp_cons_succ] at hv
            exact h4 j v (by omega) hv
        · have hall : ∀ (k v : Nat), slotTimestamp rest k = some v → ts ≤ v := by
            intro k v hk
            by_contra hn
            exact hex ⟨k, v, hk, by omega⟩
          rw [iha hall]
          refine ⟨rfl, 0, rfl, by rw [slotTimestamp_cons_zero]; exact hts, ?_⟩
          intro j _ hj
          omega
    · have hstep : oldestOutputLoop (a :: rest) i seed =
          oldestOutputLoop rest (i + 1) seed := by
        cases hts : a.timestamp? with
        | none => simp [oldestOutputLoop, hts]
        | some ts =>
          have hlt : ¬ ts < seed.timeslice := fun h => hq ⟨ts, hts, h⟩
          simp [oldestOutputLoop, hts, hlt]
      rw [hstep]
      obtain ⟨iha, ihb⟩ := ih (i + 1) seed
      obtain ⟨_, q2, _⟩ := oldestOutputLoop_spec rest (i + 1) seed
      refine ⟨?_, ?_⟩
      · intro hall
        exact iha (fun k v hk => hall (k + 1) v (by rw [slotTimestamp_cons_succ]; exact hk))
      · rintro ⟨k0, v0, hk0, hlt0⟩
        cases k0 with
        | zero =>
          rw [slotTimestamp_cons_zero] at hk0
          exact absurd ⟨v0, hk0, hlt0⟩ hq
        | succ k0 =>
          rw [slotTimestamp_cons_succ] at hk0
          obtain ⟨h1, k, h2, h3, h4⟩ := ihb ⟨k0, v0, hk0, hlt0⟩
          refine ⟨h1, k + 1, by rw [h2]; omega, by rw [slotTimestamp_cons_succ]; exact h3, ?_⟩
          intro j v hj hv
          cases j with
          | zero =>
            rw [slotTimestamp_cons_zero] at hv
            have h7 : ¬ v < seed.timeslice := fun h => hq ⟨v, hv, h⟩
            obtain ⟨ctx, hmem, hctx⟩ := slotTimestamp_mem hk0
            have := q2 ctx hmem v0 hctx
            omega
          | succ j =>
            rw [slotTimestamp_cons_succ] at hv
            exact h4 j v (by omega) hv

/-- C25: when some occupied slot holds a timestamp strictly below the
OldestPossibleInput timeslice, the result of `updateOldestPossibleOutput` has
channel `-1` and its slot is the lowest-index occupied slot holding the returned
timestamp, which is the minimum over the occupied slots; otherwise the timeslice
and channel of the result are those of the stored OldestPossibleInput. -/
theorem updateOldestPossibleOutput_limiting (idx : TimesliceIndex) :
    ((∃ (k v : Nat), slotTimestamp idx.mVariables k = some v ∧
        v < idx.mOldestPossibleInput.timeslice) →
      (updateOldestPossibleOutput idx).1.channel = -1 ∧
      slotTimestamp idx.mVariables (updateOldestPossibleOutput idx).1.slot =
        some (updateOldestPossibleOutput idx).1.timeslice ∧
      (∀ (k v : Nat), slotTimestamp idx.mVariables k = some v →
        (updateOldestPossibleOutput idx).1.timeslice ≤ v) ∧
      (∀ (k v : Nat), k < (updateOldestPossibleOutput idx).1.slot →
        slotTimestamp idx.mVariables k = some v →
        (updateOldestPossibleOutput idx).1.timeslice < v)) ∧
    ((∀ (k v : Nat), slotTimestamp idx.mVariables k = some v →
        idx.mOldestPossibleInput.timeslice ≤ v) →
      (updateOldestPossibleOutput idx).1.timeslice = idx.mOldestPossibleInput.timeslice ∧
      (updateOldestPossibleOutput idx).1.channel = idx.mOldestPossibleInput.channel) := by
  obtain ⟨la, lb⟩ := oldestOutputLoop_limiting idx.mVariables 0
    ⟨idx.mOldestPossibleInput.timeslice, idx.mOldestPossibleInput.channel, 0⟩
  obtain ⟨_, q2, _⟩ := oldestOutputLoop_spec idx.mVariables 0
    ⟨idx.mOldestPossibleInput.timeslice, idx.mOldestPossibleInput.channel, 0⟩
  refine ⟨?_, ?_⟩
  · intro hex
    obtain ⟨h1, k, h2, h3, h4⟩ := lb hex
    have hslot : (updateOldestPossibleOutput idx).1.slot = k := by
      simp only [updateOldestPossibleOutput, getOldestPossibleInput]
      rw [h2]; omega
    refine ⟨h1, ?_, ?_, ?_⟩
    · rw [hslot]; exact h3
    · intro k1 v hv
      obtain ⟨ctx, hmem, hctx⟩ := slotTimestamp_mem hv
      exact q2 ctx hmem v hctx
    · intro k1 v hk1 hv
      rw [hslot] at hk1
      exact h4 k1 v hk1 hv
  · intro hall
    have hres : (updateOldestPossibleOutput idx).1 =
        ⟨idx.mOldestPossibleInput.timeslice, idx.mOldestPossibleInput.channel, 0⟩ := la hall
    rw [hres]
    exact ⟨rfl, rfl⟩

/-- Witness for C25: the slots hold 4, 7, 2, 3 while the data channel reported 5;
the result is timeslice 2, channel `-1`, slot 2.  On the index whose only slot is
unoccupied the result carries the input fence and its channel. -/
theorem updateOldestPossibleOutput_limiting_witness :
    (updateOldestPossibleOutput
        { twoLanesFull with mOldestPossibleInput := ⟨5, 0⟩ }).1 = ⟨2, -1, 2⟩ ∧
    (updateOldestPossibleOutput
        { twoLanesFull with mOldestPossibleInput := ⟨5, 0⟩ }).1.channel = -1 ∧
    (updateOldestPossibleOutput singleDataChannel).1.timeslice =
      singleDataChannel.mOldestPossibleInput.timeslice :=
  ⟨rfl,
    ((updateOldestPossibleOutput_limiting
      { twoLanesFull with mOldestPossibleInput := ⟨5, 0⟩ }).1 ⟨0, 4, rfl, by decide⟩).1,
    ((updateOldestPossibleOutput_limiting singleDataChannel).2
      (fun k v hv => by
        rw [slotTimestamp_none_of_all (by decide) k] at hv
        exact Option.noConfusion hv)).1⟩

theorem toUInt16_of_lt (x : Nat) (h : x < 65536) : ChipMappingITS.toUInt16 (x : Int) = x := by
  unfold ChipMappingITS.toUInt16
  omega

/-- C26: for every layer `lr < 7`, every stave index `ruOnLr < NStavesOnLr[lr]` and
every `link < 3`, `expandFEEId(composeFEEId(lr, ruOnLr, link))` returns exactly
`(lr, ruOnLr, link)`, the composed id being reduced to 16 bits and the stave-count
modulo of the RU-id override being applied. -/
theorem composeFEEId_expandFEEId (lr ruOnLr link : Nat) (nStaves : Int)
    (hlr : lr < 7) (hn : readAt ChipMappingITS.NStavesOnLr lr = Except.ok nStaves)
    (hru : (ruOnLr : Int) < nStaves) (hlink : link < 3) :
    ChipMappingITS.expandFEEId (ChipMappingITS.composeFEEId lr ruOnLr link) =
      Except.ok (lr, ruOnLr, link) := by
  have hn48 : nStaves ≤ 48 ∧ 0 < nStaves := by
    interval_cases lr <;>
      simp [readAt, ChipMappingITS.NStavesOnLr] at hn <;> omega
  have hru48 : ruOnLr < 48 := by omega
  have hfee : ChipMappingITS.composeFEEId lr ruOnLr link = lr * 4096 + link * 256 + ruOnLr := by
    unfold ChipMappingITS.composeFEEId
    rw [Nat.shiftLeft_eq, Nat.shiftLeft_eq]
    exact toUInt16_of_lt _ (by norm_num; omega)
  have h12 : (lr * 4096 + link * 256 + ruOnLr) >>> 12 = lr := by
    rw [Nat.shiftRight_eq_div_pow]; norm_num; omega
  have h8 : ((lr * 4096 + link * 256 + ruOnLr) >>> 8) &&& 0x3 = link := by
    rw [Nat.shiftRight_eq_div_pow]
    have : (0x3 : Nat) = 2 ^ 2 - 1 := by norm_num
    rw [this, Nat.and_pow_two_sub_one_eq_mod]
    norm_num; omega
  have h6 : (lr * 4096 + link * 256 + ruOnLr) &&& 0x3f = ruOnLr := by
    have : (0x3f : Nat) = 2 ^ 6 - 1 := by norm_num
    rw [this, Nat.and_pow_two_sub_one_eq_mod]
    norm_num; omega
  have hmod : Int.tmod (ruOnLr : Int) nStaves = (ruOnLr : Int) := by
    rw [Int.tmod_eq_emod (Int.natCast_nonneg _) (by omega)]
    exact Int.emod_eq_of_lt (Int.natCast_nonneg _) hru
  rw [hfee]
  simp only [ChipMappingITS.expandFEEId, h12, h8, h6, hn, hmod, bind, Except.bind, pure,
    Except.pure]
  rw [toUInt16_of_lt _ (by omega)]

/-- Witness for C26: layer 6, stave 47, link 2. -/
theorem composeFEEId_expandFEEId_witness :
    ChipMappingITS.expandFEEId (ChipMappingITS.composeFEEId 6 47 2) = Except.ok (6, 47, 2) :=
  composeFEEId_expandFEEId 6 47 2 48 (by decide) rfl (by decide) (by decide)

theorem getLayer_of_range (lay x firstChip nChips : Int) (h0 : 0 ≤ lay) (h6 : lay ≤ 6)
    (hf : ChipMappingITS.getFirstChipsOnLayer lay = Except.ok firstChip)
    (hc : ChipMappingITS.getNChipsOnLayer lay = Except.ok nChips)
    (hlo : firstChip ≤ x) (hhi : x < firstChip + nChips) :
    ChipMappingITS.getLayer x = Except.ok lay := by
  interval_cases lay <;>
    simp [ChipMappingITS.getFirstChipsOnLayer, ChipMappingITS.getNChipsOnLayer,
      ChipMappingITS.tableAt, readAt, ChipMappingITS.FirstChipsOnLr,
      ChipMappingITS.NChipsOnLr] at hf hc <;>
    subst hf hc <;>
    simp only [ChipMappingITS.getLayer, ChipMappingITS.getLayerLoop, readAt,
      ChipMappingITS.FirstChipsOnLr, ChipMappingITS.NChipsOnLr, ChipMappingITS.NLayers] <;>
    simp <;>
    first
      | (intro h; omega)
      | (repeat (first | rfl | rw [if_pos (by omega)] | rw [if_neg (by omega)]))

theorem toUInt16_cast (x : Int) (h0 : 0 ≤ x) (h1 : x < 65536) :
    ((ChipMappingITS.toUInt16 x : Nat) : Int) = x := by
  unfold ChipMappingITS.toUInt16
  rw [Int.emod_eq_of_lt h0 h1]
  exact Int.toNat_of_nonneg h0

theorem chip_ranges
    (lay staSW modSW chipInModSW firstStave nStaves ruType nModules chipsPerModule
      chipsPerStave firstChip nChips : Int)
    (h0 : 0 ≤ lay) (h6 : lay ≤ 6)
    (hfs : ChipMappingITS.getFirstStavesOnLr lay = Except.ok firstStave)
    (hns : ChipMappingITS.getNStavesOnLr lay = Except.ok nStaves)
    (hru : ChipMappingITS.tableAt ChipMappingITS.RUTypeLr lay = Except.ok ruType)
    (hnm : ChipMappingITS.getNModulesPerStave ruType = Except.ok nModules)
    (hcm : ChipMappingITS.tableAt ChipMappingITS.NChipsPerModuleSB ruType =
      Except.ok chipsPerModule)
    (hcs : ChipMappingITS.tableAt ChipMappingITS.NChipsPerStaveSB ruType =
      Except.ok chipsPerStave)
    (hfc : ChipMappingITS.getFirstChipsOnLayer lay = Except.ok firstChip)
    (hnc : ChipMappingITS.getNChipsOnLayer lay = Except.ok nChips)
    (hsta : firstStave ≤ staSW) (hsta2 : staSW < firstStave + nStaves)
    (hmod : 0 ≤ modSW) (hmod2 : modSW < nModules)
    (hchip : 0 ≤ chipInModSW) (hchip2 : chipInModSW < chipsPerModule) :
    (0 ≤ firstChip ∧ firstChip + nChips ≤ 65536) ∧
    (firstChip ≤ firstChip + (staSW - firstStave) * chipsPerStave + chipInModSW ∧
      firstChip + (staSW - firstStave) * chipsPerStave + chipInModSW < firstChip + nChips) ∧
    (ruType = 0 → modSW * chipsPerModule = 0) ∧
    (0 ≤ modSW * chipsPerModule ∧
      firstChip + (staSW - firstStave) * chipsPerStave + chipInModSW +
        modSW * chipsPerModule < firstChip + nChips) := by
  interval_cases lay <;>
    simp [ChipMappingITS.getFirstStavesOnLr, ChipMappingITS.getNStavesOnLr,
      ChipMappingITS.getFirstChipsOnLayer, ChipMappingITS.getNChipsOnLayer,
      ChipMappingITS.tableAt, readAt, ChipMappingITS.FirstStaveOnLr,
      ChipMappingITS.NStavesOnLr, ChipMappingITS.FirstChipsOnLr, ChipMappingITS.NChipsOnLr,
      ChipMappingITS.RUTypeLr, ChipMappingITS.IB, ChipMappingITS.MB, ChipMappingITS.OB]
      at hfs hns hru hfc hnc <;>
    subst hfs hns hru hfc hnc <;>
    simp [ChipMappingITS.getNModulesPerStave, ChipMappingITS.tableAt, readAt,
      ChipMappingITS.NModulesPerStaveSB, ChipMappingITS.NChipsPerModuleSB,
      ChipMappingITS.NChipsPerStaveSB] at hnm hcm hcs <;>
    subst hnm hcm hcs <;>
    refine ⟨⟨?_, ?_⟩, ⟨?_, ?_⟩, ?_, ⟨?_, ?_⟩⟩ <;>
    (try intro h) <;>
    omega

/-- C27: for every layer `lay` in 0..6, every absolute stave of that layer, every
module index below `NModulesPerStave` and every chip index below `NChipsPerModule`
of the layer's RU type, `getGlobalChipIDSW` returns an id `g` that equals the
unreduced sum (no 16-bit wrap), lies in
`[getFirstChipsOnLayer(lay), getFirstChipsOnLayer(lay) + getNChipsOnLayer(lay))`,
and satisfies `getLayer(g) = lay`. -/
theorem getGlobalChipIDSW_layer
    (lay staSW modSW chipInModSW firstStave nStaves ruType nModules chipsPerModule
      chipsPerStave firstChip nChips : Int)
    (h0 : 0 ≤ lay) (h6 : lay ≤ 6)
    (hfs : ChipMappingITS.getFirstStavesOnLr lay = Except.ok firstStave)
    (hns : ChipMappingITS.getNStavesOnLr lay = Except.ok nStaves)
    (hru : ChipMappingITS.tableAt ChipMappingITS.RUTypeLr lay = Except.ok ruType)
    (hnm : ChipMappingITS.getNModulesPerStave ruType = Except.ok nModules)
    (hcm : ChipMappingITS.tableAt ChipMappingITS.NChipsPerModuleSB ruType =
      Except.ok chipsPerModule)
    (hcs : ChipMappingITS.tableAt ChipMappingITS.NChipsPerStaveSB ruType =
      Except.ok chipsPerStave)
    (hfc : ChipMappingITS.getFirstChipsOnLayer lay = Except.ok firstChip)
    (hnc : ChipMappingITS.getNChipsOnLayer lay = Except.ok nChips)
    (hsta : firstStave ≤ staSW) (hsta2 : staSW < firstStave + nStaves)
    (hmod : 0 ≤ modSW) (hmod2 : modSW < nModules)
    (hchip : 0 ≤ chipInModSW) (hchip2 : chipInModSW < chipsPerModule) :
    ∃ g : Nat, ChipMappingITS.getGlobalChipIDSW lay staSW modSW chipInModSW = Except.ok g ∧
      (g : Int) = firstChip + (staSW - firstStave) * chipsPerStave + chipInModSW +
        (if ruType ≠ 0 then modSW * chipsPerModule else 0) ∧
      g < 65536 ∧ firstChip ≤ (g : Int) ∧ (g : Int) < firstChip + nChips ∧
      ChipMappingITS.getLayer (g : Int) = Except.ok lay := by
  obtain ⟨⟨hf0, hfn⟩, ⟨he1, he2⟩, hzero, ⟨hm0, he3⟩⟩ :=
    chip_ranges lay staSW modSW chipInModSW firstStave nStaves ruType nModules chipsPerModule
      chipsPerStave firstChip nChips h0 h6 hfs hns hru hnm hcm hcs hfc hnc hsta hsta2
      hmod hmod2 hchip hchip2
  have hc1 := toUInt16_cast
    (firstChip + (staSW - firstStave) * chipsPerStave + chipInModSW) (by omega) (by omega)
  by_cases ht : ruType = 0
  · subst ht
    refine ⟨ChipMappingITS.toUInt16
      (firstChip + (staSW - firstStave) * chipsPerStave + chipInModSW), ?_, ?_, ?_, ?_, ?_, ?_⟩
    · simp [ChipMappingITS.getGlobalChipIDSW, hfc, hfs, hru, hcs, bind, Except.bind,
        pure, Except.pure]
    · rw [hc1]; simp
    · omega
    · omega
    · omega
    · exact getLayer_of_range lay _ firstChip nChips h0 h6 hfc hnc (by omega) (by omega)
  · have hc2 := toUInt16_cast
      (((ChipMappingITS.toUInt16
        (firstChip + (staSW - firstStave) * chipsPerStave + chipInModSW) : Nat) : Int) +
        modSW * chipsPerModule) (by omega) (by omega)
    refine ⟨ChipMappingITS.toUInt16
      (((ChipMappingITS.toUInt16
        (firstChip + (staSW - firstStave) * chipsPerStave + chipInModSW) : Nat) : Int) +
        modSW * chipsPerModule), ?_, ?_, ?_, ?_, ?_, ?_⟩
    · simp [ChipMappingITS.getGlobalChipIDSW, hfc, hfs, hru, hcs, hcm, ht, bind, Except.bind,
        pure, Except.pure]
    · rw [hc2, hc1]; simp [ht]
    · omega
    · omega
    · omega
    · exact getLayer_of_range lay _ firstChip nChips h0 h6 hfc hnc (by omega) (by omega)

/-- Witness for C27: layer 3 (first stave 48, 24 staves, RU type MB), stave 50,
module 7, chip 13 give the chip id 767, which lies in layer 3. -/
theorem getGlobalChipIDSW_layer_witness :
    ∃ g : Nat, ChipMappingITS.getGlobalChipIDSW 3 50 7 13 = Except.ok g ∧
      (g : Int) = 432 + (50 - 48) * (8 * 14) + 13 + (if (1 : Int) ≠ 0 then 7 * 14 else 0) ∧
      g < 65536 ∧ (432 : Int) ≤ (g : Int) ∧ (g : Int) < 432 + 2688 ∧
      ChipMappingITS.getLayer (g : Int) = Except.ok 3 :=
  getGlobalChipIDSW_layer 3 50 7 13 48 24 1 8 14 (8 * 14) 432 2688 (by decide) (by decide)
    rfl rfl rfl rfl rfl rfl rfl rfl (by decide) (by decide) (by decide) (by decide)
    (by decide) (by decide)

end O2
